import Mathlib


/-!
Verification of the symmetric block-cipher toolkit (AES / Blowfish / Twofish
engines, ECB/CBC/CFB/OFB/CTR mode layer, PKCS#7 padding layer).

Shallow embedding conventions:
* a `Uint8Array` is a `List Nat` whose entries are intended to be `< 256`;
* a 32-bit word is a `Nat` intended to be `< 2^32`; JavaScript coercions
  (`>>> 0`, stores into `Uint32Array`) are made explicit with `% 4294967296`;
* functions that `throw` are embedded as `Option`-returning functions
  (`none` = exception);
* out-of-range `TypedArray` reads (which give `undefined`, coerced to 0 by
  the surrounding arithmetic) are embedded with `List.getD _ _ 0`.

Each section names the source file the definitions are translated from.
-/

/-! ## PKCS#7 padding — src/src/algorithms/utils/padding.ts -/

/-- `pkcs7Pad` from padding.ts.  The JavaScript source computes
`padLen = blockSize - (data.length % blockSize || blockSize)`:
the `||` takes `blockSize` when the remainder is `0`, so the subtraction
yields `0` for aligned input.  `out.fill(padLen, data.length)` appends
`padLen` bytes of value `padLen`. -/
def pkcs7Pad (data : List Nat) (blockSize : Nat) : Option (List Nat) :=
  if blockSize < 1 ∨ blockSize > 255 then none
  else
    let r := data.length % blockSize
    let padLen := blockSize - (if r = 0 then blockSize else r)
    some (data ++ List.replicate padLen padLen)


/-- `pkcs7Unpad` from padding.ts: rejects empty or unaligned input, reads the
last byte as `padLen`, rejects `padLen < 1` or `padLen > blockSize`, then
checks the last `padLen` bytes one by one (the source loop exits at the first
mismatch by throwing), and finally drops the trailing `padLen` bytes. -/
def pkcs7Unpad (data : List Nat) (blockSize : Nat) : Option (List Nat) :=
  if data.length = 0 ∨ data.length % blockSize ≠ 0 then none
  else if data.getD (data.length - 1) 0 < 1 ∨
      data.getD (data.length - 1) 0 > blockSize then none
  else if (List.range (data.getD (data.length - 1) 0)).all
      (fun j => decide (data.getD
        (data.length - data.getD (data.length - 1) 0 + j) 0 =
        data.getD (data.length - 1) 0)) then
    some (data.take (data.length - data.getD (data.length - 1) 0))
  else none


/-- Number of comparisons executed by the validation loop of `pkcs7Unpad`
on the trailing bytes: the source loop `for (i = len - padLen; i < len; i++)`
throws at the first mismatching byte, so the comparison that fails is the
last one executed. -/
def padCheckCompares (tail : List Nat) (padLen : Nat) : Nat :=
  match tail with
  | [] => 0
  | b :: rest => if b = padLen then 1 + padCheckCompares rest padLen else 1


/-- Comparison count of the whole `pkcs7Unpad` run (0 when the validation
loop is never entered because an earlier guard already threw). -/
def pkcs7UnpadCompares (data : List Nat) (blockSize : Nat) : Nat :=
  if data.length = 0 ∨ data.length % blockSize ≠ 0 then 0
  else
    let padLen := data.getD (data.length - 1) 0
    if padLen < 1 ∨ padLen > blockSize then 0
    else padCheckCompares (data.drop (data.length - padLen)) padLen


/-! ## CFB mode — src/src/algorithms/utils/modes.ts (cfbEncryptRaw / cfbDecryptRaw)

The abstract engine is a function `E` on byte lists; `cipher.encryptBlock(reg, 0, ks, 0)`
becomes `ks := E reg`.  The loop over `i` in steps of `segmentSize` becomes a
fuel-indexed recursion on the remaining input (the fuel is initialised with
`data.length`, which bounds the iteration count since each iteration consumes
`segmentSize ≥ 1` bytes). -/

/-- Loop body of `cfbEncryptRaw`: keystream segment `E(reg)[0..s)`, output
segment = input XOR keystream, register left-shifted by `s` (the
`copyWithin(0, s)` plus `set(out-segment, bs - s)` amounts to
`reg.drop s ++ segment` for a register of length `bs`), tail refilled with the
freshly produced ciphertext segment. -/
def cfbEncGo (E : List Nat → List Nat) (s : Nat) :
    Nat → List Nat → List Nat → List Nat
  | 0, _, _ => []
  | _ + 1, _, [] => []
  | fuel + 1, reg, rest =>
    let seg := List.zipWith (fun a b => a ^^^ b) (rest.take s) ((E reg).take s)
    seg ++ cfbEncGo E s fuel (reg.drop s ++ seg) (rest.drop s)


/-- Loop body of `cfbDecryptRaw`: identical keystream and XOR, but the
register tail is refilled from the input (the ciphertext), not the output. -/
def cfbDecGo (E : List Nat → List Nat) (s : Nat) :
    Nat → List Nat → List Nat → List Nat
  | 0, _, _ => []
  | _ + 1, _, [] => []
  | fuel + 1, reg, rest =>
    let seg := List.zipWith (fun a b => a ^^^ b) (rest.take s) ((E reg).take s)
    seg ++ cfbDecGo E s fuel (reg.drop s ++ rest.take s) (rest.drop s)


/-- `cfbEncryptRaw` from modes.ts: IV length, segment size and alignment
guards, then the segment loop. -/
def cfbEncryptRaw (bs : Nat) (E : List Nat → List Nat)
    (data iv : List Nat) (s : Nat) : Option (List Nat) :=
  if iv.length ≠ bs then none
  else if s < 1 ∨ s > bs then none
  else if data.length % s ≠ 0 then none
  else some (cfbEncGo E s data.length iv data)


/-- `cfbDecryptRaw` from modes.ts. -/
def cfbDecryptRaw (bs : Nat) (E : List Nat → List Nat)
    (data iv : List Nat) (s : Nat) : Option (List Nat) :=
  if iv.length ≠ bs then none
  else if s < 1 ∨ s > bs then none
  else if data.length % s ≠ 0 then none
  else some (cfbDecGo E s data.length iv data)


/-- Register evolution described by the spec: starting from the IV, the
register is left-shifted by `s` bytes each segment and its tail refilled with
the corresponding ciphertext segment (the same recursion on both the encrypt
and the decrypt path, since decrypt feeds back its input). -/
def cfbReg (E : List Nat → List Nat) (s : Nat) (reg0 data : List Nat) :
    Nat → List Nat
  | 0 => reg0
  | k + 1 =>
    let r := cfbReg E s reg0 data k
    r.drop s ++ List.zipWith (fun a b => a ^^^ b)
      ((data.drop (k * s)).take s) ((E r).take s)


/-! ## CTR mode — src/src/algorithms/utils/modes.ts (ctrXorRaw)

The counter increment loop `for (j = ctr.length - 1; j >= 0; j--)` walks the
byte list from its end, so it is embedded as a recursion on the reversed
list. -/

/-- Increment loop on the reversed counter: each byte becomes
`(b + 1) & 0xff`; the loop stops (`break`) as soon as the new byte is
nonzero, otherwise the carry continues into the next byte. -/
def incBEGo : List Nat → List Nat
  | [] => []
  | b :: rest =>
    if (b + 1) &&& 255 ≠ 0 then ((b + 1) &&& 255) :: rest
    else ((b + 1) &&& 255) :: incBEGo rest


/-- Big-endian counter increment from ctrXorRaw: carry propagates from the
last byte leftward, wrapping silently when every byte overflows. -/
def incBE (ctr : List Nat) : List Nat := (incBEGo ctr.reverse).reverse


/-- Byte loop of `ctrXorRaw`: when the keystream is exhausted
(`idx = blockSize`) the current counter is encrypted into a fresh keystream
block and the counter incremented; each output byte is the input byte XORed
with the current keystream byte. -/
def ctrGo (bs : Nat) (E : List Nat → List Nat) :
    List Nat → List Nat → Nat → List Nat → List Nat
  | _, _, _, [] => []
  | ctr, ks, idx, d :: rest =>
    if idx = bs then
      (d ^^^ (E ctr).getD 0 0) :: ctrGo bs E (incBE ctr) (E ctr) 1 rest
    else
      (d ^^^ ks.getD idx 0) :: ctrGo bs E ctr ks (idx + 1) rest


/-- `ctrXorRaw` from modes.ts: counter length guard, then the byte loop with
an initially exhausted keystream buffer (`idx = blockSize`, `ks` all
zeroes). -/
def ctrXorRaw (bs : Nat) (E : List Nat → List Nat)
    (data counter : List Nat) : Option (List Nat) :=
  if counter.length ≠ bs then none
  else some (ctrGo bs E counter (List.replicate bs 0) bs data)


/-- Concatenation of the first `n` keystream blocks:
`E(ctr), E(inc ctr), E(inc (inc ctr)), ...`. -/
def ksBlocks (E : List Nat → List Nat) : Nat → List Nat → List Nat
  | 0, _ => []
  | n + 1, ctr => E ctr ++ ksBlocks E n (incBE ctr)


/-- Little-endian value of a byte list. -/
def leVal : List Nat → Nat
  | [] => 0
  | b :: rest => b + 256 * leVal rest


/-- Big-endian value of a byte list (the integer the spec says the counter
represents). -/
def beVal (l : List Nat) : Nat := leVal l.reverse


/-! ## AES — src/src/algorithms/aes.ts (class AESRaw)

`aes.ts` imports the tables `S`, `Si`, `RCON` from `utils/constants.ts`;
that file is not under src/.  Modelled from the spec: they are the standard
AES (FIPS-197) forward S-box, inverse S-box and round constants, which the
spec mandates (standard polynomial, FIPS-197 vectors); the values below are
exactly the ones carried by the repository's sibling AES implementation
(src/unnamed/part_006). -/

/-- Modelled from the spec: standard AES forward S-box (`S` of constants.ts,
which is missing from src/); values as in src/unnamed/part_006. -/
def aesS : List Nat :=
  [0x63, 0x7c, 0x77, 0x7b, 0xf2, 0x6b, 0x6f, 0xc5, 0x30, 0x01, 0x67, 0x2b,
   0xfe, 0xd7, 0xab, 0x76, 0xca, 0x82, 0xc9, 0x7d, 0xfa, 0x59, 0x47, 0xf0,
   0xad, 0xd4, 0xa2, 0xaf, 0x9c, 0xa4, 0x72, 0xc0, 0xb7, 0xfd, 0x93, 0x26,
   0x36, 0x3f, 0xf7, 0xcc, 0x34, 0xa5, 0xe5, 0xf1, 0x71, 0xd8, 0x31, 0x15,
   0x04, 0xc7, 0x23, 0xc3, 0x18, 0x96, 0x05, 0x9a, 0x07, 0x12, 0x80, 0xe2,
   0xeb, 0x27, 0xb2, 0x75, 0x09, 0x83, 0x2c, 0x1a, 0x1b, 0x6e, 0x5a, 0xa0,
   0x52, 0x3b, 0xd6, 0xb3, 0x29, 0xe3, 0x2f, 0x84, 0x53, 0xd1, 0x00, 0xed,
   0x20, 0xfc, 0xb1, 0x5b, 0x6a, 0xcb, 0xbe, 0x39, 0x4a, 0x4c, 0x58, 0xcf,
   0xd0, 0xef, 0xaa, 0xfb, 0x43, 0x4d, 0x33, 0x85, 0x45, 0xf9, 0x02, 0x7f,
   0x50, 0x3c, 0x9f, 0xa8, 0x51, 0xa3, 0x40, 0x8f, 0x92, 0x9d, 0x38, 0xf5,
   0xbc, 0xb6, 0xda, 0x21, 0x10, 0xff, 0xf3, 0xd2, 0xcd, 0x0c, 0x13, 0xec,
   0x5f, 0x97, 0x44, 0x17, 0xc4, 0xa7, 0x7e, 0x3d, 0x64, 0x5d, 0x19, 0x73,
   0x60, 0x81, 0x4f, 0xdc, 0x22, 0x2a, 0x90, 0x88, 0x46, 0xee, 0xb8, 0x14,
   0xde, 0x5e, 0x0b, 0xdb, 0xe0, 0x32, 0x3a, 0x0a, 0x49, 0x06, 0x24, 0x5c,
   0xc2, 0xd3, 0xac, 0x62, 0x91, 0x95, 0xe4, 0x79, 0xe7, 0xc8, 0x37, 0x6d,
   0x8d, 0xd5, 0x4e, 0xa9, 0x6c, 0x56, 0xf4, 0xea, 0x65, 0x7a, 0xae, 0x08,
   0xba, 0x78, 0x25, 0x2e, 0x1c, 0xa6, 0xb4, 0xc6, 0xe8, 0xdd, 0x74, 0x1f,
   0x4b, 0xbd, 0x8b, 0x8a, 0x70, 0x3e, 0xb5, 0x66, 0x48, 0x03, 0xf6, 0x0e,
   0x61, 0x35, 0x57, 0xb9, 0x86, 0xc1, 0x1d, 0x9e, 0xe1, 0xf8, 0x98, 0x11,
   0x69, 0xd9, 0x8e, 0x94, 0x9b, 0x1e, 0x87, 0xe9, 0xce, 0x55, 0x28, 0xdf,
   0x8c, 0xa1, 0x89, 0x0d, 0xbf, 0xe6, 0x42, 0x68, 0x41, 0x99, 0x2d, 0x0f,
   0xb0, 0x54, 0xbb, 0x16]


/-- Modelled from the spec: standard AES inverse S-box (`Si` of constants.ts,
which is missing from src/); values as in src/unnamed/part_006. -/
def aesSi : List Nat :=
  [0x52, 0x09, 0x6a, 0xd5, 0x30, 0x36, 0xa5, 0x38, 0xbf, 0x40, 0xa3, 0x9e,
   0x81, 0xf3, 0xd7, 0xfb, 0x7c, 0xe3, 0x39, 0x82, 0x9b, 0x2f, 0xff, 0x87,
   0x34, 0x8e, 0x43, 0x44, 0xc4, 0xde, 0xe9, 0xcb, 0x54, 0x7b, 0x94, 0x32,
   0xa6, 0xc2, 0x23, 0x3d, 0xee, 0x4c, 0x95, 0x0b, 0x42, 0xfa, 0xc3, 0x4e,
   0x08, 0x2e, 0xa1, 0x66, 0x28, 0xd9, 0x24, 0xb2, 0x76, 0x5b, 0xa2, 0x49,
   0x6d, 0x8b, 0xd1, 0x25, 0x72, 0xf8, 0xf6, 0x64, 0x86, 0x68, 0x98, 0x16,
   0xd4, 0xa4, 0x5c, 0xcc, 0x5d, 0x65, 0xb6, 0x92, 0x6c, 0x70, 0x48, 0x50,
   0xfd, 0xed, 0xb9, 0xda, 0x5e, 0x15, 0x46, 0x57, 0xa7, 0x8d, 0x9d, 0x84,
   0x90, 0xd8, 0xab, 0x00, 0x8c, 0xbc, 0xd3, 0x0a, 0xf7, 0xe4, 0x58, 0x05,
   0xb8, 0xb3, 0x45, 0x06, 0xd0, 0x2c, 0x1e, 0x8f, 0xca, 0x3f, 0x0f, 0x02,
   0xc1, 0xaf, 0xbd, 0x03, 0x01, 0x13, 0x8a, 0x6b, 0x3a, 0x91, 0x11, 0x41,
   0x4f, 0x67, 0xdc, 0xea, 0x97, 0xf2, 0xcf, 0xce, 0xf0, 0xb4, 0xe6, 0x73,
   0x96, 0xac, 0x74, 0x22, 0xe7, 0xad, 0x35, 0x85, 0xe2, 0xf9, 0x37, 0xe8,
   0x1c, 0x75, 0xdf, 0x6e, 0x47, 0xf1, 0x1a, 0x71, 0x1d, 0x29, 0xc5, 0x89,
   0x6f, 0xb7, 0x62, 0x0e, 0xaa, 0x18, 0xbe, 0x1b, 0xfc, 0x56, 0x3e, 0x4b,
   0xc6, 0xd2, 0x79, 0x20, 0x9a, 0xdb, 0xc0, 0xfe, 0x78, 0xcd, 0x5a, 0xf4,
   0x1f, 0xdd, 0xa8, 0x33, 0x88, 0x07, 0xc7, 0x31, 0xb1, 0x12, 0x10, 0x59,
   0x27, 0x80, 0xec, 0x5f, 0x60, 0x51, 0x7f, 0xa9, 0x19, 0xb5, 0x4a, 0x0d,
   0x2d, 0xe5, 0x7a, 0x9f, 0x93, 0xc9, 0x9c, 0xef, 0xa0, 0xe0, 0x3b, 0x4d,
   0xae, 0x2a, 0xf5, 0xb0, 0xc8, 0xeb, 0xbb, 0x3c, 0x83, 0x53, 0x99, 0x61,
   0x17, 0x2b, 0x04, 0x7e, 0xba, 0x77, 0xd6, 0x26, 0xe1, 0x69, 0x14, 0x63,
   0x55, 0x21, 0x0c, 0x7d]


/-- Modelled from the spec: the AES round constants (`RCON` of constants.ts,
which is missing from src/); values as in src/unnamed/part_006. -/
def aesRcon : List Nat :=
  [0x01, 0x02, 0x04, 0x08, 0x10, 0x20, 0x40, 0x80, 0x1b, 0x36, 0x6c, 0xd8,
   0xab, 0x4d, 0x9a, 0x2f, 0x5e, 0xbc, 0x63, 0xc6, 0x97, 0x35, 0x6a, 0xd4,
   0xb3, 0x7d, 0xfa, 0xef, 0xc5, 0x91]


/-- Table lookup `S[x]` (out-of-range reads give `undefined`, coerced to 0). -/
def sbox (x : Nat) : Nat := aesS.getD x 0


/-- Table lookup `Si[x]`. -/
def sboxInv (x : Nat) : Nat := aesSi.getD x 0


/-- One iteration of the `gfMul` loop from aes.ts on the state `(p, a, b)`:
`if (b & 1) p ^= a; hi = a & 0x80; a = (a << 1) & 0xff; if (hi) a ^= 0x1b;
b >>>= 1`. -/
def gfMulStep (s : Nat × Nat × Nat) : Nat × Nat × Nat :=
  (if s.2.2 &&& 1 = 1 then s.1 ^^^ s.2.1 else s.1,
   if s.2.1 &&& 128 ≠ 0 then ((s.2.1 <<< 1) &&& 255) ^^^ 0x1b
   else (s.2.1 <<< 1) &&& 255,
   s.2.2 >>> 1)


/-- `gfMul` from aes.ts: 8 iterations of the shift-and-reduce loop, returning
`p & 0xff`. -/
def gfMul (a b : Nat) : Nat := (gfMulStep^[8] (0, a, b)).1 &&& 255


/-- `subBytes`: byte-wise forward S-box substitution. -/
def subBytes (s : List Nat) : List Nat := s.map sbox


/-- `invSubBytes`: byte-wise inverse S-box substitution. -/
def invSubBytes (s : List Nat) : List Nat := s.map sboxInv


/-- `shiftRows` from aes.ts, written out as the permutation the in-place
swaps perform on the 16-byte column-major state. -/
def shiftRows (s : List Nat) : List Nat :=
  [s.getD 0 0, s.getD 5 0, s.getD 10 0, s.getD 15 0,
   s.getD 4 0, s.getD 9 0, s.getD 14 0, s.getD 3 0,
   s.getD 8 0, s.getD 13 0, s.getD 2 0, s.getD 7 0,
   s.getD 12 0, s.getD 1 0, s.getD 6 0, s.getD 11 0]


/-- `invShiftRows` from aes.ts. -/
def invShiftRows (s : List Nat) : List Nat :=
  [s.getD 0 0, s.getD 13 0, s.getD 10 0, s.getD 7 0,
   s.getD 4 0, s.getD 1 0, s.getD 14 0, s.getD 11 0,
   s.getD 8 0, s.getD 5 0, s.getD 2 0, s.getD 15 0,
   s.getD 12 0, s.getD 9 0, s.getD 6 0, s.getD 3 0]


/-- One column of `mixColumns`, matrix [2 3 1 1; 1 2 3 1; 1 1 2 3; 3 1 1 2]. -/
def mixCol (a0 a1 a2 a3 : Nat) : List Nat :=
  [(gfMul a0 2 ^^^ gfMul a1 3 ^^^ a2 ^^^ a3) &&& 255,
   (a0 ^^^ gfMul a1 2 ^^^ gfMul a2 3 ^^^ a3) &&& 255,
   (a0 ^^^ a1 ^^^ gfMul a2 2 ^^^ gfMul a3 3) &&& 255,
   (gfMul a0 3 ^^^ a1 ^^^ a2 ^^^ gfMul a3 2) &&& 255]


/-- One column of `invMixColumns`, multipliers [14 11 13 9; 9 14 11 13;
13 9 14 11; 11 13 9 14]. -/
def invMixCol (a0 a1 a2 a3 : Nat) : List Nat :=
  [(gfMul a0 14 ^^^ gfMul a1 11 ^^^ gfMul a2 13 ^^^ gfMul a3 9) &&& 255,
   (gfMul a0 9 ^^^ gfMul a1 14 ^^^ gfMul a2 11 ^^^ gfMul a3 13) &&& 255,
   (gfMul a0 13 ^^^ gfMul a1 9 ^^^ gfMul a2 14 ^^^ gfMul a3 11) &&& 255,
   (gfMul a0 11 ^^^ gfMul a1 13 ^^^ gfMul a2 9 ^^^ gfMul a3 14) &&& 255]


/-- `mixColumns` over the four state columns. -/
def mixColumns (s : List Nat) : List Nat :=
  mixCol (s.getD 0 0) (s.getD 1 0) (s.getD 2 0) (s.getD 3 0) ++
  mixCol (s.getD 4 0) (s.getD 5 0) (s.getD 6 0) (s.getD 7 0) ++
  mixCol (s.getD 8 0) (s.getD 9 0) (s.getD 10 0) (s.getD 11 0) ++
  mixCol (s.getD 12 0) (s.getD 13 0) (s.getD 14 0) (s.getD 15 0)


/-- `invMixColumns` over the four state columns. -/
def invMixColumns (s : List Nat) : List Nat :=
  invMixCol (s.getD 0 0) (s.getD 1 0) (s.getD 2 0) (s.getD 3 0) ++
  invMixCol (s.getD 4 0) (s.getD 5 0) (s.getD 6 0) (s.getD 7 0) ++
  invMixCol (s.getD 8 0) (s.getD 9 0) (s.getD 10 0) (s.getD 11 0) ++
  invMixCol (s.getD 12 0) (s.getD 13 0) (s.getD 14 0) (s.getD 15 0)


/-- `addRoundKey`: byte-wise XOR of the state with a round-key block. -/
def addRoundKey (s rk : List Nat) : List Nat :=
  List.zipWith (fun a b => a ^^^ b) s rk


/-- The middle rounds of `encryptBlock` (`for r in 1..Nr-1`), folded over the
round-key blocks used. -/
def aesEncRounds (ks : List (List Nat)) (s : List Nat) : List Nat :=
  ks.foldl (fun st rk => addRoundKey (mixColumns (shiftRows (subBytes st))) rk) s


/-- The middle rounds of `decryptBlock` (`for r in Nr-1 down to 1`). -/
def aesDecRounds (ks : List (List Nat)) (s : List Nat) : List Nat :=
  ks.foldl (fun st rk => invMixColumns (addRoundKey (invSubBytes (invShiftRows st)) rk)) s


/-- `AESRaw.encryptBlock` on one 16-byte block given the expanded round
keys: AddRoundKey(0), Nr−1 full rounds, final round without MixColumns. -/
def aesEncryptBlock (Nr : Nat) (rks : List (List Nat)) (block : List Nat) :
    List Nat :=
  addRoundKey
    (shiftRows (subBytes
      (aesEncRounds ((rks.drop 1).take (Nr - 1))
        (addRoundKey block (rks.getD 0 [])))))
    (rks.getD Nr [])


/-- `AESRaw.decryptBlock`: AddRoundKey(Nr), Nr−1 inverse rounds (InvShiftRows,
InvSubBytes, AddRoundKey(r), InvMixColumns), final inverse round without
InvMixColumns. -/
def aesDecryptBlock (Nr : Nat) (rks : List (List Nat)) (block : List Nat) :
    List Nat :=
  addRoundKey
    (invSubBytes (invShiftRows
      (aesDecRounds (((rks.drop 1).take (Nr - 1)).reverse)
        (addRoundKey block (rks.getD Nr [])))))
    (rks.getD 0 [])


/-- `subWord` from `expandKey`: S-box each byte of a 32-bit word. -/
def subWord (x : Nat) : Nat :=
  (sbox ((x >>> 24) &&& 255) <<< 24) ||| (sbox ((x >>> 16) &&& 255) <<< 16) |||
    (sbox ((x >>> 8) &&& 255) <<< 8) ||| sbox (x &&& 255)


/-- `rotWord` from `expandKey`: rotate a 32-bit word left by 8 bits
(`((x << 8) | (x >>> 24)) >>> 0`). -/
def rotWord (x : Nat) : Nat := ((x <<< 8) % 4294967296) ||| (x >>> 24)


/-- `pack` from aes.ts: 4 bytes into a big-endian 32-bit word. -/
def packWord (a b c d : Nat) : Nat :=
  (a <<< 24) ||| (b <<< 16) ||| (c <<< 8) ||| d


/-- The word-expansion loop of `expandKey`: seeds the first `Nk` words from
the key bytes, then for `i` in `Nk..totalWords-1` produces
`w[i] = w[i-Nk] ^ temp` with the `RotWord`/`SubWord`/`Rcon` transform every
`Nk` words and the extra `SubWord` when `Nk > 6 ∧ i % Nk = 4`.  The running
`rconIdx` equals `i / Nk - 1` at each use. -/
def expandWords (key : List Nat) (Nk totalWords : Nat) : List Nat :=
  (List.range (totalWords - Nk)).foldl
    (fun w j =>
      let i := Nk + j
      let prev := w.getD (i - 1) 0
      let temp :=
        if i % Nk = 0 then
          subWord (rotWord prev) ^^^ (aesRcon.getD (i / Nk - 1) 0 <<< 24)
        else if 6 < Nk ∧ i % Nk = 4 then subWord prev
        else prev
      w ++ [w.getD (i - Nk) 0 ^^^ temp])
    ((List.range Nk).map (fun i =>
      packWord (key.getD (4 * i) 0) (key.getD (4 * i + 1) 0)
        (key.getD (4 * i + 2) 0) (key.getD (4 * i + 3) 0)))


/-- The words-to-round-key-blocks conversion of `expandKey`: block `r` holds
the big-endian bytes of words `4r..4r+3`. -/
def roundKeyBlocks (w : List Nat) (Nr : Nat) : List (List Nat) :=
  (List.range (Nr + 1)).map (fun r =>
    (List.range 4).foldl (fun block c =>
      block ++ [(w.getD (r * 4 + c) 0 >>> 24) &&& 255,
        (w.getD (r * 4 + c) 0 >>> 16) &&& 255,
        (w.getD (r * 4 + c) 0 >>> 8) &&& 255,
        w.getD (r * 4 + c) 0 &&& 255]) [])


/-- The full `expandKey` of the `AESRaw` constructor
(`Nk = key.length / 4`, `Nr = Nk + 6`). -/
def aesRoundKeys (key : List Nat) : List (List Nat) :=
  roundKeyBlocks
    (expandWords key (key.length / 4) (4 * (key.length / 4 + 6 + 1)))
    (key.length / 4 + 6)


/-- `new AESRaw(key).encryptBlock` on a single whole block: the constructor
throws unless the key is 16/24/32 bytes. -/
def AESRawEncrypt (key block : List Nat) : Option (List Nat) :=
  if key.length = 16 ∨ key.length = 24 ∨ key.length = 32 then
    some (aesEncryptBlock (key.length / 4 + 6) (aesRoundKeys key) block)
  else none


/-- `new AESRaw(key).decryptBlock` on a single whole block. -/
def AESRawDecrypt (key block : List Nat) : Option (List Nat) :=
  if key.length = 16 ∨ key.length = 24 ∨ key.length = 32 then
    some (aesDecryptBlock (key.length / 4 + 6) (aesRoundKeys key) block)
  else none


/-- A well-formed AES state: 16 bytes. -/
def OkState (s : List Nat) : Prop := s.length = 16 ∧ ∀ b ∈ s, b < 256


/-! ### Blowfish (blowfish.ts)

The `P`/`S0..S3` initial constants live in `constants.ts`, which the
repository snapshot does not include; every definition below is therefore
parametric in those five tables (`P0`, `S0c..S3c`), and the inversion
theorems hold for all table values. -/

/-- `xor32` from blowfish.ts: `(a ^ b) >>> 0`. -/
def xor32 (a b : Nat) : Nat := (a % 4294967296) ^^^ (b % 4294967296)

def add32 (a b : Nat) : Nat := (a + b) % 4294967296

def pack4 (b0 b1 b2 b3 : Nat) : Nat :=
  ((b0 <<< 24) ||| (b1 <<< 16) ||| (b2 <<< 8) ||| b3) % 4294967296

def unpack4 (w : Nat) : List Nat :=
  [(w >>> 24) &&& 255, (w >>> 16) &&& 255, (w >>> 8) &&& 255, w &&& 255]




def bfF (S0t S1t S2t S3t : List Nat) (x : Nat) : Nat :=
  add32
    (xor32
      (add32 (S0t.getD ((x >>> 24) &&& 255) 0) (S1t.getD ((x >>> 16) &&& 255) 0))
      (S2t.getD ((x >>> 8) &&& 255) 0))
    (S3t.getD (x &&& 255) 0)


def bfRound (S0t S1t S2t S3t : List Nat) (p : Nat) (lr : Nat × Nat) : Nat × Nat :=
  (xor32 lr.2 (bfF S0t S1t S2t S3t (xor32 lr.1 p)), xor32 lr.1 p)


def bfRounds (S0t S1t S2t S3t : List Nat) (ps : List Nat) (lr : Nat × Nat) :
    Nat × Nat :=
  ps.foldl (fun lr p => bfRound S0t S1t S2t S3t p lr) lr


def bfSwapXor (a b : Nat) (lr : Nat × Nat) : Nat × Nat :=
  (xor32 lr.2 a, xor32 lr.1 b)


def encBlockWords (P S0t S1t S2t S3t : List Nat) (L R : Nat) : Nat × Nat :=
  bfSwapXor (P.getD 17 0) (P.getD 16 0)
    ((List.range 16).foldl
      (fun lr i => bfRound S0t S1t S2t S3t (P.getD i 0) lr) (L, R))


def decBlockWords (P S0t S1t S2t S3t : List Nat) (L R : Nat) : Nat × Nat :=
  bfSwapXor (P.getD 0 0) (P.getD 1 0)
    ((List.range 16).foldl
      (fun lr i => bfRound S0t S1t S2t S3t (P.getD (17 - i) 0) lr) (L, R))


def blowfishEncryptBlock (P S0t S1t S2t S3t block : List Nat) : List Nat :=
  unpack4 (encBlockWords P S0t S1t S2t S3t
    (pack4 (block.getD 0 0) (block.getD 1 0) (block.getD 2 0) (block.getD 3 0))
    (pack4 (block.getD 4 0) (block.getD 5 0) (block.getD 6 0)
      (block.getD 7 0))).1 ++
  unpack4 (encBlockWords P S0t S1t S2t S3t
    (pack4 (block.getD 0 0) (block.getD 1 0) (block.getD 2 0) (block.getD 3 0))
    (pack4 (block.getD 4 0) (block.getD 5 0) (block.getD 6 0)
      (block.getD 7 0))).2


def blowfishDecryptBlock (P S0t S1t S2t S3t block : List Nat) : List Nat :=
  unpack4 (decBlockWords P S0t S1t S2t S3t
    (pack4 (block.getD 0 0) (block.getD 1 0) (block.getD 2 0) (block.getD 3 0))
    (pack4 (block.getD 4 0) (block.getD 5 0) (block.getD 6 0)
      (block.getD 7 0))).1 ++
  unpack4 (decBlockWords P S0t S1t S2t S3t
    (pack4 (block.getD 0 0) (block.getD 1 0) (block.getD 2 0) (block.getD 3 0))
    (pack4 (block.getD 4 0) (block.getD 5 0) (block.getD 6 0)
      (block.getD 7 0))).2


/-- Key extension from the `BlowfishRaw` constructor: a key shorter than 72
bytes is repeated cyclically into a 72-byte buffer (`ext[i] = k[i % k.length]`;
for the empty key JS stores `undefined` coerced to 0, matching `getD` on
`i % 0 = i`). -/
def bfKeyExt (key : List Nat) : List Nat :=
  if key.length < 72 then
    (List.range 72).map (fun i => key.getD (i % key.length) 0)
  else key


/-- The first constructor loop: `this.P[i] = xor32(this.P[i], pack4k(4*i))`
for `i < 18`. -/
def bfKeyInit (P0 key : List Nat) : List Nat :=
  (List.range 18).map (fun i =>
    xor32 (P0.getD i 0)
      (pack4 ((bfKeyExt key).getD (4 * i) 0) ((bfKeyExt key).getD (4 * i + 1) 0)
        ((bfKeyExt key).getD (4 * i + 2) 0)
        ((bfKeyExt key).getD (4 * i + 3) 0))) ++ P0.drop 18


/-- One iteration of the self-referential `P` loop: encrypt `(L, R)` with the
current state, store the two words at `P[2i]`, `P[2i+1]`. -/
def bfKeyStep
    (acc : List Nat × List Nat × List Nat × List Nat × List Nat × Nat × Nat)
    (i : Nat) :
    List Nat × List Nat × List Nat × List Nat × List Nat × Nat × Nat :=
  match acc with
  | (P, S0t, S1t, S2t, S3t, L, R) =>
    ((P.set (2 * i) (encBlockWords P S0t S1t S2t S3t L R).1).set (2 * i + 1)
        (encBlockWords P S0t S1t S2t S3t L R).2,
      S0t, S1t, S2t, S3t,
      (encBlockWords P S0t S1t S2t S3t L R).1,
      (encBlockWords P S0t S1t S2t S3t L R).2)


/-- One iteration of the `S[0]` fill loop. -/
def bfS0Step
    (acc : List Nat × List Nat × List Nat × List Nat × List Nat × Nat × Nat)
    (i : Nat) :
    List Nat × List Nat × List Nat × List Nat × List Nat × Nat × Nat :=
  match acc with
  | (P, S0t, S1t, S2t, S3t, L, R) =>
    (P,
      (S0t.set (2 * i) (encBlockWords P S0t S1t S2t S3t L R).1).set (2 * i + 1)
        (encBlockWords P S0t S1t S2t S3t L R).2,
      S1t, S2t, S3t,
      (encBlockWords P S0t S1t S2t S3t L R).1,
      (encBlockWords P S0t S1t S2t S3t L R).2)


/-- One iteration of the `S[1]` fill loop. -/
def bfS1Step
    (acc : List Nat × List Nat × List Nat × List Nat × List Nat × Nat × Nat)
    (i : Nat) :
    List Nat × List Nat × List Nat × List Nat × List Nat × Nat × Nat :=
  match acc with
  | (P, S0t, S1t, S2t, S3t, L, R) =>
    (P, S0t,
      (S1t.set (2 * i) (encBlockWords P S0t S1t S2t S3t L R).1).set (2 * i + 1)
        (encBlockWords P S0t S1t S2t S3t L R).2,
      S2t, S3t,
      (encBlockWords P S0t S1t S2t S3t L R).1,
      (encBlockWords P S0t S1t S2t S3t L R).2)


/-- One iteration of the `S[2]` fill loop. -/
def bfS2Step
    (acc : List Nat × List Nat × List Nat × List Nat × List Nat × Nat × Nat)
    (i : Nat) :
    List Nat × List Nat × List Nat × List Nat × List Nat × Nat × Nat :=
  match acc with
  | (P, S0t, S1t, S2t, S3t, L, R) =>
    (P, S0t, S1t,
      (S2t.set (2 * i) (encBlockWords P S0t S1t S2t S3t L R).1).set (2 * i + 1)
        (encBlockWords P S0t S1t S2t S3t L R).2,
      S3t,
      (encBlockWords P S0t S1t S2t S3t L R).1,
      (encBlockWords P S0t S1t S2t S3t L R).2)


/-- One iteration of the `S[3]` fill loop. -/
def bfS3Step
    (acc : List Nat × List Nat × List Nat × List Nat × List Nat × Nat × Nat)
    (i : Nat) :
    List Nat × List Nat × List Nat × List Nat × List Nat × Nat × Nat :=
  match acc with
  | (P, S0t, S1t, S2t, S3t, L, R) =>
    (P, S0t, S1t, S2t,
      (S3t.set (2 * i) (encBlockWords P S0t S1t S2t S3t L R).1).set (2 * i + 1)
        (encBlockWords P S0t S1t S2t S3t L R).2,
      (encBlockWords P S0t S1t S2t S3t L R).1,
      (encBlockWords P S0t S1t S2t S3t L R).2)


/-- The whole `BlowfishRaw` constructor: key-xor into `P`, then the
self-referential `P` loop (9 double-word steps) and the four 128-step
`S`-table fills, threading `(L, R)` through. -/
def blowfishScheduleFull (P0 S0c S1c S2c S3c key : List Nat) :
    List Nat × List Nat × List Nat × List Nat × List Nat × Nat × Nat :=
  (List.range 128).foldl bfS3Step
    ((List.range 128).foldl bfS2Step
      ((List.range 128).foldl bfS1Step
        ((List.range 128).foldl bfS0Step
          ((List.range 9).foldl bfKeyStep
            (bfKeyInit P0 key, S0c, S1c, S2c, S3c, 0, 0)))))


/-- The scheduled `P`, `S0..S3` tables of a `BlowfishRaw` instance. -/
def blowfishSchedule (P0 S0c S1c S2c S3c key : List Nat) :
    List Nat × List Nat × List Nat × List Nat × List Nat :=
  ((blowfishScheduleFull P0 S0c S1c S2c S3c key).1,
   (blowfishScheduleFull P0 S0c S1c S2c S3c key).2.1,
   (blowfishScheduleFull P0 S0c S1c S2c S3c key).2.2.1,
   (blowfishScheduleFull P0 S0c S1c S2c S3c key).2.2.2.1,
   (blowfishScheduleFull P0 S0c S1c S2c S3c key).2.2.2.2.1)


/-- `new BlowfishRaw(key).encryptBlock` on one whole 8-byte block. -/
def BlowfishRawEncrypt (P0 S0c S1c S2c S3c key block : List Nat) : List Nat :=
  blowfishEncryptBlock (blowfishSchedule P0 S0c S1c S2c S3c key).1
    (blowfishSchedule P0 S0c S1c S2c S3c key).2.1
    (blowfishSchedule P0 S0c S1c S2c S3c key).2.2.1
    (blowfishSchedule P0 S0c S1c S2c S3c key).2.2.2.1
    (blowfishSchedule P0 S0c S1c S2c S3c key).2.2.2.2 block


/-- `new BlowfishRaw(key).decryptBlock` on one whole 8-byte block. -/
def BlowfishRawDecrypt (P0 S0c S1c S2c S3c key block : List Nat) : List Nat :=
  blowfishDecryptBlock (blowfishSchedule P0 S0c S1c S2c S3c key).1
    (blowfishSchedule P0 S0c S1c S2c S3c key).2.1
    (blowfishSchedule P0 S0c S1c S2c S3c key).2.2.1
    (blowfishSchedule P0 S0c S1c S2c S3c key).2.2.2.1
    (blowfishSchedule P0 S0c S1c S2c S3c key).2.2.2.2 block


def ror1 (x : Nat) : Nat := (x >>> 1) ||| ((x <<< 31) % 4294967296)

def rol1 (x : Nat) : Nat := ((x <<< 1) % 4294967296) ||| (x >>> 31)


def tfMixA (s x : Nat) : Nat := ror1 (xor32 x s)

def tfMixB (s x : Nat) : Nat := xor32 (rol1 x) s


def tfT0 (sBox : List Nat) (x : Nat) : Nat :=
  xor32 (xor32 (xor32 (sBox.getD ((x <<< 1) &&& 0x1fe) 0)
    (sBox.getD (((x >>> 7) &&& 0x1fe) + 1) 0))
    (sBox.getD (0x200 + ((x >>> 15) &&& 0x1fe)) 0))
    (sBox.getD (0x200 + ((x >>> 23) &&& 0x1fe) + 1) 0)


def tfT1 (sBox : List Nat) (x : Nat) : Nat :=
  xor32 (xor32 (xor32 (sBox.getD ((x >>> 23) &&& 0x1fe) 0)
    (sBox.getD (((x <<< 1) &&& 0x1fe) + 1) 0))
    (sBox.getD (0x200 + ((x >>> 7) &&& 0x1fe)) 0))
    (sBox.getD (0x200 + ((x >>> 15) &&& 0x1fe) + 1) 0)


def tfHalf (sBox sKey : List Nat) (ka kb pa pb xa xb : Nat) : Nat × Nat :=
  (tfMixA (add32 (add32 (tfT0 sBox pa) (tfT1 sBox pb)) (sKey.getD ka 0)) xa,
   tfMixB (add32 (add32 (tfT0 sBox pa) (2 * tfT1 sBox pb)) (sKey.getD kb 0)) xb)


def tfDecHalf (sBox sKey : List Nat) (ka kb pa pb xa xb : Nat) : Nat × Nat :=
  (tfMixA (add32 (add32 (tfT0 sBox pa) (2 * tfT1 sBox pb)) (sKey.getD ka 0)) xa,
   tfMixB (add32 (add32 (tfT0 sBox pa) (tfT1 sBox pb)) (sKey.getD kb 0)) xb)


def tfEncRound (sBox sKey : List Nat) (r : Nat) (s : Nat × Nat × Nat × Nat) :
    Nat × Nat × Nat × Nat :=
  match s with
  | (x0, x1, x2, x3) =>
    ((tfHalf sBox sKey (8 + 4 * r + 2) (8 + 4 * r + 3)
        (tfHalf sBox sKey (8 + 4 * r) (8 + 4 * r + 1) x0 x1 x2 x3).1
        (tfHalf sBox sKey (8 + 4 * r) (8 + 4 * r + 1) x0 x1 x2 x3).2 x0 x1).1,
     (tfHalf sBox sKey (8 + 4 * r + 2) (8 + 4 * r + 3)
        (tfHalf sBox sKey (8 + 4 * r) (8 + 4 * r + 1) x0 x1 x2 x3).1
        (tfHalf sBox sKey (8 + 4 * r) (8 + 4 * r + 1) x0 x1 x2 x3).2 x0 x1).2,
     (tfHalf sBox sKey (8 + 4 * r) (8 + 4 * r + 1) x0 x1 x2 x3).1,
     (tfHalf sBox sKey (8 + 4 * r) (8 + 4 * r + 1) x0 x1 x2 x3).2)


def tfDecRound (sBox sKey : List Nat) (r : Nat) (s : Nat × Nat × Nat × Nat) :
    Nat × Nat × Nat × Nat :=
  match s with
  | (x0, x1, x2, x3) =>
    ((tfDecHalf sBox sKey (39 - 4 * r) (39 - 4 * r - 1) x2 x3 x1 x0).2,
     (tfDecHalf sBox sKey (39 - 4 * r) (39 - 4 * r - 1) x2 x3 x1 x0).1,
     (tfDecHalf sBox sKey (39 - 4 * r - 2) (39 - 4 * r - 3)
        (tfDecHalf sBox sKey (39 - 4 * r) (39 - 4 * r - 1) x2 x3 x1 x0).2
        (tfDecHalf sBox sKey (39 - 4 * r) (39 - 4 * r - 1) x2 x3 x1 x0).1 x3 x2).2,
     (tfDecHalf sBox sKey (39 - 4 * r - 2) (39 - 4 * r - 3)
        (tfDecHalf sBox sKey (39 - 4 * r) (39 - 4 * r - 1) x2 x3 x1 x0).2
        (tfDecHalf sBox sKey (39 - 4 * r) (39 - 4 * r - 1) x2 x3 x1 x0).1 x3 x2).1)


def leWord (b0 b1 b2 b3 : Nat) : Nat :=
  b0 ||| (b1 <<< 8) ||| (b2 <<< 16) ||| (b3 <<< 24)


def leUnpack (x : Nat) : List Nat :=
  [x &&& 255, (x >>> 8) &&& 255, (x >>> 16) &&& 255, (x >>> 24) &&& 255]


def tfEncWords (sBox sKey block : List Nat) : Nat × Nat × Nat × Nat :=
  (List.range 8).foldl (fun t r => tfEncRound sBox sKey r t)
    (xor32 (leWord (block.getD 0 0) (block.getD 1 0) (block.getD 2 0) (block.getD 3 0)) (sKey.getD 0 0),
     xor32 (leWord (block.getD 4 0) (block.getD 5 0) (block.getD 6 0) (block.getD 7 0)) (sKey.getD 1 0),
     xor32 (leWord (block.getD 8 0) (block.getD 9 0) (block.getD 10 0) (block.getD 11 0)) (sKey.getD 2 0),
     xor32 (leWord (block.getD 12 0) (block.getD 13 0) (block.getD 14 0) (block.getD 15 0)) (sKey.getD 3 0))


def tfEncryptBlock (sBox sKey block : List Nat) : List Nat :=
  leUnpack (xor32 (tfEncWords sBox sKey block).2.2.1 (sKey.getD 4 0)) ++
  leUnpack (xor32 (tfEncWords sBox sKey block).2.2.2 (sKey.getD 5 0)) ++
  leUnpack (xor32 (tfEncWords sBox sKey block).1 (sKey.getD 6 0)) ++
  leUnpack (xor32 (tfEncWords sBox sKey block).2.1 (sKey.getD 7 0))


def tfDecWords (sBox sKey block : List Nat) : Nat × Nat × Nat × Nat :=
  (List.range 8).foldl (fun t j => tfDecRound sBox sKey j t)
    (xor32 (leWord (block.getD 8 0) (block.getD 9 0) (block.getD 10 0) (block.getD 11 0)) (sKey.getD 6 0),
     xor32 (leWord (block.getD 12 0) (block.getD 13 0) (block.getD 14 0) (block.getD 15 0)) (sKey.getD 7 0),
     xor32 (leWord (block.getD 0 0) (block.getD 1 0) (block.getD 2 0) (block.getD 3 0)) (sKey.getD 4 0),
     xor32 (leWord (block.getD 4 0) (block.getD 5 0) (block.getD 6 0) (block.getD 7 0)) (sKey.getD 5 0))


def tfDecryptBlock (sBox sKey block : List Nat) : List Nat :=
  leUnpack (xor32 (tfDecWords sBox sKey block).1 (sKey.getD 0 0)) ++
  leUnpack (xor32 (tfDecWords sBox sKey block).2.1 (sKey.getD 1 0)) ++
  leUnpack (xor32 (tfDecWords sBox sKey block).2.2.1 (sKey.getD 2 0)) ++
  leUnpack (xor32 (tfDecWords sBox sKey block).2.2.2 (sKey.getD 3 0))


def rsRound (k1 : Nat) : Nat :=
  let b := (k1 >>> 24) &&& 255
  let g2 := ((b <<< 1) ^^^ (if b &&& 128 ≠ 0 then 333 else 0)) &&& 255
  let g3 := (b >>> 1) ^^^ (if b &&& 1 ≠ 0 then 166 else 0) ^^^ g2
  ((k1 <<< 8) % 4294967296) ^^^ (g3 <<< 24) ^^^ (g2 <<< 16) ^^^ (g3 <<< 8) ^^^ b


def rsMDSEncode (k0 k1 : Nat) : Nat :=
  rsRound (rsRound (rsRound (rsRound
    (xor32 (rsRound (rsRound (rsRound (rsRound k1)))) k0))))


def rotl9 (x : Nat) : Nat :=
  (((x % 4294967296) <<< 9) % 4294967296) ||| ((x % 4294967296) >>> 23)


def getSubKeyWord (P0t P1t M0 M1 M2 M3 : List Nat) (k64Cnt3 : Nat)
    (k0 k1 k2 k3 : Nat) (B0 B1 B2 B3 : Nat) : List Nat :=
  let s3 : Nat × Nat × Nat × Nat :=
    if k64Cnt3 = 0 then
      (xor32 (P1t.getD B0 0) (k3 &&& 255),
       xor32 (P0t.getD B1 0) ((k3 >>> 8) &&& 255),
       xor32 (P0t.getD B2 0) ((k3 >>> 16) &&& 255),
       xor32 (P1t.getD B3 0) ((k3 >>> 24) &&& 255))
    else (B0, B1, B2, B3)
  let s2 : Nat × Nat × Nat × Nat :=
    if k64Cnt3 = 0 ∨ k64Cnt3 = 3 then
      (xor32 (P1t.getD s3.1 0) (k2 &&& 255),
       xor32 (P1t.getD s3.2.1 0) ((k2 >>> 8) &&& 255),
       xor32 (P0t.getD s3.2.2.1 0) ((k2 >>> 16) &&& 255),
       xor32 (P0t.getD s3.2.2.2 0) ((k2 >>> 24) &&& 255))
    else s3
  let s1 : Nat × Nat × Nat × Nat :=
    if k64Cnt3 = 0 ∨ k64Cnt3 = 3 ∨ k64Cnt3 = 2 then
      (xor32 (P0t.getD s2.1 0) (k1 &&& 255),
       xor32 (P1t.getD s2.2.1 0) ((k1 >>> 8) &&& 255),
       xor32 (P0t.getD s2.2.2.1 0) ((k1 >>> 16) &&& 255),
       xor32 (P1t.getD s2.2.2.2 0) ((k1 >>> 24) &&& 255))
    else s2
  [M0.getD (xor32 (P0t.getD s1.1 0) (k0 &&& 255)) 0 % 4294967296,
   M1.getD (xor32 (P0t.getD s1.2.1 0) ((k0 >>> 8) &&& 255)) 0 % 4294967296,
   M2.getD (xor32 (P1t.getD s1.2.2.1 0) ((k0 >>> 16) &&& 255)) 0 % 4294967296,
   M3.getD (xor32 (P1t.getD s1.2.2.2 0) ((k0 >>> 24) &&& 255)) 0 % 4294967296]


def tfSubKeysStep (P0t P1t M0 M1 M2 M3 : List Nat) (k64Cnt3 : Nat)
    (k0 k1 k2 k3 k4 k5 k6 k7 : Nat) (acc : List Nat) (i : Nat) : List Nat :=
  let q1 := 2 * i * 16843009
  let q2 := (2 * i + 1) * 16843009
  let wA := getSubKeyWord P0t P1t M0 M1 M2 M3 k64Cnt3 k0 k2 k4 k6
    (q1 &&& 255) ((q1 >>> 8) &&& 255) ((q1 >>> 16) &&& 255)
    ((q1 >>> 24) &&& 255)
  let A := xor32 (xor32 (xor32 (wA.getD 0 0) (wA.getD 1 0)) (wA.getD 2 0))
    (wA.getD 3 0)
  let wB := getSubKeyWord P0t P1t M0 M1 M2 M3 k64Cnt3 k1 k3 k5 k7
    (q2 &&& 255) ((q2 >>> 8) &&& 255) ((q2 >>> 16) &&& 255)
    ((q2 >>> 24) &&& 255)
  let B1 := xor32 (xor32 (xor32 (wB.getD 0 0) (wB.getD 1 0)) (wB.getD 2 0))
    (wB.getD 3 0)
  let Bv := ((B1 <<< 8) % 4294967296) ||| (B1 >>> 24)
  acc ++ [(A + Bv) % 4294967296, rotl9 (A + Bv + Bv)]


def tfSBoxFillStep (P0t P1t M0 M1 M2 M3 : List Nat) (k64Cnt3 : Nat)
    (k0 k1 k2 k3 : Nat) (acc : List Nat) (i : Nat) : List Nat :=
  let w := getSubKeyWord P0t P1t M0 M1 M2 M3 k64Cnt3 k0 k1 k2 k3 i i i i
  (((acc.set (2 * i) (w.getD 0 0)).set (2 * i + 1) (w.getD 1 0)).set
    (512 + 2 * i) (w.getD 2 0)).set (513 + 2 * i) (w.getD 3 0)


def tfNormKey (key : List Nat) : List Nat × Nat :=
  if 32 < key.length then (key.take 32, key.length)
  else if key.length = 0 ∨ key.length % 8 ≠ 0 then
    (key ++ List.replicate (8 - key.length % 8) 0,
     key.length + (8 - key.length % 8))
  else (key, key.length)


def makeSessionNorm (P0t P1t M0 M1 M2 M3 : List Nat) (key : List Nat)
    (keyLength : Nat) : List Nat × List Nat :=
  let k64Cnt3 := (keyLength / 8) &&& 3
  let kw := fun j => leWord (key.getD (4 * j) 0) (key.getD (4 * j + 1) 0)
    (key.getD (4 * j + 2) 0) (key.getD (4 * j + 3) 0)
  let sB0 : List Nat := List.replicate 1024 0
  let sB1 := if 8 ∣ keyLength ∧ 1 ≤ keyLength / 8 then
    sB0.set (keyLength / 8 - 1) (rsMDSEncode (kw 0) (kw 1)) else sB0
  let sB2 := if 8 ∣ keyLength ∧ 2 ≤ keyLength / 8 then
    sB1.set (keyLength / 8 - 2) (rsMDSEncode (kw 2) (kw 3)) else sB1
  let sB3 := if 8 ∣ keyLength ∧ 3 ≤ keyLength / 8 then
    sB2.set (keyLength / 8 - 3) (rsMDSEncode (kw 4) (kw 5)) else sB2
  let sB4 := if 8 ∣ keyLength ∧ 4 ≤ keyLength / 8 then
    sB3.set (keyLength / 8 - 4) (rsMDSEncode (kw 6) (kw 7)) else sB3
  ((List.range 256).foldl
    (tfSBoxFillStep P0t P1t M0 M1 M2 M3 k64Cnt3 (sB4.getD 0 0) (sB4.getD 1 0)
      (sB4.getD 2 0) (sB4.getD 3 0)) sB4,
   (List.range 20).foldl
    (tfSubKeysStep P0t P1t M0 M1 M2 M3 k64Cnt3 (kw 0) (kw 1) (kw 2) (kw 3)
      (kw 4) (kw 5) (kw 6) (kw 7)) [])


def makeSession (P0t P1t M0 M1 M2 M3 : List Nat) (key : List Nat) :
    List Nat × List Nat :=
  makeSessionNorm P0t P1t M0 M1 M2 M3 (tfNormKey key).1 (tfNormKey key).2



def TwofishRawEncrypt (P0t P1t M0 M1 M2 M3 key block : List Nat) : List Nat :=
  tfEncryptBlock (makeSession P0t P1t M0 M1 M2 M3 key).1
    (makeSession P0t P1t M0 M1 M2 M3 key).2 block


def TwofishRawDecrypt (P0t P1t M0 M1 M2 M3 key block : List Nat) : List Nat :=
  tfDecryptBlock (makeSession P0t P1t M0 M1 M2 M3 key).1
    (makeSession P0t P1t M0 M1 M2 M3 key).2 block


/-! ### Heap model of the non-inplace mode functions (modes.ts)

Buffers live in a heap `List (List Nat)` addressed by index; `hRead` is
`getD` with the empty array as the JS `undefined` image. Each mode function
allocates its output (`new Uint8Array(data.length)`) as a fresh id at the
end of the heap, clones the IV/counter into a pure local register, and its
loops write the heap only at the output id, reading `data` from the heap at
every use site as the source does. The abstract engine is a pure function
`E` applied to the block read at the given offset, standing for
`cipher.encryptBlock`/`decryptBlock` writing its output block at the given
output offset. -/

def hRead (h : List (List Nat)) (id : Nat) : List Nat := h.getD id []


def setSeg (l : List Nat) (off : Nat) (seg : List Nat) : List Nat :=
  l.take off ++ seg ++ l.drop (off + seg.length)


def ecbLoopH (E : List Nat → List Nat) (bs dataId outId : Nat) :
    Nat → Nat → List (List Nat) → List (List Nat)
  | _, 0, h => h
  | j, k + 1, h =>
      ecbLoopH E bs dataId outId (j + 1) k
        (h.set outId (setSeg (hRead h outId) (j * bs)
          (E (((hRead h dataId).drop (j * bs)).take bs))))


def ecbEncryptRawH (E : List Nat → List Nat) (bs : Nat) (dataId : Nat)
    (h : List (List Nat)) : Option (List (List Nat) × Nat) :=
  if (hRead h dataId).length % bs = 0 then
    some (ecbLoopH E bs dataId h.length 0 ((hRead h dataId).length / bs)
        (h ++ [List.replicate (hRead h dataId).length 0]),
      h.length)
  else none


def ecbDecryptRawH (D : List Nat → List Nat) (bs : Nat) (dataId : Nat)
    (h : List (List Nat)) : Option (List (List Nat) × Nat) :=
  if (hRead h dataId).length % bs = 0 then
    some (ecbLoopH D bs dataId h.length 0 ((hRead h dataId).length / bs)
        (h ++ [List.replicate (hRead h dataId).length 0]),
      h.length)
  else none


def cbcEncLoopH (E : List Nat → List Nat) (bs dataId outId : Nat) :
    Nat → Nat → List Nat → List (List Nat) → List (List Nat)
  | _, 0, _, h => h
  | j, k + 1, prev, h =>
      cbcEncLoopH E bs dataId outId (j + 1) k
        (((hRead (h.set outId (setSeg (hRead h outId) (j * bs)
            (E ((List.range bs).map (fun t =>
              (hRead h dataId).getD (j * bs + t) 0 ^^^ prev.getD t 0)))))
          outId).drop (j * bs)).take bs)
        (h.set outId (setSeg (hRead h outId) (j * bs)
          (E ((List.range bs).map (fun t =>
            (hRead h dataId).getD (j * bs + t) 0 ^^^ prev.getD t 0)))))


def cbcEncryptRawH (E : List Nat → List Nat) (bs dataId ivId : Nat)
    (h : List (List Nat)) : Option (List (List Nat) × Nat) :=
  if (hRead h ivId).length = bs ∧ (hRead h dataId).length % bs = 0 then
    some (cbcEncLoopH E bs dataId h.length 0 ((hRead h dataId).length / bs)
        (hRead h ivId) (h ++ [List.replicate (hRead h dataId).length 0]),
      h.length)
  else none


def cbcDecLoopH (D : List Nat → List Nat) (bs dataId outId : Nat) :
    Nat → Nat → List Nat → List (List Nat) → List (List Nat)
  | _, 0, _, h => h
  | j, k + 1, prev, h =>
      cbcDecLoopH D bs dataId outId (j + 1) k
        (((hRead (h.set outId (setSeg (hRead h outId) (j * bs)
            ((List.range bs).map (fun t =>
              (D (((hRead h dataId).drop (j * bs)).take bs)).getD t 0 ^^^
                prev.getD t 0)))) dataId).drop (j * bs)).take bs)
        (h.set outId (setSeg (hRead h outId) (j * bs)
          ((List.range bs).map (fun t =>
            (D (((hRead h dataId).drop (j * bs)).take bs)).getD t 0 ^^^
              prev.getD t 0))))


def cbcDecryptRawH (D : List Nat → List Nat) (bs dataId ivId : Nat)
    (h : List (List Nat)) : Option (List (List Nat) × Nat) :=
  if (hRead h ivId).length = bs ∧ (hRead h dataId).length % bs = 0 then
    some (cbcDecLoopH D bs dataId h.length 0 ((hRead h dataId).length / bs)
        (hRead h ivId) (h ++ [List.replicate (hRead h dataId).length 0]),
      h.length)
  else none


def cfbEncLoopH (E : List Nat → List Nat) (bs s dataId outId : Nat) :
    Nat → Nat → List Nat → List (List Nat) → List (List Nat)
  | _, 0, _, h => h
  | i, k + 1, reg, h =>
      cfbEncLoopH E bs s dataId outId (i + 1) k
        (reg.drop s ++
          ((hRead (h.set outId (setSeg (hRead h outId) (i * s)
              ((List.range s).map (fun t =>
                (hRead h dataId).getD (i * s + t) 0 ^^^ (E reg).getD t 0))))
            outId).drop (i * s)).take s)
        (h.set outId (setSeg (hRead h outId) (i * s)
          ((List.range s).map (fun t =>
            (hRead h dataId).getD (i * s + t) 0 ^^^ (E reg).getD t 0))))


def cfbEncryptRawH (E : List Nat → List Nat) (bs s dataId ivId : Nat)
    (h : List (List Nat)) : Option (List (List Nat) × Nat) :=
  if (hRead h ivId).length = bs ∧ 1 ≤ s ∧ s ≤ bs ∧
      (hRead h dataId).length % s = 0 then
    some (cfbEncLoopH E bs s dataId h.length 0 ((hRead h dataId).length / s)
        (hRead h ivId) (h ++ [List.replicate (hRead h dataId).length 0]),
      h.length)
  else none


def cfbDecLoopH (E : List Nat → List Nat) (bs s dataId outId : Nat) :
    Nat → Nat → List Nat → List (List Nat) → List (List Nat)
  | _, 0, _, h => h
  | i, k + 1, reg, h =>
      cfbDecLoopH E bs s dataId outId (i + 1) k
        (reg.drop s ++
          ((hRead (h.set outId (setSeg (hRead h outId) (i * s)
              ((List.range s).map (fun t =>
                (hRead h dataId).getD (i * s + t) 0 ^^^ (E reg).getD t 0))))
            dataId).drop (i * s)).take s)
        (h.set outId (setSeg (hRead h outId) (i * s)
          ((List.range s).map (fun t =>
            (hRead h dataId).getD (i * s + t) 0 ^^^ (E reg).getD t 0))))


def cfbDecryptRawH (E : List Nat → List Nat) (bs s dataId ivId : Nat)
    (h : List (List Nat)) : Option (List (List Nat) × Nat) :=
  if (hRead h ivId).length = bs ∧ 1 ≤ s ∧ s ≤ bs ∧
      (hRead h dataId).length % s = 0 then
    some (cfbDecLoopH E bs s dataId h.length 0 ((hRead h dataId).length / s)
        (hRead h ivId) (h ++ [List.replicate (hRead h dataId).length 0]),
      h.length)
  else none


def ofbLoopH (E : List Nat → List Nat) (bs dataId outId : Nat) :
    Nat → Nat → List Nat → List Nat → Nat → List (List Nat) → List (List Nat)
  | _, 0, _, _, _, h => h
  | i, k + 1, reg, ks, idx, h =>
      if idx = bs then
        ofbLoopH E bs dataId outId (i + 1) k (E reg) (E reg) 1
          (h.set outId ((hRead h outId).set i
            ((hRead h dataId).getD i 0 ^^^ (E reg).getD 0 0)))
      else
        ofbLoopH E bs dataId outId (i + 1) k reg ks (idx + 1)
          (h.set outId ((hRead h outId).set i
            ((hRead h dataId).getD i 0 ^^^ ks.getD idx 0)))


def ofbXorRawH (E : List Nat → List Nat) (bs dataId ivId : Nat)
    (h : List (List Nat)) : Option (List (List Nat) × Nat) :=
  if (hRead h ivId).length = bs then
    some (ofbLoopH E bs dataId h.length 0 (hRead h dataId).length
        (hRead h ivId) (List.replicate bs 0) bs
        (h ++ [List.replicate (hRead h dataId).length 0]),
      h.length)
  else none


def ctrLoopH (E : List Nat → List Nat) (bs dataId outId : Nat) :
    Nat → Nat → List Nat → List Nat → Nat → List (List Nat) → List (List Nat)
  | _, 0, _, _, _, h => h
  | i, k + 1, ctr, ks, idx, h =>
      if idx = bs then
        ctrLoopH E bs dataId outId (i + 1) k (incBE ctr) (E ctr) 1
          (h.set outId ((hRead h outId).set i
            ((hRead h dataId).getD i 0 ^^^ (E ctr).getD 0 0)))
      else
        ctrLoopH E bs dataId outId (i + 1) k ctr ks (idx + 1)
          (h.set outId ((hRead h outId).set i
            ((hRead h dataId).getD i 0 ^^^ ks.getD idx 0)))


def ctrXorRawH (E : List Nat → List Nat) (bs dataId ctrId : Nat)
    (h : List (List Nat)) : Option (List (List Nat) × Nat) :=
  if (hRead h ctrId).length = bs then
    some (ctrLoopH E bs dataId h.length 0 (hRead h dataId).length
        (hRead h ctrId) (List.replicate bs 0) bs
        (h ++ [List.replicate (hRead h dataId).length 0]),
      h.length)
  else none



/-- C1: the claimed round-trip `pkcs7Unpad (pkcs7Pad M bs) bs = M` fails on
the code.  For the aligned message `[2, 2]` with block size 2, `pkcs7Pad`
appends nothing (`padLen = blockSize - blockSize = 0`), and `pkcs7Unpad`
then silently strips the message itself, returning `[]` instead of `[2, 2]`.
For the empty message with block size 8 the padded output is empty, so its
length is not a positive multiple of the block size either. -/
theorem c1_pad_unpad_roundtrip_fails :
    pkcs7Pad [2, 2] 2 = some [2, 2] ∧
    pkcs7Unpad [2, 2] 2 = some [] ∧
    pkcs7Pad [] 8 = some [] := by
  refine ⟨by decide, by decide, by decide⟩


/-- C2: the claim that `pkcs7Pad` appends `blockSize` bytes when the input is
already aligned fails on the code: for the aligned message `[1, 2]` with
block size 2 the code appends zero bytes (the claimed behaviour would give
`[1, 2, 2, 2]`).  The unaligned case `[5]` does append `padLen = 1` bytes of
value 1 as claimed. -/
theorem c2_pad_padlen_wrong_when_aligned :
    pkcs7Pad [1, 2] 2 = some [1, 2] ∧
    pkcs7Pad [5] 2 = some [5, 1] := by
  refine ⟨by decide, by decide⟩


/-- C8: the validation loop of `pkcs7Unpad` is not fixed-iteration: both
inputs below have length 4, block size 4, claimed pad byte 3 and invalid
padding, yet the loop performs 1 comparison on the first (mismatch at the
first checked byte) and 2 on the second (mismatch at the second checked
byte), so the number of iterations depends on where the first mismatching
byte occurs. -/
theorem c8_unpad_compare_count_not_fixed :
    pkcs7Unpad [0, 9, 3, 3] 4 = none ∧
    pkcs7Unpad [0, 3, 9, 3] 4 = none ∧
    pkcs7UnpadCompares [0, 9, 3, 3] 4 = 1 ∧
    pkcs7UnpadCompares [0, 3, 9, 3] 4 = 2 := by
  refine ⟨by decide, by decide, by decide, by decide⟩


/-- C7: `pkcs7Unpad` rejects (a) empty input, (b) input whose length is not a
multiple of the block size, (c) input whose last byte is 0 or exceeds the
block size, (d) input with some trailing byte different from the pad byte;
and on input whose last `padLen` bytes all equal `padLen` (with
`1 ≤ padLen ≤ blockSize` and nonzero aligned length) it returns the input
without its trailing `padLen` bytes. -/
theorem c7_unpad_rejects_and_strips :
    (∀ bs : Nat, pkcs7Unpad [] bs = none) ∧
    (∀ (d : List Nat) (bs : Nat), d.length % bs ≠ 0 → pkcs7Unpad d bs = none) ∧
    (∀ (d : List Nat) (bs : Nat), d.getD (d.length - 1) 0 = 0 ∨
        d.getD (d.length - 1) 0 > bs → pkcs7Unpad d bs = none) ∧
    (∀ (d : List Nat) (bs j : Nat), j < d.getD (d.length - 1) 0 →
        d.getD (d.length - d.getD (d.length - 1) 0 + j) 0 ≠
          d.getD (d.length - 1) 0 →
        pkcs7Unpad d bs = none) ∧
    (∀ (d : List Nat) (bs : Nat), d.length ≠ 0 → d.length % bs = 0 →
        1 ≤ d.getD (d.length - 1) 0 → d.getD (d.length - 1) 0 ≤ bs →
        (∀ j, j < d.getD (d.length - 1) 0 →
          d.getD (d.length - d.getD (d.length - 1) 0 + j) 0 =
            d.getD (d.length - 1) 0) →
        pkcs7Unpad d bs = some (d.take (d.length - d.getD (d.length - 1) 0))) := by
  refine ⟨?_, ?_, ?_, ?_, ?_⟩
  · intro bs
    simp [pkcs7Unpad]
  · intro d bs h
    simp [pkcs7Unpad, h]
  · intro d bs h
    by_cases h0 : d.length = 0 ∨ d.length % bs ≠ 0
    · unfold pkcs7Unpad
      rw [if_pos h0]
    · have hpad : d.getD (d.length - 1) 0 < 1 ∨ d.getD (d.length - 1) 0 > bs := by
        rcases h with h | h
        · exact Or.inl (by omega)
        · exact Or.inr h
      unfold pkcs7Unpad
      rw [if_neg h0, if_pos hpad]
  · intro d bs j hj hne
    by_cases h0 : d.length = 0 ∨ d.length % bs ≠ 0
    · unfold pkcs7Unpad
      rw [if_pos h0]
    · by_cases hpad : d.getD (d.length - 1) 0 < 1 ∨ d.getD (d.length - 1) 0 > bs
      · unfold pkcs7Unpad
        rw [if_neg h0, if_pos hpad]
      · have hall : ¬ (List.range (d.getD (d.length - 1) 0)).all
            (fun k => decide (d.getD (d.length - d.getD (d.length - 1) 0 + k) 0 =
              d.getD (d.length - 1) 0)) = true := by
          simp only [List.all_eq_true, not_forall]
          refine ⟨j, List.mem_range.mpr hj, by simpa using hne⟩
        unfold pkcs7Unpad
        rw [if_neg h0, if_neg hpad, if_neg hall]
  · intro d bs hlen hmod h1 h2 hall
    have h0 : ¬(d.length = 0 ∨ d.length % bs ≠ 0) := by
      push_neg
      exact ⟨hlen, hmod⟩
    have hpad : ¬(d.getD (d.length - 1) 0 < 1 ∨ d.getD (d.length - 1) 0 > bs) := by
      push_neg
      exact ⟨h1, h2⟩
    have hcheck : (List.range (d.getD (d.length - 1) 0)).all
        (fun k => decide (d.getD (d.length - d.getD (d.length - 1) 0 + k) 0 =
          d.getD (d.length - 1) 0)) = true := by
      simp only [List.all_eq_true]
      intro k hk
      simpa using hall k (List.mem_range.mp hk)
    unfold pkcs7Unpad
    rw [if_neg h0, if_neg hpad, if_pos hcheck]


/-- Witness for C7 at concrete inputs: one instance of each rejection case and
one valid strip. -/
theorem c7_unpad_rejects_and_strips_witness :
    pkcs7Unpad [] 8 = none ∧
    pkcs7Unpad [1, 2, 3] 2 = none ∧
    pkcs7Unpad [0, 0] 2 = none ∧
    pkcs7Unpad [9, 1, 3, 2] 2 = none ∧
    pkcs7Unpad [5, 5, 2, 2] 2 = some [5, 5] :=
  ⟨c7_unpad_rejects_and_strips.1 8,
   c7_unpad_rejects_and_strips.2.1 [1, 2, 3] 2 (by decide),
   c7_unpad_rejects_and_strips.2.2.1 [0, 0] 2 (by decide),
   c7_unpad_rejects_and_strips.2.2.2.1 [9, 1, 3, 2] 2 0 (by decide) (by decide),
   c7_unpad_rejects_and_strips.2.2.2.2 [5, 5, 2, 2] 2 (by decide) (by decide)
     (by decide) (by decide) (by decide)⟩


/-! ## Generic helpers for byte lists and 8-bit masks -/

/-- The JavaScript mask `x & 0xff` is reduction modulo 256. -/
theorem and255_eq_mod (x : Nat) : x &&& 255 = x % 256 := by
  have h : (255 : Nat) = 2 ^ 8 - 1 := by norm_num
  apply Nat.eq_of_testBit_eq
  intro i
  rw [Nat.testBit_and, h, Nat.testBit_two_pow_sub_one]
  have h2 : (256 : Nat) = 2 ^ 8 := by norm_num
  rw [h2, Nat.testBit_mod_two_pow]
  exact Bool.and_comm _ _


/-- XOR left-commutativity, used to reorder XOR chains. -/
theorem xor_left_comm (a b c : Nat) : a ^^^ (b ^^^ c) = b ^^^ (a ^^^ c) := by
  rw [← Nat.xor_assoc, Nat.xor_comm a b, Nat.xor_assoc]


/-- An entry read with default 0 from a list of bytes is a byte. -/
theorem getD_lt_256 {l : List Nat} (h : ∀ b ∈ l, b < 256) (i : Nat) :
    l.getD i 0 < 256 := by
  by_cases hi : i < l.length
  · rw [List.getD_eq_getElem l 0 hi]
    exact h _ (List.getElem_mem hi)
  · rw [List.getD_eq_default l 0 (by omega)]
    omega


/-- XORing the same list in twice gives back the original list. -/
theorem zipWith_xor_cancel :
    ∀ (a k : List Nat), a.length ≤ k.length →
      List.zipWith (fun x y => x ^^^ y) (List.zipWith (fun x y => x ^^^ y) a k) k = a := by
  intro a
  induction a with
  | nil => intro k _; simp
  | cons x xs ih =>
    intro k hk
    cases k with
    | nil => simp at hk
    | cons y ys =>
      simp only [List.zipWith_cons_cons, List.length_cons] at *
      rw [Nat.xor_cancel_right]
      rw [ih ys (by omega)]


/-- A nonempty list whose length the segment size divides holds at least one
full segment. -/
theorem seg_le_length {s n : Nat} (_hs : 1 ≤ s) (hmod : n % s = 0)
    (hpos : n ≠ 0) : s ≤ n := by
  rcases Nat.lt_or_ge n s with h | h
  · have := Nat.eq_zero_of_dvd_of_lt (Nat.dvd_of_mod_eq_zero hmod) h
    omega
  · exact h


/-- Dividing out one segment preserves alignment. -/
theorem sub_seg_mod {s n : Nat} (hmod : n % s = 0) : (n - s) % s = 0 :=
  Nat.eq_zero_of_dvd_of_lt (Nat.dvd_sub' (Nat.dvd_of_mod_eq_zero hmod)
    (Nat.dvd_refl s)) |> fun _ => by
      have h1 : s ∣ n := Nat.dvd_of_mod_eq_zero hmod
      have h2 : s ∣ (n - s) := Nat.dvd_sub' h1 (Nat.dvd_refl s)
      exact Nat.eq_zero_of_dvd_of_lt h2 |> fun _ => Nat.mod_eq_zero_of_dvd h2


/-- The encrypt loop produces exactly one output byte per input byte. -/
theorem cfbEncGo_length {bs : Nat} (E : List Nat → List Nat) (s : Nat)
    (hs : 1 ≤ s) (hsb : s ≤ bs) (hE : ∀ r, (E r).length = bs) :
    ∀ (fuel : Nat) (reg rest : List Nat), rest.length % s = 0 →
      rest.length ≤ fuel → (cfbEncGo E s fuel reg rest).length = rest.length := by
  intro fuel
  induction fuel with
  | zero =>
    intro reg rest _ hle
    have : rest = [] := List.length_eq_zero.mp (by omega)
    subst this
    rfl
  | succ fuel ih =>
    intro reg rest hmod hle
    cases rest with
    | nil => rfl
    | cons r0 rs =>
      have hsl : s ≤ (r0 :: rs).length :=
        seg_le_length hs hmod (by simp)
      simp only [List.length_cons] at hsl hle
      simp only [cfbEncGo, List.length_append, List.length_zipWith,
        List.length_take, hE, List.length_drop]
      rw [ih _ _ (by
          rw [List.length_drop]
          exact sub_seg_mod hmod)
        (by simp only [List.length_drop, List.length_cons]; omega)]
      simp only [List.length_cons, List.length_drop]
      omega


/-- Unfolding of the encrypt loop on a nonempty input. -/
theorem cfbEncGo_cons (E : List Nat → List Nat) (s fuel : Nat)
    (reg rest : List Nat) (h : rest ≠ []) :
    cfbEncGo E s (fuel + 1) reg rest =
      List.zipWith (fun a b => a ^^^ b) (rest.take s) ((E reg).take s) ++
        cfbEncGo E s fuel
          (reg.drop s ++ List.zipWith (fun a b => a ^^^ b)
            (rest.take s) ((E reg).take s))
          (rest.drop s) := by
  cases rest with
  | nil => exact absurd rfl h
  | cons r0 rs => rfl


/-- Unfolding of the decrypt loop on a nonempty input. -/
theorem cfbDecGo_cons (E : List Nat → List Nat) (s fuel : Nat)
    (reg rest : List Nat) (h : rest ≠ []) :
    cfbDecGo E s (fuel + 1) reg rest =
      List.zipWith (fun a b => a ^^^ b) (rest.take s) ((E reg).take s) ++
        cfbDecGo E s fuel (reg.drop s ++ rest.take s) (rest.drop s) := by
  cases rest with
  | nil => exact absurd rfl h
  | cons r0 rs => rfl


/-- Core CFB inversion: running the decrypt loop on the encrypt loop's output
with the same register recovers the input.  The decrypt loop refills its
register from its own input, which is exactly the ciphertext the encrypt loop
fed back, so the registers (and hence keystreams) coincide segment by
segment. -/
theorem cfbGo_roundtrip {bs : Nat} (E : List Nat → List Nat) (s : Nat)
    (hs : 1 ≤ s) (hsb : s ≤ bs) (hE : ∀ r, (E r).length = bs) :
    ∀ (fuel1 fuel2 : Nat) (reg rest : List Nat), rest.length % s = 0 →
      rest.length ≤ fuel1 → rest.length ≤ fuel2 →
      cfbDecGo E s fuel2 reg (cfbEncGo E s fuel1 reg rest) = rest := by
  intro fuel1
  induction fuel1 with
  | zero =>
    intro fuel2 reg rest _ hle _
    have : rest = [] := List.length_eq_zero.mp (by omega)
    subst this
    cases fuel2 <;> rfl
  | succ fuel1 ih =>
    intro fuel2 reg rest hmod hle1 hle2
    cases rest with
    | nil =>
      cases fuel2 <;> rfl
    | cons r0 rs =>
      have hsl : s ≤ (r0 :: rs).length := seg_le_length hs hmod (by simp)
      set seg := List.zipWith (fun a b => a ^^^ b)
        ((r0 :: rs).take s) ((E reg).take s) with hseg
      have htakelen : ((r0 :: rs).take s).length = s := by
        rw [List.length_take]
        omega
      have hseglen : seg.length = s := by
        rw [hseg]
        simp only [List.length_zipWith, List.length_take, hE]
        omega
      obtain ⟨f2, rfl⟩ : ∃ f2, fuel2 = f2 + 1 := by
        cases fuel2 with
        | zero => simp at hle2
        | succ f2 => exact ⟨f2, rfl⟩
      rw [cfbEncGo_cons E s fuel1 reg (r0 :: rs) (by simp), ← hseg]
      have hne : seg ++ cfbEncGo E s fuel1 (reg.drop s ++ seg)
          ((r0 :: rs).drop s) ≠ [] := by
        intro hcon
        have := congrArg List.length hcon
        simp only [List.length_append, hseglen, List.length_nil] at this
        omega
      rw [cfbDecGo_cons E s f2 reg _ hne]
      rw [List.take_left' hseglen, List.drop_left' hseglen]
      have hcancel : List.zipWith (fun a b => a ^^^ b) seg ((E reg).take s) =
          (r0 :: rs).take s := by
        rw [hseg]
        exact zipWith_xor_cancel _ _ (by
          rw [htakelen, List.length_take, hE]
          omega)
      rw [hcancel]
      rw [ih f2 (reg.drop s ++ seg) ((r0 :: rs).drop s)
        (by rw [List.length_drop]; exact sub_seg_mod hmod)
        (by rw [List.length_drop]; simp only [List.length_cons] at hle1 ⊢; omega)
        (by rw [List.length_drop]; simp only [List.length_cons] at hle2 ⊢; omega)]
      exact List.take_append_drop s (r0 :: rs)


/-- One-step unfolding of the register recursion. -/
theorem cfbReg_succ (E : List Nat → List Nat) (s : Nat)
    (reg data : List Nat) (k : Nat) :
    cfbReg E s reg data (k + 1) =
      (cfbReg E s reg data k).drop s ++
        List.zipWith (fun a b => a ^^^ b)
          ((data.drop (k * s)).take s) ((E (cfbReg E s reg data k)).take s) :=
  rfl


/-- Advancing one segment commutes with the register recursion. -/
theorem cfbReg_shift (E : List Nat → List Nat) (s : Nat) :
    ∀ (k : Nat) (reg rest : List Nat),
      cfbReg E s
        (reg.drop s ++ List.zipWith (fun a b => a ^^^ b)
          (rest.take s) ((E reg).take s))
        (rest.drop s) k = cfbReg E s reg rest (k + 1) := by
  intro k
  induction k with
  | zero =>
    intro reg rest
    simp [cfbReg, cfbReg_succ]
  | succ k ih =>
    intro reg rest
    have hmul : s + k * s = (k + 1) * s := by ring
    rw [cfbReg_succ E s _ _ k, ih reg rest, cfbReg_succ E s reg rest (k + 1)]
    rw [List.drop_drop, hmul]


/-- Segment formula for the encrypt loop: the k-th output segment is the k-th
input segment XORed with the first `s` bytes of the encryption of the running
register described by `cfbReg`. -/
theorem cfbEncGo_segment {bs : Nat} (E : List Nat → List Nat) (s : Nat)
    (hs : 1 ≤ s) (hsb : s ≤ bs) (hE : ∀ r, (E r).length = bs) :
    ∀ (k fuel : Nat) (reg rest : List Nat), rest.length % s = 0 →
      rest.length ≤ fuel → (k + 1) * s ≤ rest.length →
      ((cfbEncGo E s fuel reg rest).drop (k * s)).take s =
        List.zipWith (fun a b => a ^^^ b) ((rest.drop (k * s)).take s)
          ((E (cfbReg E s reg rest k)).take s) := by
  intro k
  induction k with
  | zero =>
    intro fuel reg rest hmod hfuel hks
    have h1 : (0 + 1) * s = s := by ring
    rw [h1] at hks
    have hne : rest ≠ [] := by
      intro hcon
      subst hcon
      simp only [List.length_nil] at hks
      omega
    obtain ⟨f, rfl⟩ : ∃ f, fuel = f + 1 := by
      cases fuel with
      | zero =>
        have : rest.length = 0 := by omega
        exact absurd (List.length_eq_zero.mp this) hne
      | succ f => exact ⟨f, rfl⟩
    rw [cfbEncGo_cons E s f reg rest hne]
    simp only [Nat.zero_mul, List.drop_zero, cfbReg]
    apply List.take_left'
    simp only [List.length_zipWith, List.length_take, hE]
    omega
  | succ k ih =>
    intro fuel reg rest hmod hfuel hks
    have hm2 : (k + 1 + 1) * s = (k + 1) * s + s := by ring
    have hm1 : (k + 1) * s = k * s + s := by ring
    have hslen : s ≤ rest.length := by omega
    have hne : rest ≠ [] := by
      intro hcon
      subst hcon
      simp only [List.length_nil] at hslen
      omega
    obtain ⟨f, rfl⟩ : ∃ f, fuel = f + 1 := by
      cases fuel with
      | zero =>
        have : rest.length = 0 := by omega
        exact absurd (List.length_eq_zero.mp this) hne
      | succ f => exact ⟨f, rfl⟩
    rw [cfbEncGo_cons E s f reg rest hne]
    set seg := List.zipWith (fun a b => a ^^^ b)
      (rest.take s) ((E reg).take s) with hseg
    have hseglen : seg.length = s := by
      rw [hseg]
      simp only [List.length_zipWith, List.length_take, hE]
      omega
    have hdropstep : (seg ++ cfbEncGo E s f (reg.drop s ++ seg)
        (rest.drop s)).drop ((k + 1) * s) =
        (cfbEncGo E s f (reg.drop s ++ seg) (rest.drop s)).drop (k * s) := by
      have h1 : (k + 1) * s = s + k * s := by ring
      rw [h1, ← List.drop_drop, List.drop_left' hseglen]
    rw [hdropstep]
    rw [ih f (reg.drop s ++ seg) (rest.drop s)
      (by rw [List.length_drop]; exact sub_seg_mod hmod)
      (by rw [List.length_drop]; omega)
      (by rw [List.length_drop]; omega)]
    rw [hseg, cfbReg_shift E s k reg rest]
    rw [List.drop_drop]
    have h2 : s + k * s = (k + 1) * s := by ring
    rw [h2]


/-- C5: CFB with any engine, any IV of block length, any segment size
`s ∈ [1, blockSize]` and any input aligned to `s`: encryption succeeds, each
output segment is the input segment XORed with the first `s` bytes of the
encryption of the ciphertext-feedback register, and decrypting the output
under the same engine, IV and segment size returns the original data. -/
theorem c5_cfb_segment_xor_and_roundtrip
    (bs s : Nat) (E : List Nat → List Nat) (hE : ∀ r, (E r).length = bs)
    (data iv : List Nat) (hiv : iv.length = bs) (hs : 1 ≤ s) (hsb : s ≤ bs)
    (hmod : data.length % s = 0) :
    ∃ out, cfbEncryptRaw bs E data iv s = some out ∧
      out.length = data.length ∧
      (∀ k, (k + 1) * s ≤ data.length →
        (out.drop (k * s)).take s =
          List.zipWith (fun a b => a ^^^ b) ((data.drop (k * s)).take s)
            ((E (cfbReg E s iv data k)).take s)) ∧
      cfbDecryptRaw bs E out iv s = some data := by
  have hguard1 : ¬ iv.length ≠ bs := by omega
  have hguard2 : ¬ (s < 1 ∨ s > bs) := by omega
  have hguard3 : ¬ data.length % s ≠ 0 := by omega
  refine ⟨cfbEncGo E s data.length iv data, ?_, ?_, ?_, ?_⟩
  · unfold cfbEncryptRaw
    rw [if_neg hguard1, if_neg hguard2, if_neg hguard3]
  · exact cfbEncGo_length E s hs hsb hE data.length iv data hmod (Nat.le_refl _)
  · intro k hk
    exact cfbEncGo_segment E s hs hsb hE k data.length iv data hmod
      (Nat.le_refl _) hk
  · have hlen : (cfbEncGo E s data.length iv data).length = data.length :=
      cfbEncGo_length E s hs hsb hE data.length iv data hmod (Nat.le_refl _)
    have hmod2 : (cfbEncGo E s data.length iv data).length % s ≠ 0 → False := by
      rw [hlen]
      omega
    unfold cfbDecryptRaw
    rw [if_neg hguard1, if_neg hguard2, if_neg (by
      intro hcon
      exact hmod2 hcon)]
    rw [show (cfbEncGo E s data.length iv data).length = data.length from hlen]
    rw [cfbGo_roundtrip E s hs hsb hE data.length data.length iv data hmod
      (Nat.le_refl _) (Nat.le_refl _)]


/-- Witness for C5 with a concrete two-byte block cipher, segment size 1,
IV `[0, 0]` and data `[3, 4]`. -/
theorem c5_cfb_segment_xor_and_roundtrip_witness :
    ∃ out, cfbEncryptRaw 2 (fun r => [r.getD 0 0 ^^^ 1, 7]) [3, 4] [0, 0] 1 =
        some out ∧
      out.length = ([3, 4] : List Nat).length ∧
      (∀ k, (k + 1) * 1 ≤ ([3, 4] : List Nat).length →
        (out.drop (k * 1)).take 1 =
          List.zipWith (fun a b => a ^^^ b) ((([3, 4] : List Nat).drop (k * 1)).take 1)
            (((fun (r : List Nat) => [r.getD 0 0 ^^^ 1, 7])
              (cfbReg (fun r => [r.getD 0 0 ^^^ 1, 7]) 1 [0, 0] [3, 4] k)).take 1)) ∧
      cfbDecryptRaw 2 (fun r => [r.getD 0 0 ^^^ 1, 7]) out [0, 0] 1 = some [3, 4] :=
  c5_cfb_segment_xor_and_roundtrip 2 1 (fun r => [r.getD 0 0 ^^^ 1, 7])
    (fun r => rfl) [3, 4] [0, 0] rfl (by decide) (by decide) (by decide)


/-- Reading any index of a `zipWith` XOR with default 0 is the XOR of the
two entries. -/
theorem zipWith_xor_getD :
    ∀ (a b : List Nat) (i : Nat), i < a.length → i < b.length →
      (List.zipWith (fun x y => x ^^^ y) a b).getD i 0 =
        a.getD i 0 ^^^ b.getD i 0 := by
  intro a
  induction a with
  | nil =>
    intro b i hi _
    simp at hi
  | cons x xs ih =>
    intro b i hi hb
    cases b with
    | nil => simp at hb
    | cons y ys =>
      cases i with
      | zero => rfl
      | succ i =>
        simp only [List.zipWith_cons_cons, List.getD_cons_succ]
        exact ih ys i (by simpa using hi) (by simpa using hb)


/-- `incBEGo` preserves the length. -/
theorem incBEGo_length : ∀ l : List Nat, (incBEGo l).length = l.length := by
  intro l
  induction l with
  | nil => rfl
  | cons b rest ih =>
    by_cases h : (b + 1) &&& 255 ≠ 0
    · simp [incBEGo, h]
    · simp [incBEGo, h, ih]


/-- `incBE` preserves the length. -/
theorem incBE_length (l : List Nat) : (incBE l).length = l.length := by
  unfold incBE
  rw [List.length_reverse, incBEGo_length, List.length_reverse]


/-- `incBEGo` keeps every byte below 256. -/
theorem incBEGo_bytes : ∀ l : List Nat, (∀ b ∈ l, b < 256) →
    ∀ b ∈ incBEGo l, b < 256 := by
  intro l
  induction l with
  | nil => intro _ b hb; simp [incBEGo] at hb
  | cons x rest ih =>
    intro hl b hb
    have hmask : (x + 1) &&& 255 < 256 := by
      have := Nat.and_le_right (n := x + 1) (m := 255)
      omega
    by_cases h : (x + 1) &&& 255 ≠ 0
    · simp only [incBEGo, if_pos h] at hb
      rcases List.mem_cons.mp hb with rfl | hmem
      · exact hmask
      · exact hl b (List.mem_cons_of_mem _ hmem)
    · simp only [incBEGo, if_neg h] at hb
      rcases List.mem_cons.mp hb with rfl | hmem
      · exact hmask
      · exact ih (fun c hc => hl c (List.mem_cons_of_mem _ hc)) b hmem


/-- `incBE` keeps every byte below 256. -/
theorem incBE_bytes (l : List Nat) (h : ∀ b ∈ l, b < 256) :
    ∀ b ∈ incBE l, b < 256 := by
  intro b hb
  rw [incBE, List.mem_reverse] at hb
  exact incBEGo_bytes l.reverse (fun c hc => h c (List.mem_reverse.mp hc)) b hb


/-- A byte list denotes a value below `2^(8·length)`. -/
theorem leVal_lt : ∀ l : List Nat, (∀ b ∈ l, b < 256) →
    leVal l < 2 ^ (8 * l.length) := by
  intro l
  induction l with
  | nil => simp [leVal]
  | cons b rest ih =>
    intro h
    have hb : b < 256 := h b (List.mem_cons_self b rest)
    have hrest := ih (fun c hc => h c (List.mem_cons_of_mem _ hc))
    simp only [leVal, List.length_cons]
    have hpow : 2 ^ (8 * (rest.length + 1)) = 256 * 2 ^ (8 * rest.length) := by
      rw [Nat.mul_add, Nat.pow_add]
      ring
    rw [hpow]
    omega


/-- The increment loop adds one to the little-endian value, modulo the full
width. -/
theorem incBEGo_leVal : ∀ l : List Nat, (∀ b ∈ l, b < 256) →
    leVal (incBEGo l) = (leVal l + 1) % 2 ^ (8 * l.length) := by
  intro l
  induction l with
  | nil => intro _; rfl
  | cons b rest ih =>
    intro h
    have hb : b < 256 := h b (List.mem_cons_self b rest)
    have hrest : ∀ c ∈ rest, c < 256 :=
      fun c hc => h c (List.mem_cons_of_mem _ hc)
    have hmask : (b + 1) &&& 255 = (b + 1) % 256 := and255_eq_mod (b + 1)
    have hpow : 2 ^ (8 * (rest.length + 1)) = 256 * 2 ^ (8 * rest.length) := by
      rw [Nat.mul_add, Nat.pow_add]
      ring
    have hvlt := leVal_lt rest hrest
    by_cases hz : (b + 1) &&& 255 ≠ 0
    · have hlt : b + 1 < 256 := by
        rcases Nat.lt_or_ge (b + 1) 256 with h1 | h1
        · exact h1
        · have : b + 1 = 256 := by omega
          rw [hmask, this] at hz
          simp at hz
      simp only [incBEGo, if_pos hz, leVal, hmask, Nat.mod_eq_of_lt hlt,
        List.length_cons, hpow]
      rw [Nat.mod_eq_of_lt (by omega)]
      omega
    · push_neg at hz
      have hb255 : b = 255 := by
        rw [hmask] at hz
        omega
      subst hb255
      simp only [incBEGo, if_neg (not_not_intro hz), leVal, hmask,
        List.length_cons, hpow]
      rw [ih hrest]
      have h256 : (255 + 1) % 256 = 0 := by norm_num
      rw [h256]
      have heq : 255 + 256 * leVal rest + 1 = 256 * (leVal rest + 1) := by ring
      rw [heq, Nat.mul_mod_mul_left]
      omega


/-- C6 helper: `incBE` adds one to the big-endian counter value modulo
`2^(8·length)` — the carry propagates leftward and wraps silently. -/
theorem incBE_beVal (c : List Nat) (h : ∀ b ∈ c, b < 256) :
    beVal (incBE c) = (beVal c + 1) % 2 ^ (8 * c.length) := by
  unfold incBE beVal
  rw [List.reverse_reverse]
  rw [incBEGo_leVal c.reverse (fun b hb => h b (List.mem_reverse.mp hb))]
  rw [List.length_reverse]


/-- Total length of `n` keystream blocks. -/
theorem ksBlocks_length {bs : Nat} (E : List Nat → List Nat)
    (hE : ∀ c, (E c).length = bs) :
    ∀ (n : Nat) (ctr : List Nat), (ksBlocks E n ctr).length = n * bs := by
  intro n
  induction n with
  | zero =>
    intro ctr
    simp [ksBlocks]
  | succ n ih =>
    intro ctr
    simp only [ksBlocks, List.length_append, hE, ih]
    ring


/-- The CTR byte loop equals a XOR with the concatenated keystream: from a
state with `idx` bytes of the current block consumed, the remaining keystream
is the rest of the current block followed by blocks generated from the
running counter. -/
theorem ctrGo_eq_zip {bs : Nat} (E : List Nat → List Nat) (hbs : 0 < bs)
    (hE : ∀ c, (E c).length = bs) :
    ∀ (rest ctr ks : List Nat) (idx n : Nat), idx ≤ bs → ks.length = bs →
      rest.length ≤ (bs - idx) + n * bs →
      ctrGo bs E ctr ks idx rest =
        List.zipWith (fun a b => a ^^^ b) rest (ks.drop idx ++ ksBlocks E n ctr) := by
  intro rest
  induction rest with
  | nil =>
    intro ctr ks idx n _ _ _
    simp [ctrGo]
  | cons d rest ih =>
    intro ctr ks idx n hidx hks hlen
    by_cases hb : idx = bs
    · have hdrop : ks.drop idx = [] := List.drop_eq_nil_of_le (by omega)
      obtain ⟨m, rfl⟩ : ∃ m, n = m + 1 := by
        cases n with
        | zero =>
          simp only [List.length_cons, Nat.zero_mul, Nat.add_zero] at hlen
          omega
        | succ m => exact ⟨m, rfl⟩
      have hmul : (m + 1) * bs = m * bs + bs := by ring
      cases hEc : E ctr with
      | nil =>
        have hcon := hE ctr
        rw [hEc] at hcon
        simp only [List.length_nil] at hcon
        omega
      | cons e es =>
        have hlen2 : (e :: es).length = bs := by
          rw [← hEc]
          exact hE ctr
        simp only [ctrGo, if_pos hb, hdrop, List.nil_append, ksBlocks, hEc,
          List.cons_append, List.zipWith_cons_cons, List.getD_cons_zero]
        rw [ih (incBE ctr) (e :: es) 1 m (by omega) hlen2
          (by
            simp only [List.length_cons] at hlen ⊢
            omega)]
        rw [List.drop_one, List.tail_cons]
    · have hlt : idx < bs := by omega
      have hlt' : idx < ks.length := by omega
      simp only [ctrGo, if_neg hb]
      rw [List.drop_eq_getElem_cons hlt', List.cons_append,
        List.zipWith_cons_cons]
      rw [List.getD_eq_getElem ks 0 hlt']
      rw [ih ctr ks (idx + 1) n (by omega) hks
        (by
          simp only [List.length_cons] at hlen
          omega)]


/-- Indexing the concatenated keystream: byte `i` lives in block `i / bs` at
offset `i % bs`, and block `k` is the encryption of the `k`-times incremented
counter. -/
theorem ksBlocks_getD {bs : Nat} (E : List Nat → List Nat) (hbs : 0 < bs)
    (hE : ∀ c, (E c).length = bs) :
    ∀ (n : Nat) (ctr : List Nat) (i : Nat), i < n * bs →
      (ksBlocks E n ctr).getD i 0 =
        (E (incBE^[i / bs] ctr)).getD (i % bs) 0 := by
  intro n
  induction n with
  | zero =>
    intro ctr i hi
    simp at hi
  | succ n ih =>
    intro ctr i hi
    have hmul : (n + 1) * bs = n * bs + bs := by ring
    by_cases hlt : i < bs
    · have hltlen : i < (E ctr ++ ksBlocks E n (incBE ctr)).length := by
        simp only [List.length_append, hE, ksBlocks_length E hE]
        omega
      have hlt2 : i < (E ctr).length := by
        rw [hE]
        exact hlt
      simp only [ksBlocks]
      rw [List.getD_eq_getElem _ 0 hltlen, List.getElem_append_left hlt2]
      rw [Nat.div_eq_of_lt hlt, Nat.mod_eq_of_lt hlt,
        Function.iterate_zero_apply]
      rw [List.getD_eq_getElem _ 0 hlt2]
    · have hge : bs ≤ i := by omega
      have hi2 : i - bs < n * bs := by omega
      have hltlen : i < (E ctr ++ ksBlocks E n (incBE ctr)).length := by
        simp only [List.length_append, hE, ksBlocks_length E hE]
        omega
      have hgelen : (E ctr).length ≤ i := by
        rw [hE]
        exact hge
      have hlen2 : i - bs < (ksBlocks E n (incBE ctr)).length := by
        rw [ksBlocks_length E hE]
        exact hi2
      simp only [ksBlocks]
      rw [List.getD_eq_getElem _ 0 hltlen, List.getElem_append_right hgelen]
      simp only [hE]
      rw [← List.getD_eq_getElem (ksBlocks E n (incBE ctr)) 0 hlen2]
      rw [ih (incBE ctr) (i - bs) hi2]
      rw [Nat.div_eq_sub_div hbs hge, Nat.mod_eq_sub_mod hge]
      rw [Function.iterate_succ_apply]


/-- C6: `ctrXorRaw` XORs byte `i` of the input with byte `i mod blockSize` of
the encryption of the `⌊i / blockSize⌋`-times incremented counter; the
counter increment is big-endian addition of 1 with leftward carry and silent
wraparound on overflow of the full block width; and the operation is its own
inverse. -/
theorem c6_ctr_keystream_and_involution
    (bs : Nat) (E : List Nat → List Nat) (hbs : 0 < bs)
    (hE : ∀ c, (E c).length = bs)
    (data counter : List Nat) (hctr : counter.length = bs) :
    ∃ out, ctrXorRaw bs E data counter = some out ∧
      out.length = data.length ∧
      (∀ i, i < data.length →
        out.getD i 0 = data.getD i 0 ^^^
          (E (incBE^[i / bs] counter)).getD (i % bs) 0) ∧
      (∀ c : List Nat, (∀ b ∈ c, b < 256) →
        beVal (incBE c) = (beVal c + 1) % 2 ^ (8 * c.length) ∧
        (incBE c).length = c.length) ∧
      ctrXorRaw bs E out counter = some data := by
  have hguard : ¬ counter.length ≠ bs := by omega
  have hnb : data.length ≤ data.length * bs := Nat.le_mul_of_pos_right _ hbs
  have hchar : ctrGo bs E counter (List.replicate bs 0) bs data =
      List.zipWith (fun a b => a ^^^ b) data
        (ksBlocks E data.length counter) := by
    have h := ctrGo_eq_zip E hbs hE data counter (List.replicate bs 0) bs
      data.length (Nat.le_refl bs) (by simp) (by omega)
    rw [h, List.drop_eq_nil_of_le (by simp)]
    rw [List.nil_append]
  have hkslen : (ksBlocks E data.length counter).length = data.length * bs :=
    ksBlocks_length E hE data.length counter
  have houtlen : (ctrGo bs E counter (List.replicate bs 0) bs data).length =
      data.length := by
    rw [hchar, List.length_zipWith, hkslen]
    omega
  refine ⟨ctrGo bs E counter (List.replicate bs 0) bs data, ?_, houtlen, ?_, ?_, ?_⟩
  · unfold ctrXorRaw
    rw [if_neg hguard]
  · intro i hi
    rw [hchar, zipWith_xor_getD data _ i hi (by omega)]
    rw [ksBlocks_getD E hbs hE data.length counter i (by omega)]
  · intro c hc
    exact ⟨incBE_beVal c hc, incBE_length c⟩
  · unfold ctrXorRaw
    rw [if_neg hguard]
    have h2 := ctrGo_eq_zip E hbs hE
      (ctrGo bs E counter (List.replicate bs 0) bs data) counter
      (List.replicate bs 0) bs
      (ctrGo bs E counter (List.replicate bs 0) bs data).length
      (Nat.le_refl bs) (by simp)
      (by
        rw [houtlen]
        omega)
    rw [h2, List.drop_eq_nil_of_le (by simp), List.nil_append, houtlen, hchar]
    rw [zipWith_xor_cancel data _ (by omega)]


/-- Witness for C6 with a concrete one-byte block cipher, counter `[255]`
(so the very first increment wraps) and data `[1, 2, 3]`. -/
theorem c6_ctr_keystream_and_involution_witness :
    ∃ out, ctrXorRaw 1 (fun c => [c.getD 0 0 ^^^ 5]) [1, 2, 3] [255] = some out ∧
      out.length = ([1, 2, 3] : List Nat).length ∧
      (∀ i, i < ([1, 2, 3] : List Nat).length →
        out.getD i 0 = ([1, 2, 3] : List Nat).getD i 0 ^^^
          ((fun (c : List Nat) => [c.getD 0 0 ^^^ 5])
            (incBE^[i / 1] [255])).getD (i % 1) 0) ∧
      (∀ c : List Nat, (∀ b ∈ c, b < 256) →
        beVal (incBE c) = (beVal c + 1) % 2 ^ (8 * c.length) ∧
        (incBE c).length = c.length) ∧
      ctrXorRaw 1 (fun c => [c.getD 0 0 ^^^ 5]) out [255] = some [1, 2, 3] :=
  c6_ctr_keystream_and_involution 1 (fun c => [c.getD 0 0 ^^^ 5]) (by decide)
    (fun c => rfl) [1, 2, 3] [255] rfl


/-- Masking a byte is the identity. -/
theorem mask255_eq {x : Nat} (h : x < 256) : x &&& 255 = x := by
  rw [and255_eq_mod]
  exact Nat.mod_eq_of_lt h


/-- A masked value is a byte. -/
theorem mask255_lt (x : Nat) : x &&& 255 < 256 := by
  have := Nat.and_le_right (n := x) (m := 255)
  omega


set_option maxRecDepth 4096 in
/-- The forward S-box maps into bytes. -/
theorem sbox_lt (x : Nat) : sbox x < 256 := by
  by_cases h : x < 256
  · have hall : ∀ y, y < 256 → aesS.getD y 0 < 256 := by decide
    exact hall x h
  · unfold sbox
    rw [List.getD_eq_default _ 0 (by
      have : aesS.length = 256 := by decide
      omega)]
    omega


set_option maxRecDepth 4096 in
/-- The inverse S-box maps into bytes. -/
theorem sboxInv_lt (x : Nat) : sboxInv x < 256 := by
  by_cases h : x < 256
  · have hall : ∀ y, y < 256 → aesSi.getD y 0 < 256 := by decide
    exact hall x h
  · unfold sboxInv
    rw [List.getD_eq_default _ 0 (by
      have : aesSi.length = 256 := by decide
      omega)]
    omega


set_option maxRecDepth 8192 in
/-- The two S-box tables are mutually inverse on bytes. -/
theorem sboxInv_sbox {x : Nat} (h : x < 256) : sboxInv (sbox x) = x := by
  have hall : ∀ y, y < 256 → sboxInv (sbox y) = y := by decide
  exact hall x h


/-- The `a`-track of `gfMulStep` depends only on `a`. -/
theorem gfA_eq (p a b : Nat) :
    (gfMulStep (p, a, b)).2.1 = (gfMulStep (0, a, 0)).2.1 := rfl


/-- Left shift distributes over XOR. -/
theorem shiftLeft_xor_distrib (x y k : Nat) :
    (x ^^^ y) <<< k = (x <<< k) ^^^ (y <<< k) := by
  apply Nat.eq_of_testBit_eq
  intro i
  simp only [Nat.testBit_shiftLeft, Nat.testBit_xor]
  by_cases h : k ≤ i <;> simp [h]


/-- The high-bit test `a & 0x80` sees exactly bit 7. -/
theorem and128_testBit (x : Nat) : (x &&& 128 ≠ 0) ↔ x.testBit 7 = true := by
  have h : (128 : Nat) = 2 ^ 7 := by norm_num
  rw [h, Nat.and_two_pow]
  cases hx : x.testBit 7 <;> simp


/-- The `a`-track of `gfMulStep` (the `xtime` shift-and-reduce) is
GF(2)-linear. -/
theorem gfA_linear (a1 a2 : Nat) :
    (gfMulStep (0, a1 ^^^ a2, 0)).2.1 =
      (gfMulStep (0, a1, 0)).2.1 ^^^ (gfMulStep (0, a2, 0)).2.1 := by
  have hm : ((a1 ^^^ a2) <<< 1) &&& 255 =
      ((a1 <<< 1) &&& 255) ^^^ ((a2 <<< 1) &&& 255) := by
    rw [shiftLeft_xor_distrib, Nat.and_xor_distrib_right]
  unfold gfMulStep
  dsimp only
  by_cases h1 : a1.testBit 7 = true <;> by_cases h2 : a2.testBit 7 = true
  · have hs : ¬((a1 ^^^ a2) &&& 128 ≠ 0) := by
      rw [and128_testBit, Nat.testBit_xor, h1, h2]
      simp
    rw [if_neg hs, if_pos ((and128_testBit a1).mpr h1),
      if_pos ((and128_testBit a2).mpr h2), hm]
    simp only [Nat.xor_assoc, Nat.xor_comm, xor_left_comm, Nat.xor_self,
      Nat.xor_zero, Nat.zero_xor, Nat.xor_cancel_left, Nat.xor_cancel_right]
  · have hs : (a1 ^^^ a2) &&& 128 ≠ 0 := by
      rw [and128_testBit, Nat.testBit_xor, h1,
        Bool.eq_false_iff.mpr h2]
      simp
    rw [if_pos hs, if_pos ((and128_testBit a1).mpr h1),
      if_neg (fun hc => h2 ((and128_testBit a2).mp hc)), hm]
    simp only [Nat.xor_assoc, Nat.xor_comm, xor_left_comm, Nat.xor_self,
      Nat.xor_zero, Nat.zero_xor]
  · have hs : (a1 ^^^ a2) &&& 128 ≠ 0 := by
      rw [and128_testBit, Nat.testBit_xor, Bool.eq_false_iff.mpr h1, h2]
      simp
    rw [if_pos hs, if_neg (fun hc => h1 ((and128_testBit a1).mp hc)),
      if_pos ((and128_testBit a2).mpr h2), hm]
    simp only [Nat.xor_assoc, Nat.xor_comm, xor_left_comm, Nat.xor_self,
      Nat.xor_zero, Nat.zero_xor]
  · have hs : ¬((a1 ^^^ a2) &&& 128 ≠ 0) := by
      rw [and128_testBit, Nat.testBit_xor, Bool.eq_false_iff.mpr h1,
        Bool.eq_false_iff.mpr h2]
      simp
    rw [if_neg hs, if_neg (fun hc => h1 ((and128_testBit a1).mp hc)),
      if_neg (fun hc => h2 ((and128_testBit a2).mp hc)), hm]


/-- The `b`-track of `gfMulStep` halves `b`. -/
theorem gfB_eq (p a b : Nat) : (gfMulStep (p, a, b)).2.2 = b >>> 1 := rfl


/-- The `p`-track of one step. -/
theorem gfP_eq (p a b : Nat) :
    (gfMulStep (p, a, b)).1 = if b &&& 1 = 1 then p ^^^ a else p := rfl


/-- Joint linearity of the `gfMul` loop in `(p, a)` for a shared `b`:
the accumulator and shift tracks of the XORed state are the XOR of the
tracks of the two separate states. -/
theorem gfRun_linear : ∀ (n b p1 p2 a1 a2 : Nat),
    (gfMulStep^[n] (p1 ^^^ p2, a1 ^^^ a2, b)).1 =
      (gfMulStep^[n] (p1, a1, b)).1 ^^^ (gfMulStep^[n] (p2, a2, b)).1 ∧
    (gfMulStep^[n] (p1 ^^^ p2, a1 ^^^ a2, b)).2.1 =
      (gfMulStep^[n] (p1, a1, b)).2.1 ^^^ (gfMulStep^[n] (p2, a2, b)).2.1 := by
  intro n
  induction n with
  | zero =>
    intro b p1 p2 a1 a2
    simp only [Function.iterate_zero_apply]
    exact ⟨trivial, trivial⟩
  | succ n ih =>
    intro b p1 p2 a1 a2
    have hsum : gfMulStep (p1 ^^^ p2, a1 ^^^ a2, b) =
        ((gfMulStep (p1, a1, b)).1 ^^^ (gfMulStep (p2, a2, b)).1,
         (gfMulStep (p1, a1, b)).2.1 ^^^ (gfMulStep (p2, a2, b)).2.1,
         b >>> 1) := by
      refine Prod.ext ?_ (Prod.ext ?_ ?_)
      · simp only [gfP_eq]
        split
        · have hcomm : p1 ^^^ p2 ^^^ (a1 ^^^ a2) =
              (p1 ^^^ a1) ^^^ (p2 ^^^ a2) := by
            rw [Nat.xor_assoc, Nat.xor_assoc]
            congr 1
            rw [← Nat.xor_assoc, ← Nat.xor_assoc]
            congr 1
            exact Nat.xor_comm p2 a1
          exact hcomm
        · rfl
      · simp only []
        rw [gfA_eq (p1 ^^^ p2), gfA_eq p1, gfA_eq p2]
        exact gfA_linear a1 a2
      · rfl
    have hx1 : gfMulStep (p1, a1, b) =
        ((gfMulStep (p1, a1, b)).1, (gfMulStep (p1, a1, b)).2.1, b >>> 1) :=
      Prod.ext rfl (Prod.ext rfl rfl)
    have hx2 : gfMulStep (p2, a2, b) =
        ((gfMulStep (p2, a2, b)).1, (gfMulStep (p2, a2, b)).2.1, b >>> 1) :=
      Prod.ext rfl (Prod.ext rfl rfl)
    have hrec := ih (b >>> 1) (gfMulStep (p1, a1, b)).1
      (gfMulStep (p2, a2, b)).1 (gfMulStep (p1, a1, b)).2.1
      (gfMulStep (p2, a2, b)).2.1
    rw [Function.iterate_succ_apply, Function.iterate_succ_apply,
      Function.iterate_succ_apply, hsum, hx1, hx2]
    exact hrec


/-- `gfMul` is GF(2)-linear in its first argument. -/
theorem gfMul_xor_left (a1 a2 b : Nat) :
    gfMul (a1 ^^^ a2) b = gfMul a1 b ^^^ gfMul a2 b := by
  unfold gfMul
  have h := (gfRun_linear 8 b 0 0 a1 a2).1
  rw [Nat.xor_self] at h
  rw [h, Nat.and_xor_distrib_right]


/-- `gfMul` returns a byte. -/
theorem gfMul_lt (a b : Nat) : gfMul a b < 256 := mask255_lt _


/-- `gfMul 0 b = 0`. -/
theorem gfMul_zero_left (b : Nat) : gfMul 0 b = 0 := by
  have h := gfMul_xor_left 0 0 b
  simp only [Nat.xor_self] at h
  omega


/-- XOR of two bytes is a byte. -/
theorem xor_lt_256 {x y : Nat} (hx : x < 256) (hy : y < 256) :
    x ^^^ y < 256 := by
  have h : (256 : Nat) = 2 ^ 8 := by norm_num
  rw [h] at hx hy ⊢
  exact Nat.xor_lt_two_pow hx hy


set_option maxRecDepth 2048 in
/-- MixColumns/InvMixColumns composition, diagonal coefficient:
`14·(2a) ⊕ 11·a ⊕ 13·a ⊕ 9·(3a) = a` in GF(2^8). -/
theorem mixCoeff_diag : ∀ a : Nat, a < 256 →
    gfMul (gfMul a 2) 14 ^^^ gfMul a 11 ^^^ gfMul a 13 ^^^
      gfMul (gfMul a 3) 9 = a := by
  decide


set_option maxRecDepth 2048 in
/-- MixColumns/InvMixColumns composition, off-diagonal coefficient 1:
`14·(3a) ⊕ 11·(2a) ⊕ 13·a ⊕ 9·a = 0`. -/
theorem mixCoeff_one : ∀ a : Nat, a < 256 →
    gfMul (gfMul a 3) 14 ^^^ gfMul (gfMul a 2) 11 ^^^ gfMul a 13 ^^^
      gfMul a 9 = 0 := by
  decide


set_option maxRecDepth 2048 in
/-- MixColumns/InvMixColumns composition, off-diagonal coefficient 2:
`14·a ⊕ 11·(3a) ⊕ 13·(2a) ⊕ 9·a = 0`. -/
theorem mixCoeff_two : ∀ a : Nat, a < 256 →
    gfMul a 14 ^^^ gfMul (gfMul a 3) 11 ^^^ gfMul (gfMul a 2) 13 ^^^
      gfMul a 9 = 0 := by
  decide


set_option maxRecDepth 2048 in
/-- MixColumns/InvMixColumns composition, off-diagonal coefficient 3:
`14·a ⊕ 11·a ⊕ 13·(3a) ⊕ 9·(2a) = 0`. -/
theorem mixCoeff_three : ∀ a : Nat, a < 256 →
    gfMul a 14 ^^^ gfMul a 11 ^^^ gfMul (gfMul a 3) 13 ^^^
      gfMul (gfMul a 2) 9 = 0 := by
  decide


/-- The masks in `invMixCol` never truncate (every entry is an XOR of
`gfMul` outputs, which are bytes). -/
theorem invMixCol_nomask (c0 c1 c2 c3 : Nat) :
    invMixCol c0 c1 c2 c3 =
      [gfMul c0 14 ^^^ gfMul c1 11 ^^^ gfMul c2 13 ^^^ gfMul c3 9,
       gfMul c0 9 ^^^ gfMul c1 14 ^^^ gfMul c2 11 ^^^ gfMul c3 13,
       gfMul c0 13 ^^^ gfMul c1 9 ^^^ gfMul c2 14 ^^^ gfMul c3 11,
       gfMul c0 11 ^^^ gfMul c1 13 ^^^ gfMul c2 9 ^^^ gfMul c3 14] := by
  unfold invMixCol
  rw [mask255_eq (xor_lt_256 (xor_lt_256 (xor_lt_256 (gfMul_lt _ _)
      (gfMul_lt _ _)) (gfMul_lt _ _)) (gfMul_lt _ _)),
    mask255_eq (xor_lt_256 (xor_lt_256 (xor_lt_256 (gfMul_lt _ _)
      (gfMul_lt _ _)) (gfMul_lt _ _)) (gfMul_lt _ _)),
    mask255_eq (xor_lt_256 (xor_lt_256 (xor_lt_256 (gfMul_lt _ _)
      (gfMul_lt _ _)) (gfMul_lt _ _)) (gfMul_lt _ _)),
    mask255_eq (xor_lt_256 (xor_lt_256 (xor_lt_256 (gfMul_lt _ _)
      (gfMul_lt _ _)) (gfMul_lt _ _)) (gfMul_lt _ _))]


/-- For byte inputs the masks in `mixCol` never truncate either. -/
theorem mixCol_nomask (a0 a1 a2 a3 : Nat) (h0 : a0 < 256) (h1 : a1 < 256)
    (h2 : a2 < 256) (h3 : a3 < 256) :
    mixCol a0 a1 a2 a3 =
      [gfMul a0 2 ^^^ gfMul a1 3 ^^^ a2 ^^^ a3,
       a0 ^^^ gfMul a1 2 ^^^ gfMul a2 3 ^^^ a3,
       a0 ^^^ a1 ^^^ gfMul a2 2 ^^^ gfMul a3 3,
       gfMul a0 3 ^^^ a1 ^^^ a2 ^^^ gfMul a3 2] := by
  unfold mixCol
  rw [mask255_eq (xor_lt_256 (xor_lt_256 (xor_lt_256 (gfMul_lt _ _)
      (gfMul_lt _ _)) h2) h3),
    mask255_eq (xor_lt_256 (xor_lt_256 (xor_lt_256 h0 (gfMul_lt _ _))
      (gfMul_lt _ _)) h3),
    mask255_eq (xor_lt_256 (xor_lt_256 (xor_lt_256 h0 h1)
      (gfMul_lt _ _)) (gfMul_lt _ _)),
    mask255_eq (xor_lt_256 (xor_lt_256 (xor_lt_256 (gfMul_lt _ _) h1) h2)
      (gfMul_lt _ _))]


/-- Regrouping a 4x4 XOR tree by columns (transposition), used to collect
the MixColumns/InvMixColumns composition by source byte. -/
theorem xor16_regroup (a00 a01 a02 a03 a10 a11 a12 a13
    a20 a21 a22 a23 a30 a31 a32 a33 : Nat) :
    ((((((a00 ^^^ a01) ^^^ a02) ^^^ a03) ^^^
      (((a10 ^^^ a11) ^^^ a12) ^^^ a13)) ^^^
        (((a20 ^^^ a21) ^^^ a22) ^^^ a23)) ^^^
          (((a30 ^^^ a31) ^^^ a32) ^^^ a33)) =
    (((a00 ^^^ a10) ^^^ a20) ^^^ a30) ^^^
      ((((a01 ^^^ a11) ^^^ a21) ^^^ a31) ^^^
        ((((a02 ^^^ a12) ^^^ a22) ^^^ a32) ^^^
          (((a03 ^^^ a13) ^^^ a23) ^^^ a33))) := by
  simp only [Nat.xor_assoc]
  simp only [Nat.xor_comm, xor_left_comm]


/-- Rotating a 4-term XOR chain by one position. -/
theorem xor4_rotr1 (x y z w : Nat) :
    ((w ^^^ x) ^^^ y) ^^^ z = ((x ^^^ y) ^^^ z) ^^^ w := by
  simp only [Nat.xor_assoc]
  simp only [Nat.xor_comm, xor_left_comm]


/-- Rotating a 4-term XOR chain by two positions. -/
theorem xor4_rotr2 (x y z w : Nat) :
    ((z ^^^ w) ^^^ x) ^^^ y = ((x ^^^ y) ^^^ z) ^^^ w := by
  simp only [Nat.xor_assoc]
  simp only [Nat.xor_comm, xor_left_comm]


/-- Rotating a 4-term XOR chain by three positions. -/
theorem xor4_rotr3 (x y z w : Nat) :
    ((y ^^^ z) ^^^ w) ^^^ x = ((x ^^^ y) ^^^ z) ^^^ w := by
  simp only [Nat.xor_assoc]
  simp only [Nat.xor_comm, xor_left_comm]


/-- Applying the inverse MixColumns column transform to the forward one
recovers the column. -/
theorem invMixCol_of_mixCol (a0 a1 a2 a3 : Nat) (h0 : a0 < 256)
    (h1 : a1 < 256) (h2 : a2 < 256) (h3 : a3 < 256) :
    invMixCol (gfMul a0 2 ^^^ gfMul a1 3 ^^^ a2 ^^^ a3)
      (a0 ^^^ gfMul a1 2 ^^^ gfMul a2 3 ^^^ a3)
      (a0 ^^^ a1 ^^^ gfMul a2 2 ^^^ gfMul a3 3)
      (gfMul a0 3 ^^^ a1 ^^^ a2 ^^^ gfMul a3 2) = [a0, a1, a2, a3] := by
  rw [invMixCol_nomask]
  simp only [gfMul_xor_left, List.cons.injEq, and_true]
  refine ⟨?_, ?_, ?_, ?_⟩
  · rw [xor16_regroup]
    have g0 : ((gfMul (gfMul a0 2) 14 ^^^ gfMul a0 11) ^^^ gfMul a0 13) ^^^ gfMul (gfMul a0 3) 9 = a0 :=
      mixCoeff_diag a0 h0
    have g1 : ((gfMul (gfMul a1 3) 14 ^^^ gfMul (gfMul a1 2) 11) ^^^ gfMul a1 13) ^^^ gfMul a1 9 = 0 :=
      mixCoeff_one a1 h1
    have g2 : ((gfMul a2 14 ^^^ gfMul (gfMul a2 3) 11) ^^^ gfMul (gfMul a2 2) 13) ^^^ gfMul a2 9 = 0 :=
      mixCoeff_two a2 h2
    have g3 : ((gfMul a3 14 ^^^ gfMul a3 11) ^^^ gfMul (gfMul a3 3) 13) ^^^ gfMul (gfMul a3 2) 9 = 0 :=
      mixCoeff_three a3 h3
    rw [g0, g1, g2, g3]
    simp
  · rw [xor16_regroup]
    have g0 : ((gfMul (gfMul a0 2) 9 ^^^ gfMul a0 14) ^^^ gfMul a0 11) ^^^ gfMul (gfMul a0 3) 13 = 0 :=
      (xor4_rotr1 (gfMul a0 14) (gfMul a0 11) (gfMul (gfMul a0 3) 13) (gfMul (gfMul a0 2) 9)).trans (mixCoeff_three a0 h0)
    have g1 : ((gfMul (gfMul a1 3) 9 ^^^ gfMul (gfMul a1 2) 14) ^^^ gfMul a1 11) ^^^ gfMul a1 13 = a1 :=
      (xor4_rotr1 (gfMul (gfMul a1 2) 14) (gfMul a1 11) (gfMul a1 13) (gfMul (gfMul a1 3) 9)).trans (mixCoeff_diag a1 h1)
    have g2 : ((gfMul a2 9 ^^^ gfMul (gfMul a2 3) 14) ^^^ gfMul (gfMul a2 2) 11) ^^^ gfMul a2 13 = 0 :=
      (xor4_rotr1 (gfMul (gfMul a2 3) 14) (gfMul (gfMul a2 2) 11) (gfMul a2 13) (gfMul a2 9)).trans (mixCoeff_one a2 h2)
    have g3 : ((gfMul a3 9 ^^^ gfMul a3 14) ^^^ gfMul (gfMul a3 3) 11) ^^^ gfMul (gfMul a3 2) 13 = 0 :=
      (xor4_rotr1 (gfMul a3 14) (gfMul (gfMul a3 3) 11) (gfMul (gfMul a3 2) 13) (gfMul a3 9)).trans (mixCoeff_two a3 h3)
    rw [g0, g1, g2, g3]
    simp
  · rw [xor16_regroup]
    have g0 : ((gfMul (gfMul a0 2) 13 ^^^ gfMul a0 9) ^^^ gfMul a0 14) ^^^ gfMul (gfMul a0 3) 11 = 0 :=
      (xor4_rotr2 (gfMul a0 14) (gfMul (gfMul a0 3) 11) (gfMul (gfMul a0 2) 13) (gfMul a0 9)).trans (mixCoeff_two a0 h0)
    have g1 : ((gfMul (gfMul a1 3) 13 ^^^ gfMul (gfMul a1 2) 9) ^^^ gfMul a1 14) ^^^ gfMul a1 11 = 0 :=
      (xor4_rotr2 (gfMul a1 14) (gfMul a1 11) (gfMul (gfMul a1 3) 13) (gfMul (gfMul a1 2) 9)).trans (mixCoeff_three a1 h1)
    have g2 : ((gfMul a2 13 ^^^ gfMul (gfMul a2 3) 9) ^^^ gfMul (gfMul a2 2) 14) ^^^ gfMul a2 11 = a2 :=
      (xor4_rotr2 (gfMul (gfMul a2 2) 14) (gfMul a2 11) (gfMul a2 13) (gfMul (gfMul a2 3) 9)).trans (mixCoeff_diag a2 h2)
    have g3 : ((gfMul a3 13 ^^^ gfMul a3 9) ^^^ gfMul (gfMul a3 3) 14) ^^^ gfMul (gfMul a3 2) 11 = 0 :=
      (xor4_rotr2 (gfMul (gfMul a3 3) 14) (gfMul (gfMul a3 2) 11) (gfMul a3 13) (gfMul a3 9)).trans (mixCoeff_one a3 h3)
    rw [g0, g1, g2, g3]
    simp
  · rw [xor16_regroup]
    have g0 : ((gfMul (gfMul a0 2) 11 ^^^ gfMul a0 13) ^^^ gfMul a0 9) ^^^ gfMul (gfMul a0 3) 14 = 0 :=
      (xor4_rotr3 (gfMul (gfMul a0 3) 14) (gfMul (gfMul a0 2) 11) (gfMul a0 13) (gfMul a0 9)).trans (mixCoeff_one a0 h0)
    have g1 : ((gfMul (gfMul a1 3) 11 ^^^ gfMul (gfMul a1 2) 13) ^^^ gfMul a1 9) ^^^ gfMul a1 14 = 0 :=
      (xor4_rotr3 (gfMul a1 14) (gfMul (gfMul a1 3) 11) (gfMul (gfMul a1 2) 13) (gfMul a1 9)).trans (mixCoeff_two a1 h1)
    have g2 : ((gfMul a2 11 ^^^ gfMul (gfMul a2 3) 13) ^^^ gfMul (gfMul a2 2) 9) ^^^ gfMul a2 14 = 0 :=
      (xor4_rotr3 (gfMul a2 14) (gfMul a2 11) (gfMul (gfMul a2 3) 13) (gfMul (gfMul a2 2) 9)).trans (mixCoeff_three a2 h2)
    have g3 : ((gfMul a3 11 ^^^ gfMul a3 13) ^^^ gfMul (gfMul a3 3) 9) ^^^ gfMul (gfMul a3 2) 14 = a3 :=
      (xor4_rotr3 (gfMul (gfMul a3 2) 14) (gfMul a3 11) (gfMul a3 13) (gfMul (gfMul a3 3) 9)).trans (mixCoeff_diag a3 h3)
    rw [g0, g1, g2, g3]
    simp


/-- A 16-byte list is the literal list of its entries. -/
theorem list16_eq (l : List Nat) (h : l.length = 16) :
    l = [l.getD 0 0, l.getD 1 0, l.getD 2 0, l.getD 3 0, l.getD 4 0, l.getD 5 0, l.getD 6 0, l.getD 7 0, l.getD 8 0, l.getD 9 0, l.getD 10 0, l.getD 11 0, l.getD 12 0, l.getD 13 0, l.getD 14 0, l.getD 15 0] := by
  rcases l with _ | ⟨b0, l⟩
  · simp at h
  rcases l with _ | ⟨b1, l⟩
  · simp at h
  rcases l with _ | ⟨b2, l⟩
  · simp at h
  rcases l with _ | ⟨b3, l⟩
  · simp at h
  rcases l with _ | ⟨b4, l⟩
  · simp at h
  rcases l with _ | ⟨b5, l⟩
  · simp at h
  rcases l with _ | ⟨b6, l⟩
  · simp at h
  rcases l with _ | ⟨b7, l⟩
  · simp at h
  rcases l with _ | ⟨b8, l⟩
  · simp at h
  rcases l with _ | ⟨b9, l⟩
  · simp at h
  rcases l with _ | ⟨b10, l⟩
  · simp at h
  rcases l with _ | ⟨b11, l⟩
  · simp at h
  rcases l with _ | ⟨b12, l⟩
  · simp at h
  rcases l with _ | ⟨b13, l⟩
  · simp at h
  rcases l with _ | ⟨b14, l⟩
  · simp at h
  rcases l with _ | ⟨b15, l⟩
  · simp at h
  rcases l with _ | ⟨b16, l⟩
  · rfl
  · simp at h


/-- `invShiftRows` undoes `shiftRows` on a 16-byte state. -/
theorem invShift_shift (s : List Nat) (h : s.length = 16) :
    invShiftRows (shiftRows s) = s := by
  have hx : invShiftRows (shiftRows s) = [s.getD 0 0, s.getD 1 0, s.getD 2 0, s.getD 3 0, s.getD 4 0, s.getD 5 0, s.getD 6 0, s.getD 7 0, s.getD 8 0, s.getD 9 0, s.getD 10 0, s.getD 11 0, s.getD 12 0, s.getD 13 0, s.getD 14 0, s.getD 15 0] := rfl
  rw [hx, ← list16_eq s h]


/-- `invSubBytes` undoes `subBytes` on bytes. -/
theorem invSub_sub : ∀ s : List Nat, (∀ b ∈ s, b < 256) →
    invSubBytes (subBytes s) = s := by
  intro s
  induction s with
  | nil => intro _; rfl
  | cons b rest ih =>
    intro h
    have hb : b < 256 := h b (List.mem_cons_self b rest)
    simp only [subBytes, invSubBytes, List.map_cons] at *
    rw [sboxInv_sbox hb]
    have := ih (fun c hc => h c (List.mem_cons_of_mem _ hc))
    simp only [subBytes, invSubBytes] at this
    rw [this]


/-- `subBytes` preserves well-formedness of a 16-byte state. -/
theorem subBytes_ok {s : List Nat} (h : OkState s) : OkState (subBytes s) := by
  constructor
  · simp [subBytes, h.1]
  · intro b hb
    simp only [subBytes, List.mem_map] at hb
    obtain ⟨a, _, rfl⟩ := hb
    exact sbox_lt a


/-- `invSubBytes` preserves well-formedness. -/
theorem invSubBytes_ok {s : List Nat} (h : OkState s) :
    OkState (invSubBytes s) := by
  constructor
  · simp [invSubBytes, h.1]
  · intro b hb
    simp only [invSubBytes, List.mem_map] at hb
    obtain ⟨a, _, rfl⟩ := hb
    exact sboxInv_lt a


/-- `shiftRows` always yields a well-formed state when fed bytes. -/
theorem shiftRows_ok {s : List Nat} (h : ∀ b ∈ s, b < 256) :
    OkState (shiftRows s) := by
  refine ⟨rfl, ?_⟩
  intro b hb
  unfold shiftRows at hb
  fin_cases hb <;> exact getD_lt_256 h _


/-- `invShiftRows` always yields a well-formed state when fed bytes. -/
theorem invShiftRows_ok {s : List Nat} (h : ∀ b ∈ s, b < 256) :
    OkState (invShiftRows s) := by
  refine ⟨rfl, ?_⟩
  intro b hb
  unfold invShiftRows at hb
  fin_cases hb <;> exact getD_lt_256 h _


/-- `mixColumns` always yields a well-formed state. -/
theorem mixColumns_ok (s : List Nat) : OkState (mixColumns s) := by
  refine ⟨rfl, ?_⟩
  intro b hb
  simp only [mixColumns, mixCol, List.cons_append, List.nil_append] at hb
  fin_cases hb <;> exact mask255_lt _


/-- `invMixColumns` always yields a well-formed state. -/
theorem invMixColumns_ok (s : List Nat) : OkState (invMixColumns s) := by
  refine ⟨rfl, ?_⟩
  intro b hb
  simp only [invMixColumns, invMixCol, List.cons_append, List.nil_append] at hb
  fin_cases hb <;> exact mask255_lt _


/-- XORing two byte lists yields bytes. -/
theorem zipWith_xor_bytes : ∀ (a b : List Nat), (∀ x ∈ a, x < 256) →
    (∀ x ∈ b, x < 256) →
    ∀ x ∈ List.zipWith (fun u v => u ^^^ v) a b, x < 256 := by
  intro a
  induction a with
  | nil => intro b _ _ x hx; simp at hx
  | cons u us ih =>
    intro b ha hb x hx
    cases b with
    | nil => simp at hx
    | cons v vs =>
      simp only [List.zipWith_cons_cons, List.mem_cons] at hx
      rcases hx with rfl | hx
      · exact xor_lt_256 (ha u (List.mem_cons_self u us))
          (hb v (List.mem_cons_self v vs))
      · exact ih vs (fun y hy => ha y (List.mem_cons_of_mem _ hy))
          (fun y hy => hb y (List.mem_cons_of_mem _ hy)) x hx


/-- `addRoundKey` of two well-formed states is well-formed. -/
theorem addRoundKey_ok {s rk : List Nat} (hs : OkState s) (hrk : OkState rk) :
    OkState (addRoundKey s rk) := by
  refine ⟨?_, zipWith_xor_bytes s rk hs.2 hrk.2⟩
  simp [addRoundKey, List.length_zipWith, hs.1, hrk.1]


/-- `addRoundKey` twice with the same round key is the identity. -/
theorem addRoundKey_cancel {s rk : List Nat} (h : s.length ≤ rk.length) :
    addRoundKey (addRoundKey s rk) rk = s :=
  zipWith_xor_cancel s rk h


/-- `invMixColumns` undoes `mixColumns` on a well-formed state. -/
theorem invMix_mix (s : List Nat) (h : OkState s) :
    invMixColumns (mixColumns s) = s := by
  obtain ⟨hlen, hbytes⟩ := h
  have hg : ∀ i, s.getD i 0 < 256 := fun i => getD_lt_256 hbytes i
  unfold mixColumns
  rw [mixCol_nomask _ _ _ _ (hg 0) (hg 1) (hg 2) (hg 3),
    mixCol_nomask _ _ _ _ (hg 4) (hg 5) (hg 6) (hg 7),
    mixCol_nomask _ _ _ _ (hg 8) (hg 9) (hg 10) (hg 11),
    mixCol_nomask _ _ _ _ (hg 12) (hg 13) (hg 14) (hg 15)]
  unfold invMixColumns
  simp only [List.cons_append, List.nil_append, List.getD_cons_zero,
    List.getD_cons_succ]
  rw [invMixCol_of_mixCol _ _ _ _ (hg 0) (hg 1) (hg 2) (hg 3),
    invMixCol_of_mixCol _ _ _ _ (hg 4) (hg 5) (hg 6) (hg 7),
    invMixCol_of_mixCol _ _ _ _ (hg 8) (hg 9) (hg 10) (hg 11),
    invMixCol_of_mixCol _ _ _ _ (hg 12) (hg 13) (hg 14) (hg 15)]
  simp only [List.cons_append, List.nil_append]
  exact (list16_eq s hlen).symm


/-- The encryption rounds preserve state well-formedness. -/
theorem aesEncRounds_ok : ∀ (ks : List (List Nat)), (∀ rk ∈ ks, OkState rk) →
    ∀ t, OkState t → OkState (aesEncRounds ks t) := by
  intro ks
  induction ks with
  | nil => intro _ t ht; exact ht
  | cons k ks ih =>
    intro hok t ht
    have hk : OkState k := hok k (List.mem_cons_self k ks)
    have hstep : aesEncRounds (k :: ks) t =
        aesEncRounds ks (addRoundKey (mixColumns (shiftRows (subBytes t))) k) := by
      simp [aesEncRounds]
    rw [hstep]
    exact ih (fun rk h => hok rk (List.mem_cons_of_mem _ h)) _
      (addRoundKey_ok (mixColumns_ok _) hk)


/-- The inverse middle rounds, run on the reversed key list, undo the
forward middle rounds up to the final `shiftRows ∘ subBytes`. -/
theorem aesRounds_inv : ∀ (ks : List (List Nat)), (∀ rk ∈ ks, OkState rk) →
    ∀ t, OkState t →
    aesDecRounds ks.reverse (shiftRows (subBytes (aesEncRounds ks t))) =
      shiftRows (subBytes t) := by
  intro ks
  induction ks using List.reverseRecOn with
  | nil => intro _ t _; rfl
  | append_singleton ks k ih =>
    intro hok t ht
    have hks : ∀ rk ∈ ks, OkState rk := fun rk h => hok rk (List.mem_append_left _ h)
    have hk : OkState k := hok k (List.mem_append_right _ (List.mem_cons_self k []))
    have henc : aesEncRounds (ks ++ [k]) t =
        addRoundKey (mixColumns (shiftRows (subBytes (aesEncRounds ks t)))) k := by
      simp [aesEncRounds, List.foldl_append]
    have hrev : (ks ++ [k]).reverse = k :: ks.reverse := by simp
    have hdec : ∀ s, aesDecRounds (k :: ks.reverse) s =
        aesDecRounds ks.reverse
          (invMixColumns (addRoundKey (invSubBytes (invShiftRows s)) k)) := by
      intro s; simp [aesDecRounds]
    rw [henc, hrev, hdec]
    have hyok : OkState (aesEncRounds ks t) := aesEncRounds_ok ks hks t ht
    have hz : OkState
        (addRoundKey (mixColumns (shiftRows (subBytes (aesEncRounds ks t)))) k) :=
      addRoundKey_ok (mixColumns_ok _) hk
    rw [invShift_shift _ (subBytes_ok hz).1, invSub_sub _ hz.2,
      addRoundKey_cancel (le_of_eq (hk.1.symm ▸ (rfl : (mixColumns
        (shiftRows (subBytes (aesEncRounds ks t)))).length = 16))),
      invMix_mix _ (shiftRows_ok (subBytes_ok hyok).2)]
    exact ih hks t ht


/-- Every block the key-schedule packer emits is a well-formed state. -/
theorem roundKeyBlocks_ok (w : List Nat) (Nr : Nat) :
    ∀ rk ∈ roundKeyBlocks w Nr, OkState rk := by
  intro rk hrk
  simp only [roundKeyBlocks, List.mem_map, List.mem_range] at hrk
  obtain ⟨r, _, rfl⟩ := hrk
  have hr4 : List.range 4 = [0, 1, 2, 3] := rfl
  constructor
  · rw [hr4]; rfl
  · intro b hb
    rw [hr4] at hb
    simp only [List.foldl_cons, List.foldl_nil, List.nil_append,
      List.cons_append, List.mem_cons, List.not_mem_nil, or_false] at hb
    rcases hb with rfl | rfl | rfl | rfl | rfl | rfl | rfl | rfl | rfl | rfl |
      rfl | rfl | rfl | rfl | rfl | rfl <;> exact mask255_lt _

/-- The packed schedule has `Nr + 1` round keys. -/
theorem roundKeyBlocks_length (w : List Nat) (Nr : Nat) :
    (roundKeyBlocks w Nr).length = Nr + 1 := by
  simp [roundKeyBlocks]


/-- `expandKey` produces `Nr + 1` well-formed round keys. -/
theorem aesRoundKeys_ok (key : List Nat) :
    ∀ rk ∈ aesRoundKeys key, OkState rk :=
  roundKeyBlocks_ok _ _


/-- `decryptBlock` undoes `encryptBlock` for any schedule of `Nr + 1`
well-formed round keys and any well-formed block. -/
theorem aesBlock_inv (Nr : Nat) (rks : List (List Nat)) (block : List Nat)
    (hlen : rks.length = Nr + 1) (hok : ∀ rk ∈ rks, OkState rk)
    (hb : OkState block) :
    aesDecryptBlock Nr rks (aesEncryptBlock Nr rks block) = block := by
  have h0 : rks.getD 0 [] ∈ rks := by
    rw [List.getD_eq_getElem rks [] (by omega)]
    exact List.getElem_mem _
  have hN : rks.getD Nr [] ∈ rks := by
    rw [List.getD_eq_getElem rks [] (by omega)]
    exact List.getElem_mem _
  have hok0 : OkState (rks.getD 0 []) := hok _ h0
  have hokN : OkState (rks.getD Nr []) := hok _ hN
  have hoks : ∀ rk ∈ (rks.drop 1).take (Nr - 1), OkState rk := fun rk h =>
    hok rk (List.mem_of_mem_drop (List.mem_of_mem_take h))
  have ht0 : OkState (addRoundKey block (rks.getD 0 [])) :=
    addRoundKey_ok hb hok0
  unfold aesEncryptBlock aesDecryptBlock
  rw [addRoundKey_cancel (le_of_eq (hokN.1.symm ▸ (rfl : (shiftRows (subBytes
      (aesEncRounds ((rks.drop 1).take (Nr - 1))
        (addRoundKey block (rks.getD 0 []))))).length = 16))),
    aesRounds_inv _ hoks _ ht0,
    invShift_shift _ (subBytes_ok ht0).1, invSub_sub _ ht0.2,
    addRoundKey_cancel (le_of_eq (hok0.1.symm ▸ hb.1))]


/-- The schedule length for a `4·Nk`-byte key. -/
theorem aesRoundKeys_length (key : List Nat) :
    (aesRoundKeys key).length = key.length / 4 + 6 + 1 := by
  simp [aesRoundKeys, roundKeyBlocks]


/-- AES single-block roundtrip for any legal key and well-formed block. -/
theorem aes_block_roundtrip (key block : List Nat)
    (hkey : key.length = 16 ∨ key.length = 24 ∨ key.length = 32)
    (hlen : block.length = 16) (hbytes : ∀ b ∈ block, b < 256) :
    ∃ c, AESRawEncrypt key block = some c ∧ AESRawDecrypt key c = some block := by
  refine ⟨_, by rw [AESRawEncrypt, if_pos hkey], ?_⟩
  rw [AESRawDecrypt, if_pos hkey,
    aesBlock_inv _ _ _ (aesRoundKeys_length key) (aesRoundKeys_ok key)
      ⟨hlen, hbytes⟩]


set_option maxRecDepth 10000 in
/-- C3 (counterexample): with the key `000102030405060708090a0b0c0d0e0f`,
`AESRaw.encryptBlock` on the all-zero 16-byte block does NOT produce the
ciphertext `0edd33d3c621e546455bd8ba1418bec8` claimed by the spec. -/
theorem c3_aes_spec_vector_refuted :
    AESRawEncrypt
      [0x00, 0x01, 0x02, 0x03, 0x04, 0x05, 0x06, 0x07,
       0x08, 0x09, 0x0a, 0x0b, 0x0c, 0x0d, 0x0e, 0x0f]
      (List.replicate 16 0) ≠
      some [0x0e, 0xdd, 0x33, 0xd3, 0xc6, 0x21, 0xe5, 0x46,
            0x45, 0x5b, 0xd8, 0xba, 0x14, 0x18, 0xbe, 0xc8] := by
  decide


set_option maxRecDepth 10000 in
/-- C3 (amended): with the key `000102030405060708090a0b0c0d0e0f`, the
all-zero 16-byte block encrypts to `c6a13b37878f5b826f4f8162a1c8d879`
(the FIPS-197-correct AES-128 value for this key and plaintext). -/
theorem c3_aes_actual_ciphertext :
    AESRawEncrypt
      [0x00, 0x01, 0x02, 0x03, 0x04, 0x05, 0x06, 0x07,
       0x08, 0x09, 0x0a, 0x0b, 0x0c, 0x0d, 0x0e, 0x0f]
      (List.replicate 16 0) =
      some [0xc6, 0xa1, 0x3b, 0x37, 0x87, 0x8f, 0x5b, 0x82,
            0x6f, 0x4f, 0x81, 0x62, 0xa1, 0xc8, 0xd8, 0x79] := by
  decide


theorem testBit_false_of_lt_256 {x : Nat} (hx : x < 256) {j : Nat} (hj : 8 ≤ j) :
    x.testBit j = false :=
  Nat.testBit_eq_false_of_lt
    (lt_of_lt_of_le hx (le_trans (by norm_num)
      (Nat.pow_le_pow_right (by norm_num) hj)))


theorem pack4_eq (a b c d : Nat) (ha : a < 256) (hb : b < 256) (hc : c < 256)
    (hd : d < 256) :
    pack4 a b c d = a * 16777216 + b * 65536 + c * 256 + d := by
  have hkey : (a <<< 24) ||| (b <<< 16) ||| (c <<< 8) ||| d =
      a * 16777216 + b * 65536 + c * 256 + d := by
    have h2 : b * 65536 + c * 256 + d < 2 ^ 24 := by omega
    have h3 : c * 256 + d < 2 ^ 16 := by omega
    have h4 : d < 2 ^ 8 := by omega
    apply Nat.eq_of_testBit_eq
    intro j
    have hr : a * 16777216 + b * 65536 + c * 256 + d =
        2 ^ 24 * a + (2 ^ 16 * b + (2 ^ 8 * c + d)) := by ring
    rw [hr, Nat.testBit_mul_pow_two_add _ (by omega),
      Nat.testBit_or, Nat.testBit_or, Nat.testBit_or,
      Nat.testBit_shiftLeft, Nat.testBit_shiftLeft, Nat.testBit_shiftLeft]
    rcases Nat.lt_or_ge j 8 with hj | hj
    · have e1 : decide (24 ≤ j) = false := by simp; omega
      have e2 : decide (16 ≤ j) = false := by simp; omega
      have e3 : decide (8 ≤ j) = false := by simp; omega
      rw [if_pos (by omega : j < 24), Nat.testBit_mul_pow_two_add _ (by omega),
        if_pos (by omega : j < 16), Nat.testBit_mul_pow_two_add _ (by omega),
        if_pos (by omega : j < 8), e1, e2, e3]
      simp
    · rcases Nat.lt_or_ge j 16 with hj2 | hj2
      · have e1 : decide (24 ≤ j) = false := by simp; omega
        have e2 : decide (16 ≤ j) = false := by simp; omega
        have e3 : decide (8 ≤ j) = true := by simp; omega
        rw [if_pos (by omega : j < 24), Nat.testBit_mul_pow_two_add _ (by omega),
          if_pos (by omega : j < 16), Nat.testBit_mul_pow_two_add _ (by omega),
          if_neg (by omega : ¬ j < 8), e1, e2, e3,
          testBit_false_of_lt_256 hd hj]
        simp
      · rcases Nat.lt_or_ge j 24 with hj3 | hj3
        · have e1 : decide (24 ≤ j) = false := by simp; omega
          have e2 : decide (16 ≤ j) = true := by simp; omega
          have e3 : decide (8 ≤ j) = true := by simp; omega
          rw [if_pos (by omega : j < 24), Nat.testBit_mul_pow_two_add _ (by omega),
            if_neg (by omega : ¬ j < 16), e1, e2, e3,
            testBit_false_of_lt_256 hd hj,
            testBit_false_of_lt_256 hc (by omega : 8 ≤ j - 8)]
          simp
        · have e1 : decide (24 ≤ j) = true := by simp; omega
          have e2 : decide (16 ≤ j) = true := by simp; omega
          have e3 : decide (8 ≤ j) = true := by simp; omega
          rw [if_neg (by omega : ¬ j < 24), e1, e2, e3,
            testBit_false_of_lt_256 hd (by omega),
            testBit_false_of_lt_256 hc (by omega : 8 ≤ j - 8),
            testBit_false_of_lt_256 hb (by omega : 8 ≤ j - 16)]
          simp
  rw [pack4, hkey]
  exact Nat.mod_eq_of_lt (by omega)


theorem pack4_lt (a b c d : Nat) : pack4 a b c d < 4294967296 :=
  Nat.mod_lt _ (by norm_num)


theorem pack4_unpack4 (w : Nat) (hw : w < 4294967296) :
    pack4 ((w >>> 24) &&& 255) ((w >>> 16) &&& 255) ((w >>> 8) &&& 255)
      (w &&& 255) = w := by
  rw [pack4_eq _ _ _ _ (mask255_lt _) (mask255_lt _) (mask255_lt _) (mask255_lt _),
    and255_eq_mod, and255_eq_mod, and255_eq_mod, and255_eq_mod,
    Nat.shiftRight_eq_div_pow, Nat.shiftRight_eq_div_pow,
    Nat.shiftRight_eq_div_pow]
  have p24 : (2 : Nat) ^ 24 = 16777216 := by norm_num
  have p16 : (2 : Nat) ^ 16 = 65536 := by norm_num
  have p8 : (2 : Nat) ^ 8 = 256 := by norm_num
  rw [p24, p16, p8]
  omega


theorem unpack4_pack4 (a b c d : Nat) (ha : a < 256) (hb : b < 256) (hc : c < 256)
    (hd : d < 256) : unpack4 (pack4 a b c d) = [a, b, c, d] := by
  rw [unpack4, pack4_eq _ _ _ _ ha hb hc hd,
    and255_eq_mod, and255_eq_mod, and255_eq_mod, and255_eq_mod,
    Nat.shiftRight_eq_div_pow, Nat.shiftRight_eq_div_pow,
    Nat.shiftRight_eq_div_pow]
  have p24 : (2 : Nat) ^ 24 = 16777216 := by norm_num
  have p16 : (2 : Nat) ^ 16 = 65536 := by norm_num
  have p8 : (2 : Nat) ^ 8 = 256 := by norm_num
  rw [p24, p16, p8]
  simp only [List.cons.injEq, and_true]
  omega


theorem xor32_lt (a b : Nat) : xor32 a b < 4294967296 := by
  have h : (4294967296 : Nat) = 2 ^ 32 := by norm_num
  rw [xor32, h]
  exact Nat.xor_lt_two_pow (h ▸ Nat.mod_lt _ (by norm_num))
    (h ▸ Nat.mod_lt _ (by norm_num))


theorem xor32_xor32_cancel (x p : Nat) (hx : x < 4294967296) :
    xor32 (xor32 x p) p = x := by
  rw [xor32, Nat.mod_eq_of_lt (xor32_lt x p), xor32, Nat.mod_eq_of_lt hx,
    Nat.xor_cancel_right]


theorem xor_mid_cancel (Y F C : Nat) : ((Y ^^^ F) ^^^ C) ^^^ F = Y ^^^ C := by
  rw [Nat.xor_assoc, Nat.xor_assoc, Nat.xor_comm C F, Nat.xor_cancel_left]


theorem xor32_cancel_mid (y f c : Nat) :
    xor32 (xor32 (xor32 y f) c) f = xor32 y c := by
  rw [xor32, Nat.mod_eq_of_lt (xor32_lt (xor32 y f) c), xor32,
    Nat.mod_eq_of_lt (xor32_lt y f), xor32, xor32]
  exact xor_mid_cancel _ _ _


theorem bf_step (S0t S1t S2t S3t : List Nat) (p a b : Nat) (lr : Nat × Nat) :
    bfRound S0t S1t S2t S3t a (bfSwapXor a b (bfRound S0t S1t S2t S3t p lr)) =
      bfSwapXor b p lr := by
  show (xor32 (xor32 (xor32 lr.2 (bfF S0t S1t S2t S3t (xor32 lr.1 p))) b)
      (bfF S0t S1t S2t S3t (xor32 (xor32 (xor32 lr.1 p) a) a)),
    xor32 (xor32 (xor32 lr.1 p) a) a) = (xor32 lr.2 b, xor32 lr.1 p)
  rw [xor32_xor32_cancel _ _ (xor32_lt _ _), xor32_cancel_mid]


theorem bfRounds_cons (S0t S1t S2t S3t : List Nat) (p : Nat) (ps : List Nat)
    (lr : Nat × Nat) :
    bfRounds S0t S1t S2t S3t (p :: ps) lr =
      bfRounds S0t S1t S2t S3t ps (bfRound S0t S1t S2t S3t p lr) := rfl


theorem bfRounds_append (S0t S1t S2t S3t : List Nat) (l1 l2 : List Nat)
    (lr : Nat × Nat) :
    bfRounds S0t S1t S2t S3t (l1 ++ l2) lr =
      bfRounds S0t S1t S2t S3t l2 (bfRounds S0t S1t S2t S3t l1 lr) := by
  simp [bfRounds, List.foldl_append]


theorem bf_core (S0t S1t S2t S3t : List Nat) :
    ∀ (ks : List Nat) (p q a b x y : Nat),
    bfRounds S0t S1t S2t S3t (a :: b :: ks.reverse)
      (bfSwapXor a b (bfRounds S0t S1t S2t S3t (p :: q :: ks) (x, y))) =
      bfSwapXor q p (x, y) := by
  intro ks
  induction ks using List.reverseRecOn with
  | nil =>
    intro p q a b x y
    show bfRound S0t S1t S2t S3t b (bfRound S0t S1t S2t S3t a
        (bfSwapXor a b
          (bfRound S0t S1t S2t S3t q (bfRound S0t S1t S2t S3t p (x, y))))) =
      bfSwapXor q p (x, y)
    rw [bf_step S0t S1t S2t S3t q a b (bfRound S0t S1t S2t S3t p (x, y)),
      bf_step S0t S1t S2t S3t p b q (x, y)]
  | append_singleton ks r ih =>
    intro p q a b x y
    have hsplit : p :: q :: (ks ++ [r]) = (p :: q :: ks) ++ [r] := by simp
    have hrev : (ks ++ [r]).reverse = r :: ks.reverse := by simp
    rw [hsplit, bfRounds_append, hrev, bfRounds_cons]
    rw [show bfRounds S0t S1t S2t S3t [r]
          (bfRounds S0t S1t S2t S3t (p :: q :: ks) (x, y)) =
        bfRound S0t S1t S2t S3t r
          (bfRounds S0t S1t S2t S3t (p :: q :: ks) (x, y)) from rfl]
    rw [bf_step S0t S1t S2t S3t r a b
      (bfRounds S0t S1t S2t S3t (p :: q :: ks) (x, y))]
    exact ih p q b r x y


theorem bf_enc_dec (P S0t S1t S2t S3t : List Nat) (L R : Nat)
    (hL : L < 4294967296) (hR : R < 4294967296) :
    decBlockWords P S0t S1t S2t S3t (encBlockWords P S0t S1t S2t S3t L R).1
      (encBlockWords P S0t S1t S2t S3t L R).2 = (L, R) := by
  have key : decBlockWords P S0t S1t S2t S3t
      (bfSwapXor (P.getD 17 0) (P.getD 16 0)
        (bfRounds S0t S1t S2t S3t
          [P.getD 0 0, P.getD 1 0, P.getD 2 0, P.getD 3 0, P.getD 4 0,
           P.getD 5 0, P.getD 6 0, P.getD 7 0, P.getD 8 0, P.getD 9 0,
           P.getD 10 0, P.getD 11 0, P.getD 12 0, P.getD 13 0, P.getD 14 0,
           P.getD 15 0] (L, R))).1
      (bfSwapXor (P.getD 17 0) (P.getD 16 0)
        (bfRounds S0t S1t S2t S3t
          [P.getD 0 0, P.getD 1 0, P.getD 2 0, P.getD 3 0, P.getD 4 0,
           P.getD 5 0, P.getD 6 0, P.getD 7 0, P.getD 8 0, P.getD 9 0,
           P.getD 10 0, P.getD 11 0, P.getD 12 0, P.getD 13 0, P.getD 14 0,
           P.getD 15 0] (L, R))).2 = (L, R) := by
    show bfSwapXor (P.getD 0 0) (P.getD 1 0)
        (bfRounds S0t S1t S2t S3t
          (P.getD 17 0 :: P.getD 16 0 ::
            ([P.getD 2 0, P.getD 3 0, P.getD 4 0, P.getD 5 0, P.getD 6 0,
              P.getD 7 0, P.getD 8 0, P.getD 9 0, P.getD 10 0, P.getD 11 0,
              P.getD 12 0, P.getD 13 0, P.getD 14 0, P.getD 15 0]).reverse)
          (bfSwapXor (P.getD 17 0) (P.getD 16 0)
            (bfRounds S0t S1t S2t S3t
              (P.getD 0 0 :: P.getD 1 0 ::
                [P.getD 2 0, P.getD 3 0, P.getD 4 0, P.getD 5 0, P.getD 6 0,
                 P.getD 7 0, P.getD 8 0, P.getD 9 0, P.getD 10 0, P.getD 11 0,
                 P.getD 12 0, P.getD 13 0, P.getD 14 0, P.getD 15 0])
              (L, R)))) = (L, R)
    rw [bf_core S0t S1t S2t S3t _ (P.getD 0 0) (P.getD 1 0) (P.getD 17 0)
      (P.getD 16 0) L R]
    show (xor32 (xor32 L (P.getD 0 0)) (P.getD 0 0),
      xor32 (xor32 R (P.getD 1 0)) (P.getD 1 0)) = (L, R)
    rw [xor32_xor32_cancel _ _ hL, xor32_xor32_cancel _ _ hR]
  exact key



theorem list8_eq (l : List Nat) (h : l.length = 8) :
    l = [l.getD 0 0, l.getD 1 0, l.getD 2 0, l.getD 3 0, l.getD 4 0,
         l.getD 5 0, l.getD 6 0, l.getD 7 0] := by
  rcases l with _ | ⟨b0, l⟩
  · simp at h
  rcases l with _ | ⟨b1, l⟩
  · simp at h
  rcases l with _ | ⟨b2, l⟩
  · simp at h
  rcases l with _ | ⟨b3, l⟩
  · simp at h
  rcases l with _ | ⟨b4, l⟩
  · simp at h
  rcases l with _ | ⟨b5, l⟩
  · simp at h
  rcases l with _ | ⟨b6, l⟩
  · simp at h
  rcases l with _ | ⟨b7, l⟩
  · simp at h
  rcases l with _ | ⟨b8, l⟩
  · rfl
  · simp at h


theorem blowfish_block_roundtrip (P S0t S1t S2t S3t block : List Nat)
    (hlen : block.length = 8) (hb : ∀ x ∈ block, x < 256) :
    blowfishDecryptBlock P S0t S1t S2t S3t
      (blowfishEncryptBlock P S0t S1t S2t S3t block) = block := by
  have hg : ∀ i, block.getD i 0 < 256 := getD_lt_256 hb
  unfold blowfishEncryptBlock blowfishDecryptBlock
  set L := pack4 (block.getD 0 0) (block.getD 1 0) (block.getD 2 0)
    (block.getD 3 0) with hLdef
  set R := pack4 (block.getD 4 0) (block.getD 5 0) (block.getD 6 0)
    (block.getD 7 0) with hRdef
  set e := encBlockWords P S0t S1t S2t S3t L R with he
  have he1 : e.1 < 4294967296 := by rw [he]; exact xor32_lt _ _
  have he2 : e.2 < 4294967296 := by rw [he]; exact xor32_lt _ _
  have h1 : pack4 ((unpack4 e.1 ++ unpack4 e.2).getD 0 0)
      ((unpack4 e.1 ++ unpack4 e.2).getD 1 0)
      ((unpack4 e.1 ++ unpack4 e.2).getD 2 0)
      ((unpack4 e.1 ++ unpack4 e.2).getD 3 0) = e.1 := by
    show pack4 ((e.1 >>> 24) &&& 255) ((e.1 >>> 16) &&& 255)
      ((e.1 >>> 8) &&& 255) (e.1 &&& 255) = e.1
    exact pack4_unpack4 _ he1
  have h2 : pack4 ((unpack4 e.1 ++ unpack4 e.2).getD 4 0)
      ((unpack4 e.1 ++ unpack4 e.2).getD 5 0)
      ((unpack4 e.1 ++ unpack4 e.2).getD 6 0)
      ((unpack4 e.1 ++ unpack4 e.2).getD 7 0) = e.2 := by
    show pack4 ((e.2 >>> 24) &&& 255) ((e.2 >>> 16) &&& 255)
      ((e.2 >>> 8) &&& 255) (e.2 &&& 255) = e.2
    exact pack4_unpack4 _ he2
  rw [h1, h2, he, bf_enc_dec P S0t S1t S2t S3t L R (pack4_lt _ _ _ _)
    (pack4_lt _ _ _ _)]
  show unpack4 L ++ unpack4 R = block
  rw [hLdef, hRdef,
    unpack4_pack4 _ _ _ _ (hg 0) (hg 1) (hg 2) (hg 3),
    unpack4_pack4 _ _ _ _ (hg 4) (hg 5) (hg 6) (hg 7)]
  exact (list8_eq block hlen).symm


/-- Blowfish single-block roundtrip on the same instance, for every key and
every initial table contents. -/
theorem BlowfishRaw_roundtrip (P0 S0c S1c S2c S3c key block : List Nat)
    (hlen : block.length = 8) (hb : ∀ x ∈ block, x < 256) :
    BlowfishRawDecrypt P0 S0c S1c S2c S3c key
      (BlowfishRawEncrypt P0 S0c S1c S2c S3c key block) = block :=
  blowfish_block_roundtrip _ _ _ _ _ _ hlen hb


/-! ### Twofish (src/unnamed/part_005)

`P0`, `P1`, `MDS0..MDS3` live in `constants.ts`, which the repository
snapshot does not include; every definition below is parametric in those
tables, and the single-block inversion theorems hold for all table values
(the round functions only read the session `sBox`/`subKeys` arrays, whatever
their contents). All 32-bit JavaScript values are modelled by their
`ToUint32` images. -/

/-- `2^k * m + b` with `b < 2^k` is the OR of its two disjoint parts. -/
theorem two_pow_mul_add_eq_or (k m b : Nat) (hb : b < 2 ^ k) :
    2 ^ k * m ||| b = 2 ^ k * m + b := by
  apply Nat.eq_of_testBit_eq
  intro j
  rw [Nat.testBit_mul_pow_two_add m hb j, Nat.testBit_or]
  have hml : 2 ^ k * m = m <<< k := by rw [Nat.shiftLeft_eq]; ring
  rw [hml, Nat.testBit_shiftLeft]
  rcases Nat.lt_or_ge j k with hj | hj
  · have h1 : ¬ k ≤ j := by omega
    simp [if_pos hj, h1]
  · have hbf : b.testBit j = false :=
      Nat.testBit_eq_false_of_lt
        (lt_of_lt_of_le hb (Nat.pow_le_pow_right (by norm_num) hj))
    have h1 : k ≤ j := hj
    simp [if_neg (by omega : ¬ j < k), h1, hbf]


theorem rol1_eq (x : Nat) (hx : x < 4294967296) :
    rol1 x = 2 * (x % 2147483648) + x / 2147483648 := by
  have h1 : (x <<< 1) % 4294967296 = 2 ^ 1 * (x % 2147483648) := by
    rw [Nat.shiftLeft_eq]
    have : (2 : Nat) ^ 1 = 2 := by norm_num
    rw [this]
    omega
  have h2 : x >>> 31 = x / 2147483648 := by
    rw [Nat.shiftRight_eq_div_pow]
  rw [rol1, h1, h2, two_pow_mul_add_eq_or 1 _ _ (by omega)]
  norm_num


theorem ror1_eq (x : Nat) (hx : x < 4294967296) :
    ror1 x = 2147483648 * (x % 2) + x / 2 := by
  have h1 : (x <<< 31) % 4294967296 = 2 ^ 31 * (x % 2) := by
    rw [Nat.shiftLeft_eq]
    have : (2 : Nat) ^ 31 = 2147483648 := by norm_num
    rw [this]
    omega
  have h2 : x >>> 1 = x / 2 := by
    rw [Nat.shiftRight_eq_div_pow]
  rw [ror1, h1, h2, Nat.lor_comm, two_pow_mul_add_eq_or 31 _ _ (by omega)]
  norm_num


theorem rol1_lt (x : Nat) (hx : x < 4294967296) : rol1 x < 4294967296 := by
  rw [rol1_eq x hx]; omega


theorem ror1_lt (x : Nat) (hx : x < 4294967296) : ror1 x < 4294967296 := by
  rw [ror1_eq x hx]; omega


theorem ror1_rol1 (x : Nat) (hx : x < 4294967296) : ror1 (rol1 x) = x := by
  rw [rol1_eq x hx, ror1_eq _ (by omega)]
  omega


theorem rol1_ror1 (x : Nat) (hx : x < 4294967296) : rol1 (ror1 x) = x := by
  rw [ror1_eq x hx, rol1_eq _ (by omega)]
  omega


theorem tfMixB_tfMixA (s x : Nat) (hx : x < 4294967296) :
    tfMixB s (tfMixA s x) = x := by
  rw [tfMixA, tfMixB, rol1_ror1 _ (xor32_lt _ _), xor32_xor32_cancel _ _ hx]


theorem tfMixA_tfMixB (s x : Nat) (hx : x < 4294967296) :
    tfMixA s (tfMixB s x) = x := by
  rw [tfMixB, tfMixA, xor32_xor32_cancel _ _ (rol1_lt _ hx), ror1_rol1 _ hx]


theorem tf_half_inv (sBox sKey : List Nat) (ka kb pa pb xa xb : Nat)
    (ha : xa < 4294967296) (hb : xb < 4294967296) :
    tfDecHalf sBox sKey kb ka pa pb (tfHalf sBox sKey ka kb pa pb xa xb).2
      (tfHalf sBox sKey ka kb pa pb xa xb).1 = (xb, xa) := by
  show (tfMixA (add32 (add32 (tfT0 sBox pa) (2 * tfT1 sBox pb)) (sKey.getD kb 0))
      (tfMixB (add32 (add32 (tfT0 sBox pa) (2 * tfT1 sBox pb)) (sKey.getD kb 0))
        xb),
    tfMixB (add32 (add32 (tfT0 sBox pa) (tfT1 sBox pb)) (sKey.getD ka 0))
      (tfMixA (add32 (add32 (tfT0 sBox pa) (tfT1 sBox pb)) (sKey.getD ka 0))
        xa)) = (xb, xa)
  rw [tfMixA_tfMixB _ _ hb, tfMixB_tfMixA _ _ ha]


theorem tfRound_inv (sBox sKey : List Nat) (r : Nat) (hr : r ≤ 7)
    (x0 x1 x2 x3 : Nat) (h0 : x0 < 4294967296) (h1 : x1 < 4294967296)
    (h2 : x2 < 4294967296) (h3 : x3 < 4294967296) :
    tfDecRound sBox sKey (7 - r) (tfEncRound sBox sKey r (x0, x1, x2, x3)) =
      (x0, x1, x2, x3) := by
  have hi1 : 39 - 4 * (7 - r) = 8 + 4 * r + 3 := by omega
  have hi2 : 8 + 4 * r + 3 - 1 = 8 + 4 * r + 2 := by omega
  have hi3 : 8 + 4 * r + 3 - 2 = 8 + 4 * r + 1 := by omega
  have hi4 : 8 + 4 * r + 3 - 3 = 8 + 4 * r := by omega
  show tfDecRound sBox sKey (7 - r)
      ((tfHalf sBox sKey (8 + 4 * r + 2) (8 + 4 * r + 3)
          (tfHalf sBox sKey (8 + 4 * r) (8 + 4 * r + 1) x0 x1 x2 x3).1
          (tfHalf sBox sKey (8 + 4 * r) (8 + 4 * r + 1) x0 x1 x2 x3).2 x0 x1).1,
        (tfHalf sBox sKey (8 + 4 * r + 2) (8 + 4 * r + 3)
          (tfHalf sBox sKey (8 + 4 * r) (8 + 4 * r + 1) x0 x1 x2 x3).1
          (tfHalf sBox sKey (8 + 4 * r) (8 + 4 * r + 1) x0 x1 x2 x3).2 x0 x1).2,
        (tfHalf sBox sKey (8 + 4 * r) (8 + 4 * r + 1) x0 x1 x2 x3).1,
        (tfHalf sBox sKey (8 + 4 * r) (8 + 4 * r + 1) x0 x1 x2 x3).2) =
      (x0, x1, x2, x3)
  rw [tfDecRound, hi1, hi2, hi3, hi4]
  rw [tf_half_inv sBox sKey (8 + 4 * r + 2) (8 + 4 * r + 3)
    (tfHalf sBox sKey (8 + 4 * r) (8 + 4 * r + 1) x0 x1 x2 x3).1
    (tfHalf sBox sKey (8 + 4 * r) (8 + 4 * r + 1) x0 x1 x2 x3).2 x0 x1 h0 h1]
  show (x0, x1,
    (tfDecHalf sBox sKey (8 + 4 * r + 1) (8 + 4 * r) x0 x1
      (tfHalf sBox sKey (8 + 4 * r) (8 + 4 * r + 1) x0 x1 x2 x3).2
      (tfHalf sBox sKey (8 + 4 * r) (8 + 4 * r + 1) x0 x1 x2 x3).1).2,
    (tfDecHalf sBox sKey (8 + 4 * r + 1) (8 + 4 * r) x0 x1
      (tfHalf sBox sKey (8 + 4 * r) (8 + 4 * r + 1) x0 x1 x2 x3).2
      (tfHalf sBox sKey (8 + 4 * r) (8 + 4 * r + 1) x0 x1 x2 x3).1).1) =
    (x0, x1, x2, x3)
  rw [tf_half_inv sBox sKey (8 + 4 * r) (8 + 4 * r + 1) x0 x1 x2 x3 h2 h3]


theorem lor_left_comm (a b c : Nat) : a ||| (b ||| c) = b ||| (a ||| c) := by
  rw [← Nat.lor_assoc, Nat.lor_comm a b, Nat.lor_assoc]


theorem leWord_eq (b0 b1 b2 b3 : Nat) (h0 : b0 < 256) (h1 : b1 < 256)
    (h2 : b2 < 256) (h3 : b3 < 256) :
    leWord b0 b1 b2 b3 = b3 * 16777216 + b2 * 65536 + b1 * 256 + b0 := by
  have hac : leWord b0 b1 b2 b3 =
      (b3 <<< 24) ||| (b2 <<< 16) ||| (b1 <<< 8) ||| b0 := by
    rw [leWord]
    simp only [Nat.lor_assoc, Nat.lor_comm, lor_left_comm]
  have hmod : (b3 <<< 24) ||| (b2 <<< 16) ||| (b1 <<< 8) ||| b0 =
      pack4 b3 b2 b1 b0 := by
    rw [pack4]
    have hs3 : b3 <<< 24 < 2 ^ 32 := by rw [Nat.shiftLeft_eq]; omega
    have hs2 : b2 <<< 16 < 2 ^ 32 := by rw [Nat.shiftLeft_eq]; omega
    have hs1 : b1 <<< 8 < 2 ^ 32 := by rw [Nat.shiftLeft_eq]; omega
    have hor : (b3 <<< 24) ||| (b2 <<< 16) ||| (b1 <<< 8) ||| b0 < 2 ^ 32 :=
      Nat.or_lt_two_pow
        (Nat.or_lt_two_pow (Nat.or_lt_two_pow hs3 hs2) hs1) (by omega)
    rw [Nat.mod_eq_of_lt (by omega)]
  rw [hac, hmod, pack4_eq b3 b2 b1 b0 h3 h2 h1 h0]


theorem leWord_lt (b0 b1 b2 b3 : Nat) (h0 : b0 < 256) (h1 : b1 < 256)
    (h2 : b2 < 256) (h3 : b3 < 256) : leWord b0 b1 b2 b3 < 4294967296 := by
  rw [leWord_eq b0 b1 b2 b3 h0 h1 h2 h3]; omega


theorem leUnpack_leWord (b0 b1 b2 b3 : Nat) (h0 : b0 < 256) (h1 : b1 < 256)
    (h2 : b2 < 256) (h3 : b3 < 256) :
    leUnpack (leWord b0 b1 b2 b3) = [b0, b1, b2, b3] := by
  rw [leUnpack, leWord_eq b0 b1 b2 b3 h0 h1 h2 h3,
    and255_eq_mod, and255_eq_mod, and255_eq_mod, and255_eq_mod,
    Nat.shiftRight_eq_div_pow, Nat.shiftRight_eq_div_pow,
    Nat.shiftRight_eq_div_pow]
  have p24 : (2 : Nat) ^ 24 = 16777216 := by norm_num
  have p16 : (2 : Nat) ^ 16 = 65536 := by norm_num
  have p8 : (2 : Nat) ^ 8 = 256 := by norm_num
  rw [p24, p16, p8]
  simp only [List.cons.injEq, and_true]
  omega


theorem leWord_leUnpack (x : Nat) (hx : x < 4294967296) :
    leWord (x &&& 255) ((x >>> 8) &&& 255) ((x >>> 16) &&& 255)
      ((x >>> 24) &&& 255) = x := by
  rw [leWord_eq _ _ _ _ (mask255_lt _) (mask255_lt _) (mask255_lt _)
      (mask255_lt _),
    and255_eq_mod, and255_eq_mod, and255_eq_mod, and255_eq_mod,
    Nat.shiftRight_eq_div_pow, Nat.shiftRight_eq_div_pow,
    Nat.shiftRight_eq_div_pow]
  have p24 : (2 : Nat) ^ 24 = 16777216 := by norm_num
  have p16 : (2 : Nat) ^ 16 = 65536 := by norm_num
  have p8 : (2 : Nat) ^ 8 = 256 := by norm_num
  rw [p24, p16, p8]
  omega



theorem tfEncRound_lt (sBox sKey : List Nat) (r : Nat)
    (s : Nat × Nat × Nat × Nat) :
    (tfEncRound sBox sKey r s).1 < 4294967296 ∧
    (tfEncRound sBox sKey r s).2.1 < 4294967296 ∧
    (tfEncRound sBox sKey r s).2.2.1 < 4294967296 ∧
    (tfEncRound sBox sKey r s).2.2.2 < 4294967296 := by
  obtain ⟨x0, x1, x2, x3⟩ := s
  exact ⟨ror1_lt _ (xor32_lt _ _), xor32_lt _ _, ror1_lt _ (xor32_lt _ _),
    xor32_lt _ _⟩


theorem tf_enc_fold_lt (sBox sKey : List Nat) :
    ∀ (n : Nat) (s : Nat × Nat × Nat × Nat),
    s.1 < 4294967296 → s.2.1 < 4294967296 → s.2.2.1 < 4294967296 →
    s.2.2.2 < 4294967296 →
    ((List.range n).foldl (fun t r => tfEncRound sBox sKey r t) s).1 <
        4294967296 ∧
    ((List.range n).foldl (fun t r => tfEncRound sBox sKey r t) s).2.1 <
        4294967296 ∧
    ((List.range n).foldl (fun t r => tfEncRound sBox sKey r t) s).2.2.1 <
        4294967296 ∧
    ((List.range n).foldl (fun t r => tfEncRound sBox sKey r t) s).2.2.2 <
        4294967296 := by
  intro n
  induction n with
  | zero => intro s h0 h1 h2 h3; exact ⟨h0, h1, h2, h3⟩
  | succ n ih =>
    intro s h0 h1 h2 h3
    rw [List.range_succ, List.foldl_append]
    simp only [List.foldl_cons, List.foldl_nil]
    exact tfEncRound_lt sBox sKey n _


theorem tfRound_inv_tuple (sBox sKey : List Nat) (r : Nat) (hr : r ≤ 7)
    (s : Nat × Nat × Nat × Nat) (h0 : s.1 < 4294967296)
    (h1 : s.2.1 < 4294967296) (h2 : s.2.2.1 < 4294967296)
    (h3 : s.2.2.2 < 4294967296) :
    tfDecRound sBox sKey (7 - r) (tfEncRound sBox sKey r s) = s := by
  obtain ⟨x0, x1, x2, x3⟩ := s
  exact tfRound_inv sBox sKey r hr x0 x1 x2 x3 h0 h1 h2 h3


theorem tf_rounds_inv (sBox sKey : List Nat) :
    ∀ (n : Nat), n ≤ 8 → ∀ (s : Nat × Nat × Nat × Nat),
    s.1 < 4294967296 → s.2.1 < 4294967296 → s.2.2.1 < 4294967296 →
    s.2.2.2 < 4294967296 →
    (List.range' (8 - n) n).foldl (fun t j => tfDecRound sBox sKey j t)
      ((List.range n).foldl (fun t r => tfEncRound sBox sKey r t) s) = s := by
  intro n
  induction n with
  | zero => intro _ s _ _ _ _; rfl
  | succ n ih =>
    intro hn s h0 h1 h2 h3
    rw [List.range_succ, List.foldl_append]
    simp only [List.foldl_cons, List.foldl_nil]
    have hd : List.range' (8 - (n + 1)) (n + 1) =
        (7 - n) :: List.range' (8 - n) n := by
      rw [show 8 - (n + 1) = 7 - n from by omega, List.range'_succ,
        show 7 - n + 1 = 8 - n from by omega]
    rw [hd]
    simp only [List.foldl_cons]
    rw [tfRound_inv_tuple sBox sKey n (by omega) _
      (tf_enc_fold_lt sBox sKey n s h0 h1 h2 h3).1
      (tf_enc_fold_lt sBox sKey n s h0 h1 h2 h3).2.1
      (tf_enc_fold_lt sBox sKey n s h0 h1 h2 h3).2.2.1
      (tf_enc_fold_lt sBox sKey n s h0 h1 h2 h3).2.2.2]
    exact ih (by omega) s h0 h1 h2 h3


theorem twofish_block_roundtrip (sBox sKey block : List Nat)
    (hlen : block.length = 16) (hb : ∀ x ∈ block, x < 256) :
    tfDecryptBlock sBox sKey (tfEncryptBlock sBox sKey block) = block := by
  have hg : ∀ i, block.getD i 0 < 256 := getD_lt_256 hb
  have hfl := tf_enc_fold_lt sBox sKey 8
    (xor32 (leWord (block.getD 0 0) (block.getD 1 0) (block.getD 2 0) (block.getD 3 0)) (sKey.getD 0 0),
     xor32 (leWord (block.getD 4 0) (block.getD 5 0) (block.getD 6 0) (block.getD 7 0)) (sKey.getD 1 0),
     xor32 (leWord (block.getD 8 0) (block.getD 9 0) (block.getD 10 0) (block.getD 11 0)) (sKey.getD 2 0),
     xor32 (leWord (block.getD 12 0) (block.getD 13 0) (block.getD 14 0) (block.getD 15 0)) (sKey.getD 3 0))
    (xor32_lt _ _) (xor32_lt _ _) (xor32_lt _ _) (xor32_lt _ _)
  have hE0 : (tfEncWords sBox sKey block).1 < 4294967296 := hfl.1
  have hE1 : (tfEncWords sBox sKey block).2.1 < 4294967296 := hfl.2.1
  have hE2 : (tfEncWords sBox sKey block).2.2.1 < 4294967296 := hfl.2.2.1
  have hE3 : (tfEncWords sBox sKey block).2.2.2 < 4294967296 := hfl.2.2.2

  have hr0 : leWord ((tfEncryptBlock sBox sKey block).getD 0 0) ((tfEncryptBlock sBox sKey block).getD 1 0)
      ((tfEncryptBlock sBox sKey block).getD 2 0) ((tfEncryptBlock sBox sKey block).getD 3 0) = xor32 (tfEncWords sBox sKey block).2.2.1 (sKey.getD 4 0) := by
    show leWord ((xor32 (tfEncWords sBox sKey block).2.2.1 (sKey.getD 4 0)) &&& 255) (((xor32 (tfEncWords sBox sKey block).2.2.1 (sKey.getD 4 0)) >>> 8) &&& 255)
      (((xor32 (tfEncWords sBox sKey block).2.2.1 (sKey.getD 4 0)) >>> 16) &&& 255) (((xor32 (tfEncWords sBox sKey block).2.2.1 (sKey.getD 4 0)) >>> 24) &&& 255) = xor32 (tfEncWords sBox sKey block).2.2.1 (sKey.getD 4 0)
    exact leWord_leUnpack _ (xor32_lt _ _)
  have hr1 : leWord ((tfEncryptBlock sBox sKey block).getD 4 0) ((tfEncryptBlock sBox sKey block).getD 5 0)
      ((tfEncryptBlock sBox sKey block).getD 6 0) ((tfEncryptBlock sBox sKey block).getD 7 0) = xor32 (tfEncWords sBox sKey block).2.2.2 (sKey.getD 5 0) := by
    show leWord ((xor32 (tfEncWords sBox sKey block).2.2.2 (sKey.getD 5 0)) &&& 255) (((xor32 (tfEncWords sBox sKey block).2.2.2 (sKey.getD 5 0)) >>> 8) &&& 255)
      (((xor32 (tfEncWords sBox sKey block).2.2.2 (sKey.getD 5 0)) >>> 16) &&& 255) (((xor32 (tfEncWords sBox sKey block).2.2.2 (sKey.getD 5 0)) >>> 24) &&& 255) = xor32 (tfEncWords sBox sKey block).2.2.2 (sKey.getD 5 0)
    exact leWord_leUnpack _ (xor32_lt _ _)
  have hr2 : leWord ((tfEncryptBlock sBox sKey block).getD 8 0) ((tfEncryptBlock sBox sKey block).getD 9 0)
      ((tfEncryptBlock sBox sKey block).getD 10 0) ((tfEncryptBlock sBox sKey block).getD 11 0) = xor32 (tfEncWords sBox sKey block).1 (sKey.getD 6 0) := by
    show leWord ((xor32 (tfEncWords sBox sKey block).1 (sKey.getD 6 0)) &&& 255) (((xor32 (tfEncWords sBox sKey block).1 (sKey.getD 6 0)) >>> 8) &&& 255)
      (((xor32 (tfEncWords sBox sKey block).1 (sKey.getD 6 0)) >>> 16) &&& 255) (((xor32 (tfEncWords sBox sKey block).1 (sKey.getD 6 0)) >>> 24) &&& 255) = xor32 (tfEncWords sBox sKey block).1 (sKey.getD 6 0)
    exact leWord_leUnpack _ (xor32_lt _ _)
  have hr3 : leWord ((tfEncryptBlock sBox sKey block).getD 12 0) ((tfEncryptBlock sBox sKey block).getD 13 0)
      ((tfEncryptBlock sBox sKey block).getD 14 0) ((tfEncryptBlock sBox sKey block).getD 15 0) = xor32 (tfEncWords sBox sKey block).2.1 (sKey.getD 7 0) := by
    show leWord ((xor32 (tfEncWords sBox sKey block).2.1 (sKey.getD 7 0)) &&& 255) (((xor32 (tfEncWords sBox sKey block).2.1 (sKey.getD 7 0)) >>> 8) &&& 255)
      (((xor32 (tfEncWords sBox sKey block).2.1 (sKey.getD 7 0)) >>> 16) &&& 255) (((xor32 (tfEncWords sBox sKey block).2.1 (sKey.getD 7 0)) >>> 24) &&& 255) = xor32 (tfEncWords sBox sKey block).2.1 (sKey.getD 7 0)
    exact leWord_leUnpack _ (xor32_lt _ _)
  have h8 := tf_rounds_inv sBox sKey 8 (le_refl 8)
    (xor32 (leWord (block.getD 0 0) (block.getD 1 0) (block.getD 2 0) (block.getD 3 0)) (sKey.getD 0 0),
     xor32 (leWord (block.getD 4 0) (block.getD 5 0) (block.getD 6 0) (block.getD 7 0)) (sKey.getD 1 0),
     xor32 (leWord (block.getD 8 0) (block.getD 9 0) (block.getD 10 0) (block.getD 11 0)) (sKey.getD 2 0),
     xor32 (leWord (block.getD 12 0) (block.getD 13 0) (block.getD 14 0) (block.getD 15 0)) (sKey.getD 3 0))
    (xor32_lt _ _) (xor32_lt _ _) (xor32_lt _ _) (xor32_lt _ _)
  simp only [show (8 : Nat) - 8 = 0 from rfl] at h8
  rw [← List.range_eq_range'] at h8
  have hdw : tfDecWords sBox sKey (tfEncryptBlock sBox sKey block) =
      (xor32 (leWord (block.getD 0 0) (block.getD 1 0) (block.getD 2 0) (block.getD 3 0)) (sKey.getD 0 0),
     xor32 (leWord (block.getD 4 0) (block.getD 5 0) (block.getD 6 0) (block.getD 7 0)) (sKey.getD 1 0),
     xor32 (leWord (block.getD 8 0) (block.getD 9 0) (block.getD 10 0) (block.getD 11 0)) (sKey.getD 2 0),
     xor32 (leWord (block.getD 12 0) (block.getD 13 0) (block.getD 14 0) (block.getD 15 0)) (sKey.getD 3 0)) := by
    unfold tfDecWords
    rw [hr2, hr3, hr0, hr1,
      xor32_xor32_cancel _ _ hE0, xor32_xor32_cancel _ _ hE1,
      xor32_xor32_cancel _ _ hE2, xor32_xor32_cancel _ _ hE3]
    simp only [Prod.mk.eta]
    exact h8
  unfold tfDecryptBlock
  rw [hdw]
  rw [xor32_xor32_cancel _ _ (leWord_lt _ _ _ _ (hg 0) (hg 1) (hg 2) (hg 3)),
    xor32_xor32_cancel _ _ (leWord_lt _ _ _ _ (hg 4) (hg 5) (hg 6) (hg 7)),
    xor32_xor32_cancel _ _ (leWord_lt _ _ _ _ (hg 8) (hg 9) (hg 10) (hg 11)),
    xor32_xor32_cancel _ _ (leWord_lt _ _ _ _ (hg 12) (hg 13) (hg 14) (hg 15)),
    leUnpack_leWord _ _ _ _ (hg 0) (hg 1) (hg 2) (hg 3),
    leUnpack_leWord _ _ _ _ (hg 4) (hg 5) (hg 6) (hg 7),
    leUnpack_leWord _ _ _ _ (hg 8) (hg 9) (hg 10) (hg 11),
    leUnpack_leWord _ _ _ _ (hg 12) (hg 13) (hg 14) (hg 15)]
  simp only [List.cons_append, List.nil_append]
  exact (list16_eq block hlen).symm


theorem TwofishRaw_roundtrip (P0t P1t M0 M1 M2 M3 key block : List Nat)
    (hlen : block.length = 16) (hb : ∀ x ∈ block, x < 256) :
    TwofishRawDecrypt P0t P1t M0 M1 M2 M3 key
      (TwofishRawEncrypt P0t P1t M0 M1 M2 M3 key block) = block :=
  twofish_block_roundtrip _ _ _ hlen hb


theorem makeSession_zero_extend (P0t P1t M0 M1 M2 M3 key : List Nat)
    (h32 : key.length ≤ 32) (hm : key.length = 0 ∨ key.length % 8 ≠ 0) :
    makeSession P0t P1t M0 M1 M2 M3 key =
      makeSession P0t P1t M0 M1 M2 M3
        (key ++ List.replicate (8 - key.length % 8) 0) := by
  have h1 : tfNormKey key =
      (key ++ List.replicate (8 - key.length % 8) 0,
       key.length + (8 - key.length % 8)) := by
    unfold tfNormKey
    rw [if_neg (by omega), if_pos hm]
  have h2 : tfNormKey (key ++ List.replicate (8 - key.length % 8) 0) =
      (key ++ List.replicate (8 - key.length % 8) 0,
       key.length + (8 - key.length % 8)) := by
    unfold tfNormKey
    simp only [List.length_append, List.length_replicate]
    rw [if_neg (by omega), if_neg (by omega)]
  unfold makeSession
  rw [h1, h2]


theorem makeSession_truncate (P0t P1t M0 M1 M2 M3 key : List Nat)
    (h : 32 < key.length) :
    makeSession P0t P1t M0 M1 M2 M3 key =
      makeSessionNorm P0t P1t M0 M1 M2 M3 (key.take 32) key.length := by
  unfold makeSession
  rw [show tfNormKey key = (key.take 32, key.length) from by
    unfold tfNormKey; rw [if_pos h]]


set_option maxRecDepth 8192 in
theorem tf_trunc_counterexample :
    ((makeSession (List.range 256)
        ((List.range 256).map (fun i => (i + 1) % 256)) (List.range 256)
        (List.range 256) (List.range 256) (List.range 256)
        (List.replicate 40 0)).2 ≠
      (makeSession (List.range 256)
        ((List.range 256).map (fun i => (i + 1) % 256)) (List.range 256)
        (List.range 256) (List.range 256) (List.range 256)
        ((List.replicate 40 0).take 32)).2) := by
  decide


theorem hRead_set_ne (h : List (List Nat)) (a b : Nat) (v : List Nat)
    (hne : b ≠ a) : hRead (h.set a v) b = hRead h b := by
  unfold hRead
  rw [List.getD_eq_getElem?_getD, List.getD_eq_getElem?_getD,
    List.getElem?_set_ne (by omega)]


theorem hRead_append (h l : List (List Nat)) (b : Nat) (hb : b < h.length) :
    hRead (h ++ l) b = hRead h b := by
  unfold hRead
  rw [List.getD_append _ _ _ _ hb]


theorem ecbLoopH_frame (E : List Nat → List Nat) (bs dataId outId : Nat) :
    ∀ (k j : Nat) (h : List (List Nat)) (id : Nat), id ≠ outId →
    hRead (ecbLoopH E bs dataId outId j k h) id = hRead h id := by
  intro k
  induction k with
  | zero => intro j h id _; rfl
  | succ k ih =>
    intro j h id hid
    rw [ecbLoopH, ih (j + 1) _ id hid, hRead_set_ne _ _ _ _ hid]


theorem cbcEncLoopH_frame (E : List Nat → List Nat) (bs dataId outId : Nat) :
    ∀ (k j : Nat) (prev : List Nat) (h : List (List Nat)) (id : Nat),
    id ≠ outId →
    hRead (cbcEncLoopH E bs dataId outId j k prev h) id = hRead h id := by
  intro k
  induction k with
  | zero => intro j prev h id _; rfl
  | succ k ih =>
    intro j prev h id hid
    rw [cbcEncLoopH, ih (j + 1) _ _ id hid, hRead_set_ne _ _ _ _ hid]


theorem cbcDecLoopH_frame (D : List Nat → List Nat) (bs dataId outId : Nat) :
    ∀ (k j : Nat) (prev : List Nat) (h : List (List Nat)) (id : Nat),
    id ≠ outId →
    hRead (cbcDecLoopH D bs dataId outId j k prev h) id = hRead h id := by
  intro k
  induction k with
  | zero => intro j prev h id _; rfl
  | succ k ih =>
    intro j prev h id hid
    rw [cbcDecLoopH, ih (j + 1) _ _ id hid, hRead_set_ne _ _ _ _ hid]


theorem cfbEncLoopH_frame (E : List Nat → List Nat) (bs s dataId outId : Nat) :
    ∀ (k i : Nat) (reg : List Nat) (h : List (List Nat)) (id : Nat),
    id ≠ outId →
    hRead (cfbEncLoopH E bs s dataId outId i k reg h) id = hRead h id := by
  intro k
  induction k with
  | zero => intro i reg h id _; rfl
  | succ k ih =>
    intro i reg h id hid
    rw [cfbEncLoopH, ih (i + 1) _ _ id hid, hRead_set_ne _ _ _ _ hid]


theorem cfbDecLoopH_frame (E : List Nat → List Nat) (bs s dataId outId : Nat) :
    ∀ (k i : Nat) (reg : List Nat) (h : List (List Nat)) (id : Nat),
    id ≠ outId →
    hRead (cfbDecLoopH E bs s dataId outId i k reg h) id = hRead h id := by
  intro k
  induction k with
  | zero => intro i reg h id _; rfl
  | succ k ih =>
    intro i reg h id hid
    rw [cfbDecLoopH, ih (i + 1) _ _ id hid, hRead_set_ne _ _ _ _ hid]


theorem ofbLoopH_frame (E : List Nat → List Nat) (bs dataId outId : Nat) :
    ∀ (k i : Nat) (reg ks : List Nat) (idx : Nat) (h : List (List Nat))
    (id : Nat), id ≠ outId →
    hRead (ofbLoopH E bs dataId outId i k reg ks idx h) id = hRead h id := by
  intro k
  induction k with
  | zero => intro i reg ks idx h id _; rfl
  | succ k ih =>
    intro i reg ks idx h id hid
    rw [ofbLoopH]
    by_cases hb : idx = bs
    · rw [if_pos hb, ih (i + 1) _ _ _ _ id hid, hRead_set_ne _ _ _ _ hid]
    · rw [if_neg hb, ih (i + 1) _ _ _ _ id hid, hRead_set_ne _ _ _ _ hid]


theorem ctrLoopH_frame (E : List Nat → List Nat) (bs dataId outId : Nat) :
    ∀ (k i : Nat) (ctr ks : List Nat) (idx : Nat) (h : List (List Nat))
    (id : Nat), id ≠ outId →
    hRead (ctrLoopH E bs dataId outId i k ctr ks idx h) id = hRead h id := by
  intro k
  induction k with
  | zero => intro i ctr ks idx h id _; rfl
  | succ k ih =>
    intro i ctr ks idx h id hid
    rw [ctrLoopH]
    by_cases hb : idx = bs
    · rw [if_pos hb, ih (i + 1) _ _ _ _ id hid, hRead_set_ne _ _ _ _ hid]
    · rw [if_neg hb, ih (i + 1) _ _ _ _ id hid, hRead_set_ne _ _ _ _ hid]



theorem ecbEncryptRawH_frame (E : List Nat → List Nat) (bs dataId : Nat)
    (h : List (List Nat)) (hm : (hRead h dataId).length % bs = 0) :
    ∃ h2 outId, ecbEncryptRawH E bs dataId h = some (h2, outId) ∧
      outId = h.length ∧ ∀ id, id < h.length → hRead h2 id = hRead h id := by
  refine ⟨ecbLoopH E bs dataId h.length 0 ((hRead h dataId).length / bs)
      (h ++ [List.replicate (hRead h dataId).length 0]), h.length, ?_, rfl, ?_⟩
  · rw [ecbEncryptRawH, if_pos hm]
  · intro id hid
    rw [ecbLoopH_frame E bs dataId h.length _ _ _ id (by omega),
      hRead_append _ _ _ hid]


theorem ecbDecryptRawH_frame (D : List Nat → List Nat) (bs dataId : Nat)
    (h : List (List Nat)) (hm : (hRead h dataId).length % bs = 0) :
    ∃ h2 outId, ecbDecryptRawH D bs dataId h = some (h2, outId) ∧
      outId = h.length ∧ ∀ id, id < h.length → hRead h2 id = hRead h id := by
  refine ⟨ecbLoopH D bs dataId h.length 0 ((hRead h dataId).length / bs)
      (h ++ [List.replicate (hRead h dataId).length 0]), h.length, ?_, rfl, ?_⟩
  · rw [ecbDecryptRawH, if_pos hm]
  · intro id hid
    rw [ecbLoopH_frame D bs dataId h.length _ _ _ id (by omega),
      hRead_append _ _ _ hid]


theorem cbcEncryptRawH_frame (E : List Nat → List Nat) (bs dataId ivId : Nat)
    (h : List (List Nat)) (hiv : (hRead h ivId).length = bs)
    (hm : (hRead h dataId).length % bs = 0) :
    ∃ h2 outId, cbcEncryptRawH E bs dataId ivId h = some (h2, outId) ∧
      outId = h.length ∧ ∀ id, id < h.length → hRead h2 id = hRead h id := by
  refine ⟨cbcEncLoopH E bs dataId h.length 0 ((hRead h dataId).length / bs)
      (hRead h ivId) (h ++ [List.replicate (hRead h dataId).length 0]),
    h.length, ?_, rfl, ?_⟩
  · rw [cbcEncryptRawH, if_pos ⟨hiv, hm⟩]
  · intro id hid
    rw [cbcEncLoopH_frame E bs dataId h.length _ _ _ _ id (by omega),
      hRead_append _ _ _ hid]


theorem cbcDecryptRawH_frame (D : List Nat → List Nat) (bs dataId ivId : Nat)
    (h : List (List Nat)) (hiv : (hRead h ivId).length = bs)
    (hm : (hRead h dataId).length % bs = 0) :
    ∃ h2 outId, cbcDecryptRawH D bs dataId ivId h = some (h2, outId) ∧
      outId = h.length ∧ ∀ id, id < h.length → hRead h2 id = hRead h id := by
  refine ⟨cbcDecLoopH D bs dataId h.length 0 ((hRead h dataId).length / bs)
      (hRead h ivId) (h ++ [List.replicate (hRead h dataId).length 0]),
    h.length, ?_, rfl, ?_⟩
  · rw [cbcDecryptRawH, if_pos ⟨hiv, hm⟩]
  · intro id hid
    rw [cbcDecLoopH_frame D bs dataId h.length _ _ _ _ id (by omega),
      hRead_append _ _ _ hid]


theorem cfbEncryptRawH_frame (E : List Nat → List Nat) (bs s dataId ivId : Nat)
    (h : List (List Nat)) (hiv : (hRead h ivId).length = bs) (hs1 : 1 ≤ s)
    (hs2 : s ≤ bs) (hm : (hRead h dataId).length % s = 0) :
    ∃ h2 outId, cfbEncryptRawH E bs s dataId ivId h = some (h2, outId) ∧
      outId = h.length ∧ ∀ id, id < h.length → hRead h2 id = hRead h id := by
  refine ⟨cfbEncLoopH E bs s dataId h.length 0 ((hRead h dataId).length / s)
      (hRead h ivId) (h ++ [List.replicate (hRead h dataId).length 0]),
    h.length, ?_, rfl, ?_⟩
  · rw [cfbEncryptRawH, if_pos ⟨hiv, hs1, hs2, hm⟩]
  · intro id hid
    rw [cfbEncLoopH_frame E bs s dataId h.length _ _ _ _ id (by omega),
      hRead_append _ _ _ hid]


theorem cfbDecryptRawH_frame (E : List Nat → List Nat) (bs s dataId ivId : Nat)
    (h : List (List Nat)) (hiv : (hRead h ivId).length = bs) (hs1 : 1 ≤ s)
    (hs2 : s ≤ bs) (hm : (hRead h dataId).length % s = 0) :
    ∃ h2 outId, cfbDecryptRawH E bs s dataId ivId h = some (h2, outId) ∧
      outId = h.length ∧ ∀ id, id < h.length → hRead h2 id = hRead h id := by
  refine ⟨cfbDecLoopH E bs s dataId h.length 0 ((hRead h dataId).length / s)
      (hRead h ivId) (h ++ [List.replicate (hRead h dataId).length 0]),
    h.length, ?_, rfl, ?_⟩
  · rw [cfbDecryptRawH, if_pos ⟨hiv, hs1, hs2, hm⟩]
  · intro id hid
    rw [cfbDecLoopH_frame E bs s dataId h.length _ _ _ _ id (by omega),
      hRead_append _ _ _ hid]


theorem ofbXorRawH_frame (E : List Nat → List Nat) (bs dataId ivId : Nat)
    (h : List (List Nat)) (hiv : (hRead h ivId).length = bs) :
    ∃ h2 outId, ofbXorRawH E bs dataId ivId h = some (h2, outId) ∧
      outId = h.length ∧ ∀ id, id < h.length → hRead h2 id = hRead h id := by
  refine ⟨ofbLoopH E bs dataId h.length 0 (hRead h dataId).length
      (hRead h ivId) (List.replicate bs 0) bs
      (h ++ [List.replicate (hRead h dataId).length 0]),
    h.length, ?_, rfl, ?_⟩
  · rw [ofbXorRawH, if_pos hiv]
  · intro id hid
    rw [ofbLoopH_frame E bs dataId h.length _ _ _ _ _ _ id (by omega),
      hRead_append _ _ _ hid]


theorem ctrXorRawH_frame (E : List Nat → List Nat) (bs dataId ctrId : Nat)
    (h : List (List Nat)) (hiv : (hRead h ctrId).length = bs) :
    ∃ h2 outId, ctrXorRawH E bs dataId ctrId h = some (h2, outId) ∧
      outId = h.length ∧ ∀ id, id < h.length → hRead h2 id = hRead h id := by
  refine ⟨ctrLoopH E bs dataId h.length 0 (hRead h dataId).length
      (hRead h ctrId) (List.replicate bs 0) bs
      (h ++ [List.replicate (hRead h dataId).length 0]),
    h.length, ?_, rfl, ?_⟩
  · rw [ctrXorRawH, if_pos hiv]
  · intro id hid
    rw [ctrLoopH_frame E bs dataId h.length _ _ _ _ _ _ id (by omega),
      hRead_append _ _ _ hid]


/-- C10: every non-inplace mode function returns a freshly allocated output
buffer (`outId = h.length`, an id not present before the call) and leaves
every pre-existing array — in particular the caller-supplied data and
IV/counter — byte-for-byte unchanged; the IV/counter is cloned into a pure
register before use. -/
theorem c10_modes_fresh_output_and_frame :
    (∀ (E : List Nat → List Nat) (bs dataId : Nat) (h : List (List Nat)),
      (hRead h dataId).length % bs = 0 →
      ∃ h2 outId, ecbEncryptRawH E bs dataId h = some (h2, outId) ∧
        outId = h.length ∧ ∀ id, id < h.length → hRead h2 id = hRead h id) ∧
    (∀ (D : List Nat → List Nat) (bs dataId : Nat) (h : List (List Nat)),
      (hRead h dataId).length % bs = 0 →
      ∃ h2 outId, ecbDecryptRawH D bs dataId h = some (h2, outId) ∧
        outId = h.length ∧ ∀ id, id < h.length → hRead h2 id = hRead h id) ∧
    (∀ (E : List Nat → List Nat) (bs dataId ivId : Nat) (h : List (List Nat)),
      (hRead h ivId).length = bs → (hRead h dataId).length % bs = 0 →
      ∃ h2 outId, cbcEncryptRawH E bs dataId ivId h = some (h2, outId) ∧
        outId = h.length ∧ ∀ id, id < h.length → hRead h2 id = hRead h id) ∧
    (∀ (D : List Nat → List Nat) (bs dataId ivId : Nat) (h : List (List Nat)),
      (hRead h ivId).length = bs → (hRead h dataId).length % bs = 0 →
      ∃ h2 outId, cbcDecryptRawH D bs dataId ivId h = some (h2, outId) ∧
        outId = h.length ∧ ∀ id, id < h.length → hRead h2 id = hRead h id) ∧
    (∀ (E : List Nat → List Nat) (bs s dataId ivId : Nat)
      (h : List (List Nat)),
      (hRead h ivId).length = bs → 1 ≤ s → s ≤ bs →
      (hRead h dataId).length % s = 0 →
      ∃ h2 outId, cfbEncryptRawH E bs s dataId ivId h = some (h2, outId) ∧
        outId = h.length ∧ ∀ id, id < h.length → hRead h2 id = hRead h id) ∧
    (∀ (E : List Nat → List Nat) (bs s dataId ivId : Nat)
      (h : List (List Nat)),
      (hRead h ivId).length = bs → 1 ≤ s → s ≤ bs →
      (hRead h dataId).length % s = 0 →
      ∃ h2 outId, cfbDecryptRawH E bs s dataId ivId h = some (h2, outId) ∧
        outId = h.length ∧ ∀ id, id < h.length → hRead h2 id = hRead h id) ∧
    (∀ (E : List Nat → List Nat) (bs dataId ivId : Nat) (h : List (List Nat)),
      (hRead h ivId).length = bs →
      ∃ h2 outId, ofbXorRawH E bs dataId ivId h = some (h2, outId) ∧
        outId = h.length ∧ ∀ id, id < h.length → hRead h2 id = hRead h id) ∧
    (∀ (E : List Nat → List Nat) (bs dataId ctrId : Nat) (h : List (List Nat)),
      (hRead h ctrId).length = bs →
      ∃ h2 outId, ctrXorRawH E bs dataId ctrId h = some (h2, outId) ∧
        outId = h.length ∧ ∀ id, id < h.length → hRead h2 id = hRead h id) :=
  ⟨ecbEncryptRawH_frame, ecbDecryptRawH_frame, cbcEncryptRawH_frame,
   cbcDecryptRawH_frame, cfbEncryptRawH_frame, cfbDecryptRawH_frame,
   ofbXorRawH_frame, ctrXorRawH_frame⟩


/-- C10 witness: all eight mode functions on a two-array heap. -/
theorem c10_modes_fresh_output_and_frame_witness :
    (∃ h2 outId, ecbEncryptRawH (fun _ => []) 1 0 [[3], [4]] =
        some (h2, outId) ∧ outId = 2 ∧
      ∀ id, id < 2 → hRead h2 id = hRead [[3], [4]] id) ∧
    (∃ h2 outId, ecbDecryptRawH (fun _ => []) 1 0 [[3], [4]] =
        some (h2, outId) ∧ outId = 2 ∧
      ∀ id, id < 2 → hRead h2 id = hRead [[3], [4]] id) ∧
    (∃ h2 outId, cbcEncryptRawH (fun _ => []) 1 0 1 [[3], [4]] =
        some (h2, outId) ∧ outId = 2 ∧
      ∀ id, id < 2 → hRead h2 id = hRead [[3], [4]] id) ∧
    (∃ h2 outId, cbcDecryptRawH (fun _ => []) 1 0 1 [[3], [4]] =
        some (h2, outId) ∧ outId = 2 ∧
      ∀ id, id < 2 → hRead h2 id = hRead [[3], [4]] id) ∧
    (∃ h2 outId, cfbEncryptRawH (fun _ => []) 1 1 0 1 [[3], [4]] =
        some (h2, outId) ∧ outId = 2 ∧
      ∀ id, id < 2 → hRead h2 id = hRead [[3], [4]] id) ∧
    (∃ h2 outId, cfbDecryptRawH (fun _ => []) 1 1 0 1 [[3], [4]] =
        some (h2, outId) ∧ outId = 2 ∧
      ∀ id, id < 2 → hRead h2 id = hRead [[3], [4]] id) ∧
    (∃ h2 outId, ofbXorRawH (fun _ => []) 1 0 1 [[3], [4]] =
        some (h2, outId) ∧ outId = 2 ∧
      ∀ id, id < 2 → hRead h2 id = hRead [[3], [4]] id) ∧
    (∃ h2 outId, ctrXorRawH (fun _ => []) 1 0 1 [[3], [4]] =
        some (h2, outId) ∧ outId = 2 ∧
      ∀ id, id < 2 → hRead h2 id = hRead [[3], [4]] id) :=
  ⟨c10_modes_fresh_output_and_frame.1 _ 1 0 [[3], [4]] (by decide),
   c10_modes_fresh_output_and_frame.2.1 _ 1 0 [[3], [4]] (by decide),
   c10_modes_fresh_output_and_frame.2.2.1 _ 1 0 1 [[3], [4]] (by decide)
     (by decide),
   c10_modes_fresh_output_and_frame.2.2.2.1 _ 1 0 1 [[3], [4]] (by decide)
     (by decide),
   c10_modes_fresh_output_and_frame.2.2.2.2.1 _ 1 1 0 1 [[3], [4]] (by decide)
     (by decide) (by decide) (by decide),
   c10_modes_fresh_output_and_frame.2.2.2.2.2.1 _ 1 1 0 1 [[3], [4]]
     (by decide) (by decide) (by decide) (by decide),
   c10_modes_fresh_output_and_frame.2.2.2.2.2.2.1 _ 1 0 1 [[3], [4]]
     (by decide),
   c10_modes_fresh_output_and_frame.2.2.2.2.2.2.2 _ 1 0 1 [[3], [4]]
     (by decide)⟩



set_option maxRecDepth 2048 in
/-- C4: for each engine — `AESRaw` with a 16/24/32-byte key, `BlowfishRaw`
with a nonempty key and any initial table contents, `TwofishRaw` with a key
of 1..32 bytes and any table contents — `decryptBlock` applied to the output
of `encryptBlock` on the same instance returns the original single block. -/
theorem c4_block_roundtrip_all_engines :
    (∀ key block : List Nat,
      (key.length = 16 ∨ key.length = 24 ∨ key.length = 32) →
      block.length = 16 → (∀ b ∈ block, b < 256) →
      ∃ c, AESRawEncrypt key block = some c ∧
        AESRawDecrypt key c = some block) ∧
    (∀ P0 S0c S1c S2c S3c key block : List Nat, 1 ≤ key.length →
      block.length = 8 → (∀ b ∈ block, b < 256) →
      BlowfishRawDecrypt P0 S0c S1c S2c S3c key
        (BlowfishRawEncrypt P0 S0c S1c S2c S3c key block) = block) ∧
    (∀ P0t P1t M0 M1 M2 M3 key block : List Nat, 1 ≤ key.length →
      key.length ≤ 32 → block.length = 16 → (∀ b ∈ block, b < 256) →
      TwofishRawDecrypt P0t P1t M0 M1 M2 M3 key
        (TwofishRawEncrypt P0t P1t M0 M1 M2 M3 key block) = block) :=
  ⟨fun key block hk hl hb => aes_block_roundtrip key block hk hl hb,
   fun P0 S0c S1c S2c S3c key block _ hl hb =>
     BlowfishRaw_roundtrip P0 S0c S1c S2c S3c key block hl hb,
   fun P0t P1t M0 M1 M2 M3 key block _ _ hl hb =>
     TwofishRaw_roundtrip P0t P1t M0 M1 M2 M3 key block hl hb⟩


set_option maxRecDepth 2048 in
/-- C4 witness: the three roundtrips at concrete keys and blocks. -/
theorem c4_block_roundtrip_all_engines_witness :
    (∃ c, AESRawEncrypt
        [0, 1, 2, 3, 4, 5, 6, 7, 8, 9, 10, 11, 12, 13, 14, 15]
        (List.replicate 16 7) = some c ∧
      AESRawDecrypt [0, 1, 2, 3, 4, 5, 6, 7, 8, 9, 10, 11, 12, 13, 14, 15] c =
        some (List.replicate 16 7)) ∧
    BlowfishRawDecrypt [] [] [] [] [] [9]
      (BlowfishRawEncrypt [] [] [] [] [] [9] [1, 2, 3, 4, 5, 6, 7, 8]) =
      [1, 2, 3, 4, 5, 6, 7, 8] ∧
    TwofishRawDecrypt [] [] [] [] [] [] [9]
      (TwofishRawEncrypt [] [] [] [] [] [] [9] (List.replicate 16 3)) =
      List.replicate 16 3 :=
  ⟨c4_block_roundtrip_all_engines.1 _ _ (by decide) (by decide) (by decide),
   c4_block_roundtrip_all_engines.2.1 [] [] [] [] [] [9] _ (by decide)
     (by decide) (by decide),
   c4_block_roundtrip_all_engines.2.2 [] [] [] [] [] [] [9] _ (by decide)
     (by decide) (by decide) (by decide)⟩


/-- C9 (amended): `makeSession` never rejects a key; a key of at most 32
bytes whose length is 0 or not a multiple of 8 yields exactly the schedule of
the key zero-extended to the next multiple of 8; a key longer than 32 bytes
is truncated to its first 32 bytes but `keyLength` keeps the original
length, so the schedule is the one of the truncated key under the
untruncated `keyLength` — not the schedule of the first 32 bytes. -/
theorem c9_twofish_makeSession_amended :
    (∀ P0t P1t M0 M1 M2 M3 key : List Nat, key.length ≤ 32 →
      (key.length = 0 ∨ key.length % 8 ≠ 0) →
      makeSession P0t P1t M0 M1 M2 M3 key =
        makeSession P0t P1t M0 M1 M2 M3
          (key ++ List.replicate (8 - key.length % 8) 0)) ∧
    (∀ P0t P1t M0 M1 M2 M3 key : List Nat, 32 < key.length →
      makeSession P0t P1t M0 M1 M2 M3 key =
        makeSessionNorm P0t P1t M0 M1 M2 M3 (key.take 32) key.length) :=
  ⟨makeSession_zero_extend, makeSession_truncate⟩


/-- C9 witness: zero-extension of a 1-byte key and truncation of a 33-byte
key, at concrete table contents. -/
theorem c9_twofish_makeSession_amended_witness :
    makeSession [] [] [] [] [] [] [5] =
      makeSession [] [] [] [] [] [] ([5] ++ List.replicate 7 0) ∧
    makeSession [] [] [] [] [] [] (List.replicate 33 0) =
      makeSessionNorm [] [] [] [] [] [] ((List.replicate 33 0).take 32) 33 :=
  ⟨c9_twofish_makeSession_amended.1 [] [] [] [] [] [] [5] (by decide)
     (by decide),
   c9_twofish_makeSession_amended.2 [] [] [] [] [] [] (List.replicate 33 0)
     (by decide)⟩

